import Mathlib

/-!
# Livaura: the expense-settlement engine and the routes around it

A shallow embedding of `calculateEffectiveContributions` and of the `/split`,
`/chart-data`, `/settle`, `POST /`, `/clear` and `DELETE /:id` routes of `expenseRoutes.js`, of
`PUT /:id/purchase` of `groceryRoutes.js`, of the membership routes of
`roomRoutes.js` and of `PUT /:id/accept` of `requestRoutes.js`, together with the
Mongoose collections they read and write.

Modelling conventions.

* A JavaScript `Number` is a `JsNum`: a finite value is an exact rational (the
  rounding of IEEE doubles is not modelled), and `Infinity`, `-Infinity` and
  `NaN` are separate values with the IEEE rules for `+ - * /` and comparisons.
  The sign of zero is not tracked; every divisor in the embedded code is either
  an array length or a value already tested to be `> 0`.
* An `ObjectId` is a natural number, and `toString()` / `equals` on ids is
  equality of these numbers.
* A JavaScript `Map` is an insertion-ordered association list with unique keys.
* A plain object used as a dictionary (`balances`, `chartData`) is an association
  list with assignment semantics; the enumeration order of its keys and the
  special key `__proto__` are not modelled.
* `populate('members', 'name')` is the identity: a room carries its member
  documents (`_id`, `name`), and so does a join request for its `user`.
* `addedBy`, `paidBy`, `room` and `amount` are `required` in the schemas, so
  they are plain fields; the truthiness guards `if (exp.addedBy)` and
  `if (s.paidBy)` always pass on an `ObjectId`.
* A route is a function from the database and the request to a response and the
  database afterwards; the requesting user is the `req.user` set by `protect`.
  A document that fails schema validation is not stored and the route answers
  with its `catch` block.
-/

namespace Livaura

/-! ## JavaScript numbers -/

/-- A JavaScript number: an exact finite value or one of the non-finite values. -/
inductive JsNum where
  | fin (q : ℚ)
  | posInf
  | negInf
  | nan
  deriving DecidableEq, Repr

namespace JsNum

/-- The result of `Number.isFinite`. -/
def isFinite : JsNum → Bool
  | fin _ => true
  | _ => false

/-- Unary minus. -/
def neg : JsNum → JsNum
  | fin a => fin (-a)
  | posInf => negInf
  | negInf => posInf
  | nan => nan

/-- The `+` operator on numbers. -/
def add : JsNum → JsNum → JsNum
  | fin a, fin b => fin (a + b)
  | nan, _ => nan
  | _, nan => nan
  | posInf, negInf => nan
  | negInf, posInf => nan
  | posInf, _ => posInf
  | negInf, _ => negInf
  | fin _, posInf => posInf
  | fin _, negInf => negInf

/-- The `-` operator on numbers. -/
def sub (a b : JsNum) : JsNum := add a (neg b)

/-- The product of an infinity (positive or negative) with the finite value `q`: `NaN` for `q = 0`. -/
def infTimes (positive : Bool) (q : ℚ) : JsNum :=
  if q = 0 then nan
  else if (decide (0 < q)) = positive then posInf else negInf

/-- The `*` operator on numbers. -/
def mul : JsNum → JsNum → JsNum
  | fin a, fin b => fin (a * b)
  | nan, _ => nan
  | _, nan => nan
  | posInf, posInf => posInf
  | posInf, negInf => negInf
  | negInf, posInf => negInf
  | negInf, negInf => posInf
  | posInf, fin b => infTimes true b
  | negInf, fin b => infTimes false b
  | fin a, posInf => infTimes true a
  | fin a, negInf => infTimes false a

/-- The `/` operator on numbers (a zero divisor is taken as `+0`). -/
def div : JsNum → JsNum → JsNum
  | fin a, fin b =>
    if b = 0 then (if a = 0 then nan else if 0 < a then posInf else negInf)
    else fin (a / b)
  | nan, _ => nan
  | _, nan => nan
  | fin _, posInf => fin 0
  | fin _, negInf => fin 0
  | posInf, fin b => if 0 ≤ b then posInf else negInf
  | negInf, fin b => if 0 ≤ b then negInf else posInf
  | posInf, posInf => nan
  | posInf, negInf => nan
  | negInf, posInf => nan
  | negInf, negInf => nan

/-- The `>` operator on numbers: false as soon as one side is `NaN`. -/
def gt : JsNum → JsNum → Bool
  | fin a, fin b => decide (b < a)
  | nan, _ => false
  | _, nan => false
  | posInf, posInf => false
  | posInf, _ => true
  | negInf, _ => false
  | fin _, posInf => false
  | fin _, negInf => true

/-- The `<=` operator on numbers: false as soon as one side is `NaN`. -/
def le : JsNum → JsNum → Bool
  | fin a, fin b => decide (a ≤ b)
  | nan, _ => false
  | _, nan => false
  | negInf, _ => true
  | posInf, posInf => true
  | posInf, _ => false
  | fin _, posInf => true
  | fin _, negInf => false

/-- The number literal `0`. -/
def zero : JsNum := fin 0

/-- The idiom `x || 0` on the result of `Map.get`: `undefined`, `0` and `NaN` are falsy. -/
def orZero : Option JsNum → JsNum
  | none => zero
  | some nan => zero
  | some x => x

/-- The number an arithmetic operator sees for the result of `Map.get`: `undefined` is `NaN`. -/
def ofGet : Option JsNum → JsNum
  | none => nan
  | some x => x

end JsNum

/-! ## JavaScript `Map` keyed by id strings -/

/-- An insertion-ordered map from member ids to numbers. -/
abbrev JsMap := List (Nat × JsNum)

namespace JsMap

/-- The method `Map.prototype.has`. -/
def has (m : JsMap) (k : Nat) : Bool := m.any (fun e => e.1 == k)

/-- The method `Map.prototype.get`; `none` is `undefined`. -/
def get (m : JsMap) (k : Nat) : Option JsNum := (m.find? (fun e => e.1 == k)).map (fun e => e.2)

/-- The method `Map.prototype.set`: an existing key keeps its position. -/
def set : JsMap → Nat → JsNum → JsMap
  | [], k, v => [(k, v)]
  | e :: m, k, v => if e.1 == k then (k, v) :: m else e :: set m k v

end JsMap

/-! ## Documents and collections -/

/-- A populated member document: `_id` and `name`. -/
structure User where
  _id : Nat
  name : String
  deriving DecidableEq, Repr

/-- A document of the `Room` collection (the fields the modelled routes read). -/
structure Room where
  _id : Nat
  members : List User
  createdBy : Nat
  joinCode : String
  maxMembers : JsNum
  deriving DecidableEq, Repr

/-- A document of the `Expense` collection. -/
structure Expense where
  _id : Nat
  amount : JsNum
  room : Nat
  addedBy : Nat
  deriving DecidableEq, Repr

/-- A document of the `Settlement` collection. -/
structure Settlement where
  room : Nat
  paidBy : Nat
  amount : JsNum
  deriving DecidableEq, Repr

/-- A document of the `Activity` collection. -/
structure Activity where
  description : String
  user : Nat
  room : Nat
  type : String
  deriving DecidableEq, Repr

/-- A document of the `GroceryItem` collection. -/
structure GroceryItem where
  _id : Nat
  name : String
  room : Nat
  addedBy : Nat
  isPurchased : Bool
  deriving DecidableEq, Repr

/-- A document of the `JoinRequest` collection; `user` is carried as the populated document. -/
structure JoinRequest where
  _id : Nat
  room : Nat
  user : User
  status : String
  deriving DecidableEq, Repr

/-- The database: one list of documents per collection, in insertion order. -/
structure Db where
  rooms : List Room
  expenses : List Expense
  settlements : List Settlement
  activities : List Activity
  groceryItems : List GroceryItem
  requests : List JoinRequest
  deriving DecidableEq, Repr

/-! ## The engine: `calculateEffectiveContributions` -/

/-- The object returned by `calculateEffectiveContributions`. -/
structure Effective where
  contributions : JsMap
  total : JsNum
  perHead : JsNum
  members : List User
  deriving DecidableEq, Repr

/-- An entry of the `creditors` array. -/
structure Creditor where
  memberId : Nat
  credit : JsNum
  deriving DecidableEq, Repr

/-- The query `Room.findById(roomId)`. -/
def findRoomById (db : Db) (roomId : Nat) : Option Room :=
  db.rooms.find? (fun r => r._id == roomId)

/-- The query `Expense.find({ room: roomId })`. -/
def findExpenses (db : Db) (roomId : Nat) : List Expense :=
  db.expenses.filter (fun e => e.room == roomId)

/-- The query `Settlement.find({ room: roomId })`. -/
def findSettlements (db : Db) (roomId : Nat) : List Settlement :=
  db.settlements.filter (fun s => s.room == roomId)

/-- The reducer of line 46: an amount that is not finite counts as `0`. -/
def sumFiniteExpenses (expenses : List Expense) : JsNum :=
  expenses.foldl (fun acc exp => JsNum.add acc (if exp.amount.isFinite then exp.amount else JsNum.zero))
    JsNum.zero

/-- Line 51: every member starts with a contribution of `0`. -/
def initContributions (members : List User) : JsMap :=
  members.foldl (fun m member => JsMap.set m member._id JsNum.zero) []

/-- Lines 52-59: an expense is added to its payer when the payer has an entry. -/
def addExpenses (contributions : JsMap) (expenses : List Expense) : JsMap :=
  expenses.foldl
    (fun m exp =>
      if JsMap.has m exp.addedBy then
        JsMap.set m exp.addedBy (JsNum.add (JsNum.ofGet (JsMap.get m exp.addedBy)) exp.amount)
      else m)
    contributions

/-- The callback of lines 64-70, run on one entry of the map. -/
def creditorStep (perHead : JsNum) (acc : List Creditor × JsNum) (e : Nat × JsNum) :
    List Creditor × JsNum :=
  let credit := JsNum.sub e.2 perHead
  if JsNum.gt credit JsNum.zero then
    (acc.1 ++ [{ memberId := e.1, credit := credit }], JsNum.add acc.2 credit)
  else acc

/-- Lines 62-70: the creditors and `totalDebt`, in the iteration order of the map. -/
def collectCreditors (contributions : JsMap) (perHead : JsNum) : List Creditor × JsNum :=
  contributions.foldl (creditorStep perHead) ([], JsNum.zero)

/-- The reducer of line 73: `totalSettled`. -/
def sumSettlements (settlements : List Settlement) : JsNum :=
  settlements.foldl (fun acc s => JsNum.add acc s.amount) JsNum.zero

/-- Lines 75-79: every creditor gives up its share of the settled money. -/
def distribute (contributions : JsMap) (creditors : List Creditor) (totalDebt totalSettled : JsNum) :
    JsMap :=
  creditors.foldl
    (fun m c =>
      let proportion := JsNum.div c.credit totalDebt
      let creditReceived := JsNum.mul proportion totalSettled
      JsMap.set m c.memberId (JsNum.sub (JsNum.ofGet (JsMap.get m c.memberId)) creditReceived))
    contributions

/-- Lines 83-90: a settlement is added to its payer when the payer has an entry. -/
def addSettlements (contributions : JsMap) (settlements : List Settlement) : JsMap :=
  settlements.foldl
    (fun m s =>
      if JsMap.has m s.paidBy then
        JsMap.set m s.paidBy (JsNum.add (JsNum.ofGet (JsMap.get m s.paidBy)) s.amount)
      else m)
    contributions

/-- The function `calculateEffectiveContributions(roomId)` of `expenseRoutes.js`. -/
def calculateEffectiveContributions (db : Db) (roomId : Nat) : Effective :=
  match findRoomById db roomId with
  | none => { contributions := [], total := JsNum.zero, perHead := JsNum.zero, members := [] }
  | some room =>
    if room.members.length = 0 then
      { contributions := [], total := JsNum.zero, perHead := JsNum.zero, members := [] }
    else
      let expenses := findExpenses db roomId
      let settlements := findSettlements db roomId
      let total := sumFiniteExpenses expenses
      let perHead := JsNum.div total (JsNum.fin room.members.length)
      let contributions := addExpenses (initContributions room.members) expenses
      let creditors := collectCreditors contributions perHead
      let totalSettled := sumSettlements settlements
      let contributions :=
        if JsNum.gt creditors.2 JsNum.zero then
          distribute contributions creditors.1 creditors.2 totalSettled
        else contributions
      let contributions := addSettlements contributions settlements
      { contributions := contributions, total := total, perHead := perHead, members := room.members }

/-! ## The routes of `expenseRoutes.js` -/

/-- The number literal `0.01`. -/
def threshold : JsNum := JsNum.fin (1 / 100)

/-- The middleware `getUserRoom`: `Room.findOne({ members: req.user._id })`. -/
def getUserRoom (db : Db) (user : User) : Option Room :=
  db.rooms.find? (fun r => r.members.any (fun m => m._id == user._id))

/-- A plain JavaScript object used as a dictionary: assignment to an existing key overwrites. -/
def objSet {α : Type} : List (String × α) → String → α → List (String × α)
  | [], k, v => [(k, v)]
  | e :: o, k, v => if e.1 == k then (k, v) :: o else e :: objSet o k v

/-- The value stored per member name by `/split`. -/
structure Balance where
  owes : JsNum
  userId : Nat
  deriving DecidableEq, Repr

/-- The body of the `/split` response. -/
structure SplitBody where
  total : JsNum
  perHead : JsNum
  balances : List (String × Balance)
  deriving DecidableEq, Repr

/-- The handler of `GET /split` after `getUserRoom` has attached the room. -/
def split (db : Db) (room : Room) : SplitBody :=
  let r := calculateEffectiveContributions db room._id
  let balances := r.members.foldl
    (fun b member =>
      let memberOwes := JsNum.sub r.perHead (JsNum.orZero (JsMap.get r.contributions member._id))
      objSet b member.name { owes := memberOwes, userId := member._id })
    []
  { total := r.total, perHead := r.perHead, balances := balances }

/-- The handler of `GET /chart-data` after `getUserRoom` has attached the room. -/
def chartData (db : Db) (room : Room) : List (String × JsNum) :=
  let r := calculateEffectiveContributions db room._id
  r.members.foldl
    (fun c member =>
      let contribution := JsNum.orZero (JsMap.get r.contributions member._id)
      if JsNum.gt contribution threshold then objSet c member.name contribution else c)
    []

/-- The method `toFixed(2)` (values below `1e21`). -/
def toFixed2 : JsNum → String
  | JsNum.fin q =>
    let n := Int.toNat ⌊|q| * 100 + 1 / 2⌋
    let frac := n % 100
    (if q < 0 then "-" else "") ++ toString (n / 100) ++ "." ++
      (if frac < 10 then "0" else "") ++ toString frac
  | JsNum.posInf => "Infinity"
  | JsNum.negInf => "-Infinity"
  | JsNum.nan => "NaN"

/-- The database part of `logAndEmit`: `Activity.create`. -/
def logAndEmit (db : Db) (room : Room) (user : User) (description type : String) : Db :=
  { db with
    activities := db.activities ++
      [{ description := description, user := user._id, room := room._id, type := type }] }

/-- The responses of `POST /settle`. -/
inductive SettleResponse where
  | notInRoom
  | noMembers
  | noOutstandingBalance
  | serverError
  | settled
  deriving DecidableEq, Repr

/-- The total of line 163: every expense amount is added, whatever it is. -/
def sumExpenses (expenses : List Expense) : JsNum :=
  expenses.foldl (fun acc exp => JsNum.add acc exp.amount) JsNum.zero

/-- Lines 166-168: the requesting user's own expenses and then own settlements. -/
def userContribution (expenses : List Expense) (settlements : List Settlement) (userId : Nat) :
    JsNum :=
  let c := expenses.foldl (fun c e => if e.addedBy == userId then JsNum.add c e.amount else c)
    JsNum.zero
  settlements.foldl (fun c s => if s.paidBy == userId then JsNum.add c s.amount else c) c

/-- Line 170 of `POST /settle`: `amountOwed` for a room and a requesting user. -/
def amountOwed (db : Db) (room : Room) (userId : Nat) : JsNum :=
  let expenses := findExpenses db room._id
  let settlements := findSettlements db room._id
  let total := sumExpenses expenses
  let perHead := JsNum.div total (JsNum.fin room.members.length)
  JsNum.sub perHead (userContribution expenses settlements userId)

/-- The route `POST /settle` with its middleware: the response and the database afterwards.
`Settlement.create` fails on `NaN` (the schema's `Number` cast), which the `catch` block reports. -/
def settle (db : Db) (user : User) : SettleResponse × Db :=
  match getUserRoom db user with
  | none => (SettleResponse.notInRoom, db)
  | some room =>
    if room.members.length = 0 then (SettleResponse.noMembers, db)
    else
      let owed := amountOwed db room user._id
      if JsNum.le owed threshold then (SettleResponse.noOutstandingBalance, db)
      else if owed = JsNum.nan then (SettleResponse.serverError, db)
      else
        let db1 : Db :=
          { db with
            settlements := db.settlements ++ [{ room := room._id, paidBy := user._id, amount := owed }] }
        let db2 := logAndEmit db1 room user
          (user.name ++ " settled their expenses for ₹" ++ toFixed2 owed) "expense"
        (SettleResponse.settled, db2)

/-! ## The expense-creating routes and `DELETE /clear`

A request body carries its `amount` as a number or not at all (`none`); other JSON values are
not modelled. `Expense.create` validates the schema: `description` is `required` after `trim`,
`amount` is `required` and the `Number` cast refuses `NaN`. -/

/-- Truthiness of a request value that is a number or missing: `undefined`, `0` and `NaN` are
falsy. -/
def truthy : Option JsNum → Bool
  | none => false
  | some JsNum.nan => false
  | some (JsNum.fin q) => decide (q ≠ 0)
  | some _ => true

/-- The digits after the decimal point of `r / d`, at most `fuel` of them. -/
def decimalDigits : Nat → Nat → Nat → String
  | 0, _, _ => ""
  | fuel + 1, r, d =>
    if r = 0 then "" else toString (r * 10 / d) ++ decimalDigits fuel (r * 10 % d) d

/-- The text of a number inside a template literal (exact for short decimal expansions). -/
def showNumber : JsNum → String
  | JsNum.fin q =>
    let n := |q|
    let whole := Int.toNat ⌊n⌋
    let frac := n - (whole : ℚ)
    (if q < 0 then "-" else "") ++ toString whole ++
      (if frac = 0 then "" else "." ++ decimalDigits 17 (Int.toNat frac.num) frac.den)
  | JsNum.posInf => "Infinity"
  | JsNum.negInf => "-Infinity"
  | JsNum.nan => "NaN"

/-- The text of a request amount inside a template literal. -/
def showAmount : Option JsNum → String
  | none => "undefined"
  | some a => showNumber a

/-- The call `Expense.create` (with the `_id` the document gets): the stored document, or `none`
when validation fails. -/
def createExpense (_id : Nat) (description : String) (amount : Option JsNum) (room addedBy : Nat) :
    Option Expense :=
  if description.trim = "" then none
  else
    match amount with
    | none => none
    | some JsNum.nan => none
    | some a => some { _id := _id, amount := a, room := room, addedBy := addedBy }

/-- The `_id` given to a new expense: the successor of the largest id in the collection. -/
def freshExpenseId (db : Db) : Nat := (db.expenses.map (fun e => e._id)).foldl max 0 + 1

/-- The responses of `POST /` (add an expense). -/
inductive AddExpenseResponse where
  | notInRoom
  | created (expense : Expense)
  | serverError
  deriving DecidableEq, Repr

/-- The route `POST /` with its middleware: add an expense. -/
def addExpense (db : Db) (user : User) (desc : String) (amount : Option JsNum) :
    AddExpenseResponse × Db :=
  match getUserRoom db user with
  | none => (AddExpenseResponse.notInRoom, db)
  | some room =>
    match createExpense (freshExpenseId db) desc amount room._id user._id with
    | none => (AddExpenseResponse.serverError, db)
    | some expense =>
      let db1 : Db := { db with expenses := db.expenses ++ [expense] }
      let db2 := logAndEmit db1 room user
        (user.name ++ " added an expense: " ++ desc ++ " for ₹" ++ showAmount amount) "expense"
      (AddExpenseResponse.created expense, db2)

/-- The responses of `PUT /:id/purchase`. -/
inductive PurchaseResponse where
  | notInRoom
  | itemNotFound
  | notAuthorized
  | amountRequired
  | serverError
  | purchased
  deriving DecidableEq, Repr

/-- The update `item.isPurchased = true; item.save()`. -/
def markPurchased (items : List GroceryItem) (itemId : Nat) : List GroceryItem :=
  match items with
  | [] => []
  | i :: rest =>
    if i._id == itemId then { i with isPurchased := true } :: rest
    else i :: markPurchased rest itemId

/-- The route `PUT /:id/purchase` of `groceryRoutes.js` with its middleware. -/
def purchase (db : Db) (user : User) (itemId : Nat) (amount : Option JsNum) :
    PurchaseResponse × Db :=
  match getUserRoom db user with
  | none => (PurchaseResponse.notInRoom, db)
  | some room =>
    match db.groceryItems.find? (fun i => i._id == itemId) with
    | none => (PurchaseResponse.itemNotFound, db)
    | some item =>
      if item.room ≠ room._id then (PurchaseResponse.notAuthorized, db)
      else if !(truthy amount) then (PurchaseResponse.amountRequired, db)
      else
        match createExpense (freshExpenseId db) item.name amount room._id user._id with
        | none => (PurchaseResponse.serverError, db)
        | some expense =>
          let db1 : Db := { db with expenses := db.expenses ++ [expense] }
          let db2 := logAndEmit db1 room user
            (user.name ++ " purchased a grocery item: " ++ item.name) "purchase"
          let db3 : Db := { db2 with groceryItems := markPurchased db2.groceryItems itemId }
          (PurchaseResponse.purchased, db3)

/-- The responses of `DELETE /clear`. -/
inductive ClearResponse where
  | notInRoom
  | notAuthorized
  | cleared
  deriving DecidableEq, Repr

/-- The route `DELETE /clear` with its middleware: the owner clears expenses and settlements. -/
def clear (db : Db) (user : User) : ClearResponse × Db :=
  match getUserRoom db user with
  | none => (ClearResponse.notInRoom, db)
  | some room =>
    if room.createdBy ≠ user._id then (ClearResponse.notAuthorized, db)
    else
      (ClearResponse.cleared,
        { db with
          expenses := db.expenses.filter (fun e => e.room != room._id),
          settlements := db.settlements.filter (fun s => s.room != room._id) })

/-- The responses of `DELETE /:id` (delete a single expense). -/
inductive DeleteExpenseResponse where
  | notInRoom
  | notFound
  | notAuthorized
  | removed
  deriving DecidableEq, Repr

/-- The route `DELETE /:id` with its middleware: delete a single expense. `isOwner` compares the
requester with the owner of the requester's own room (`req.room`). -/
def deleteExpense (db : Db) (user : User) (expenseId : Nat) : DeleteExpenseResponse × Db :=
  match getUserRoom db user with
  | none => (DeleteExpenseResponse.notInRoom, db)
  | some room =>
    match db.expenses.find? (fun e => e._id == expenseId) with
    | none => (DeleteExpenseResponse.notFound, db)
    | some expense =>
      let isOwner := room.createdBy == user._id
      let isAddedBy := expense.addedBy == user._id
      if !isOwner && !isAddedBy then (DeleteExpenseResponse.notAuthorized, db)
      else
        (DeleteExpenseResponse.removed,
          { db with expenses := db.expenses.eraseP (fun e => e._id == expenseId) })

/-! ## The membership routes of `roomRoutes.js` and `requestRoutes.js`

A new `_id` is the successor of the largest room id in the collection; the join code drawn by
the `pre('save')` hook is an argument of the route, and the `unique` index on `joinCode` makes
`save` fail on a code that is already in use. `room.save()` rewrites the document with the same
`_id`. -/

/-- The responses of the membership routes. -/
inductive RoomResponse where
  | missingFields
  | created
  | roomNotFound
  | alreadyMember
  | roomFull
  | joined
  | notAMember
  | roomDeleted
  | leftNewOwner
  | left
  | notOwner
  | cannotRemoveSelf
  | memberNotFound
  | removed
  | notAuthorized
  | accepted
  | deletedWithData
  | serverError
  deriving DecidableEq, Repr

/-- The fields of the body of `POST /create` that the route and the schema validate. -/
structure CreateBody where
  name : String
  location : String
  contact : String
  maxMembers : Option JsNum
  deriving DecidableEq, Repr

/-- The `_id` given to a new room. -/
def freshRoomId (db : Db) : Nat := (db.rooms.map (fun r => r._id)).foldl max 0 + 1

/-- The update `room.save()`: the stored document with the same `_id` is replaced. -/
def saveRoom : List Room → Room → List Room
  | [], _ => []
  | r :: rs, x => if r._id == x._id then x :: rs else r :: saveRoom rs x

/-- The test `room.members.includes(id)`. -/
def includesMember (room : Room) (id : Nat) : Bool := room.members.any (fun m => m._id == id)

/-- The update `room.members.pull(id)`: every occurrence of the id is removed. -/
def pullMember (room : Room) (id : Nat) : List User := room.members.filter (fun m => m._id != id)

/-- The test `room.members.length >= room.maxMembers`. -/
def isFull (room : Room) : Bool := JsNum.le room.maxMembers (JsNum.fin room.members.length)

/-- The route `POST /create`: the requesting user becomes owner and only member of a new room. -/
def createRoom (db : Db) (user : User) (body : CreateBody) (code : String) : RoomResponse × Db :=
  if body.name = "" ∨ !(truthy body.maxMembers) ∨ body.location = "" ∨ body.contact = "" then
    (RoomResponse.missingFields, db)
  else
    match body.maxMembers with
    | none => (RoomResponse.missingFields, db)
    | some maxMembers =>
      if body.name.trim = "" ∨ body.location.trim = "" ∨ !(JsNum.le (JsNum.fin 1) maxMembers) ∨
          db.rooms.any (fun r => r.joinCode == code) then
        (RoomResponse.serverError, db)
      else
        let newRoom : Room :=
          { _id := freshRoomId db, members := [user], createdBy := user._id, joinCode := code,
            maxMembers := maxMembers }
        let db1 : Db := { db with rooms := db.rooms ++ [newRoom] }
        (RoomResponse.created, logAndEmit db1 newRoom user (user.name ++ " created the room.") "join")

/-- The route `POST /join`: join the room with the given join code. -/
def joinRoom (db : Db) (user : User) (joinCode : String) : RoomResponse × Db :=
  match db.rooms.find? (fun r => r.joinCode == joinCode) with
  | none => (RoomResponse.roomNotFound, db)
  | some room =>
    if includesMember room user._id then (RoomResponse.alreadyMember, db)
    else if isFull room then (RoomResponse.roomFull, db)
    else
      let room1 : Room := { room with members := room.members ++ [user] }
      let db1 : Db := { db with rooms := saveRoom db.rooms room1 }
      (RoomResponse.joined, logAndEmit db1 room1 user (user.name ++ " joined the room.") "join")

/-- The route `POST /leave`: the requesting user leaves the room they are a member of. -/
def leaveRoom (db : Db) (user : User) : RoomResponse × Db :=
  match getUserRoom db user with
  | none => (RoomResponse.notAMember, db)
  | some room =>
    if room.createdBy = user._id then
      if room.members.length = 1 then
        (RoomResponse.roomDeleted,
          { db with rooms := db.rooms.eraseP (fun r => r._id == room._id) })
      else
        match (room.members.filter (fun m => m._id != user._id)).head? with
        | none => (RoomResponse.serverError, db)
        | some newOwner =>
          let room1 : Room :=
            { room with createdBy := newOwner._id, members := pullMember room user._id }
          let db1 : Db := { db with rooms := saveRoom db.rooms room1 }
          (RoomResponse.leftNewOwner,
            logAndEmit db1 room1 user (user.name ++ " left the room.") "leave")
    else
      let room1 : Room := { room with members := pullMember room user._id }
      let db1 : Db := { db with rooms := saveRoom db.rooms room1 }
      (RoomResponse.left, logAndEmit db1 room1 user (user.name ++ " left the room.") "leave")

/-- The route `DELETE /remove-member/:memberId`: the owner removes another member. -/
def removeMember (db : Db) (user : User) (memberId : Nat) : RoomResponse × Db :=
  match db.rooms.find? (fun r => r.createdBy == user._id) with
  | none => (RoomResponse.notOwner, db)
  | some room =>
    if memberId = user._id then (RoomResponse.cannotRemoveSelf, db)
    else
      match room.members.find? (fun m => m._id == memberId) with
      | none => (RoomResponse.memberNotFound, db)
      | some removedUser =>
        let room1 : Room := { room with members := pullMember room memberId }
        let db1 : Db := { db with rooms := saveRoom db.rooms room1 }
        (RoomResponse.removed,
          logAndEmit db1 room1 user
            (user.name ++ " removed " ++ removedUser.name ++ " from the room.") "leave")

/-- The update `request.status = 'accepted'; request.save()`. -/
def markAccepted : List JoinRequest → Nat → List JoinRequest
  | [], _ => []
  | q :: rest, requestId =>
    if q._id == requestId then { q with status := "accepted" } :: rest
    else q :: markAccepted rest requestId

/-- The route `PUT /:id/accept` of `requestRoutes.js`: the owner accepts a join request. A
request whose room no longer exists makes the route throw, which the `catch` block reports. -/
def acceptRequest (db : Db) (user : User) (requestId : Nat) : RoomResponse × Db :=
  match db.requests.find? (fun q => q._id == requestId) with
  | none => (RoomResponse.notAuthorized, db)
  | some request =>
    match findRoomById db request.room with
    | none => (RoomResponse.serverError, db)
    | some room =>
      if room.createdBy ≠ user._id then (RoomResponse.notAuthorized, db)
      else if isFull room then (RoomResponse.roomFull, db)
      else
        let room1 : Room := { room with members := room.members ++ [request.user] }
        let db1 : Db := { db with rooms := saveRoom db.rooms room1 }
        let db2 : Db := { db1 with requests := markAccepted db1.requests requestId }
        (RoomResponse.accepted,
          logAndEmit db2 room1 user
            (user.name ++ " accepted " ++ request.user.name ++ "\x27s join request.") "join")

/-- The route `DELETE /delete`: the owner deletes the room and the documents attached to it
(calendar events and chat messages are not modelled). -/
def deleteRoom (db : Db) (user : User) : RoomResponse × Db :=
  match db.rooms.find? (fun r => r.createdBy == user._id) with
  | none => (RoomResponse.notOwner, db)
  | some room =>
    (RoomResponse.deletedWithData,
      { rooms := db.rooms.eraseP (fun r => r._id == room._id),
        expenses := db.expenses.filter (fun e => e.room != room._id),
        settlements := db.settlements.filter (fun s => s.room != room._id),
        activities := db.activities.filter (fun a => a.room != room._id),
        groceryItems := db.groceryItems.filter (fun i => i.room != room._id),
        requests := db.requests.filter (fun q => q.room != room._id) })

/-! ## Sequences of operations -/

/-- A state-changing request of the modelled routes. -/
inductive Op where
  | settle (user : User)
  | addExpense (user : User) (desc : String) (amount : Option JsNum)
  | purchase (user : User) (itemId : Nat) (amount : Option JsNum)
  | clear (user : User)
  | createRoom (user : User) (body : CreateBody) (code : String)
  | joinRoom (user : User) (joinCode : String)
  | acceptRequest (user : User) (requestId : Nat)
  | leaveRoom (user : User)
  | removeMember (user : User) (memberId : Nat)
  | deleteRoom (user : User)
  | deleteExpense (user : User) (expenseId : Nat)
  deriving DecidableEq, Repr

/-- The database after one request. -/
def step (db : Db) : Op → Db
  | Op.settle user => (settle db user).2
  | Op.addExpense user desc amount => (addExpense db user desc amount).2
  | Op.purchase user itemId amount => (purchase db user itemId amount).2
  | Op.clear user => (clear db user).2
  | Op.createRoom user body code => (createRoom db user body code).2
  | Op.joinRoom user joinCode => (joinRoom db user joinCode).2
  | Op.acceptRequest user requestId => (acceptRequest db user requestId).2
  | Op.leaveRoom user => (leaveRoom db user).2
  | Op.removeMember user memberId => (removeMember db user memberId).2
  | Op.deleteRoom user => (deleteRoom db user).2
  | Op.deleteExpense user expenseId => (deleteExpense db user expenseId).2

/-- The database after a sequence of requests, handled one after the other. -/
def run (db : Db) (ops : List Op) : Db := ops.foldl step db

/-! ## The quantities the specification speaks about

Exact sums over a room's history, written as the specification words them. They
are compared with the embedded code in the theorems below. -/

/-- The rational value of a finite number (`0` for a non-finite one). -/
def JsNum.toRat : JsNum → ℚ
  | JsNum.fin q => q
  | _ => 0

/-- The ids of the members of a room. -/
def memberIds (room : Room) : List Nat := room.members.map (fun m => m._id)

/-- Every expense amount and every settlement amount of the room is a finite number. -/
def finiteAmounts (db : Db) (roomId : Nat) : Bool :=
  (findExpenses db roomId).all (fun e => e.amount.isFinite) &&
    (findSettlements db roomId).all (fun s => s.amount.isFinite)

/-- The sum of the amounts of the expenses of the room paid by member `k`. -/
def expenseSum (db : Db) (roomId k : Nat) : ℚ :=
  (((findExpenses db roomId).filter (fun e => e.addedBy == k)).map (fun e => e.amount.toRat)).sum

/-- The sum of the amounts of the settlements of the room paid by member `k`. -/
def settlementSum (db : Db) (roomId k : Nat) : ℚ :=
  (((findSettlements db roomId).filter (fun s => s.paidBy == k)).map (fun s => s.amount.toRat)).sum

/-- The sum of the amounts of all expenses of the room, whoever paid them (a non-finite amount,
which the data model excludes, counts as `0` through `toRat`). -/
def totalExpenses (db : Db) (roomId : Nat) : ℚ :=
  ((findExpenses db roomId).map (fun e => e.amount.toRat)).sum

/-- The sum of the amounts of all settlements of the room (finite amounts). -/
def totalSettled (db : Db) (roomId : Nat) : ℚ :=
  ((findSettlements db roomId).map (fun s => s.amount.toRat)).sum

/-- The fair share: the total of the room's expenses divided by the number of members. -/
def perHeadOf (db : Db) (room : Room) : ℚ :=
  totalExpenses db room._id / (room.members.length : ℚ)

/-- The creditors of a room: the members whose expense sum exceeds the fair share. -/
def creditorIds (db : Db) (room : Room) : List Nat :=
  (memberIds room).dedup.filter (fun k => decide (perHeadOf db room < expenseSum db room._id k))

/-- The sum of `base - perHead` over all creditors. -/
def totalDebt (db : Db) (room : Room) : ℚ :=
  ((creditorIds db room).map (fun k => expenseSum db room._id k - perHeadOf db room)).sum

/-- The amount owed as the specification words it: `perHead` minus the sum of the member's own
expenses and own settlements. -/
def owedRat (db : Db) (room : Room) (k : Nat) : ℚ :=
  perHeadOf db room - (expenseSum db room._id k + settlementSum db room._id k)

/-- The settlement the settle operation records for `user` in `room` with the amount `a`. -/
def newSettlement (room : Room) (user : User) (a : ℚ) : Settlement :=
  { room := room._id, paidBy := user._id, amount := JsNum.fin a }

/-- Every settlement of the room has a non-negative amount (the specification's data model
asks for positive amounts). -/
def nonnegSettlements (db : Db) (roomId : Nat) : Bool :=
  (findSettlements db roomId).all (fun s => JsNum.le JsNum.zero s.amount)

/-- The sum of the contributions stored in a map, added up in iteration order. -/
def sumContributions (m : JsMap) : JsNum := m.foldl (fun acc e => JsNum.add acc e.2) JsNum.zero

/-- The balance of member `k` in a result of the engine: `perHead - contribution(k)`. -/
def balanceOf (r : Effective) (k : Nat) : JsNum :=
  JsNum.sub r.perHead (JsNum.ofGet (JsMap.get r.contributions k))

/-- A room whose only member is A. -/
def soloRoom : Room :=
  { _id := 1, members := [⟨10, "A"⟩], createdBy := 10, joinCode := "SOLO01",
    maxMembers := JsNum.fin 4 }

/-- A room with the two members A and B. -/
def pairRoom : Room :=
  { _id := 1, members := [⟨10, "A"⟩, ⟨11, "B"⟩], createdBy := 10, joinCode := "PAIR01",
    maxMembers := JsNum.fin 4 }

/-- The room of the worked example: members A, B and C. -/
def exampleRoom : Room :=
  { _id := 1, members := [⟨10, "A"⟩, ⟨11, "B"⟩, ⟨12, "C"⟩], createdBy := 10, joinCode := "TRIO01",
    maxMembers := JsNum.fin 4 }

/-- A room without members. -/
def emptyRoom : Room :=
  { _id := 1, members := [], createdBy := 10, joinCode := "NONE01", maxMembers := JsNum.fin 4 }

/-- A room whose only member is A, with an expense of 100 paid by a user who is not a member. -/
def strangerDb : Db :=
  { rooms := [soloRoom],
    expenses := [{ _id := 101, amount := JsNum.fin 100, room := 1, addedBy := 99 }],
    settlements := [], activities := [], groceryItems := [], requests := [] }

/-- Two members A and B; A paid an expense of 0.04, so that B owes 0.02. -/
def twoCentsDb : Db :=
  { rooms := [pairRoom],
    expenses := [{ _id := 102, amount := JsNum.fin (4 / 100), room := 1, addedBy := 10 }],
    settlements := [], activities := [], groceryItems := [], requests := [] }

/-- The worked example continued: C settled 100 as well, and B then paid an expense of 30. -/
def overSettledDb : Db :=
  { rooms := [exampleRoom],
    expenses := [{ _id := 103, amount := JsNum.fin 300, room := 1, addedBy := 10 },
                 { _id := 104, amount := JsNum.fin 30, room := 1, addedBy := 11 }],
    settlements := [{ room := 1, paidBy := 11, amount := JsNum.fin 100 },
                    { room := 1, paidBy := 12, amount := JsNum.fin 100 }],
    activities := [], groceryItems := [], requests := [] }

/-- A database whose only room has no member. -/
def emptyRoomDb : Db :=
  { rooms := [emptyRoom],
    expenses := [{ _id := 105, amount := JsNum.fin 100, room := 1, addedBy := 10 }],
    settlements := [{ room := 1, paidBy := 11, amount := JsNum.fin 40 }], activities := [],
    groceryItems := [], requests := [] }

/-- Two members and no expense left, while a settlement of 50 paid by B is still recorded. -/
def balancedDb : Db :=
  { rooms := [pairRoom],
    expenses := [],
    settlements := [{ room := 1, paidBy := 11, amount := JsNum.fin 50 }], activities := [],
    groceryItems := [], requests := [] }

/-- The history of the worked example: A paid an expense of 300, B a settlement of 100. -/
def exampleDb : Db :=
  { rooms := [exampleRoom],
    expenses := [{ _id := 106, amount := JsNum.fin 300, room := 1, addedBy := 10 }],
    settlements := [{ room := 1, paidBy := 11, amount := JsNum.fin 100 }], activities := [],
    groceryItems := [], requests := [] }

/-- The database `overSettledDb` with its members, expenses and settlements listed in reverse. -/
def overSettledReversed : Db :=
  { overSettledDb with
    rooms := [{ exampleRoom with members := exampleRoom.members.reverse }],
    expenses := overSettledDb.expenses.reverse,
    settlements := overSettledDb.settlements.reverse }

/-- The total amount underpaid by debtors: the sum of `perHead - base` over the members whose
expense sum is below the fair share. -/
def underpaid (db : Db) (room : Room) : ℚ :=
  (((memberIds room).dedup.filter
      (fun k => decide (expenseSum db room._id k < perHeadOf db room))).map
    (fun k => perHeadOf db room - expenseSum db room._id k)).sum

/-- The value of the local variable `totalDebt` after lines 43-70, for a room with members. -/
def localTotalDebt (db : Db) (room : Room) : JsNum :=
  let expenses := findExpenses db room._id
  let total := sumFiniteExpenses expenses
  let perHead := JsNum.div total (JsNum.fin room.members.length)
  (collectCreditors (addExpenses (initContributions room.members) expenses) perHead).2

/-- A room in which member B is listed twice; A paid an expense of 300. -/
def doubledDb : Db :=
  { rooms := [{ exampleRoom with members := [⟨10, "A"⟩, ⟨11, "B"⟩, ⟨11, "B"⟩] }],
    expenses := [{ _id := 107, amount := JsNum.fin 300, room := 1, addedBy := 10 }],
    settlements := [], activities := [], groceryItems := [], requests := [] }

/-- The value stored under `key` in a dictionary object, if any. -/
def objGet {α : Type} (o : List (String × α)) (key : String) : Option α :=
  (o.find? (fun e => e.1 == key)).map (fun e => e.2)

/-- The contribution of member `k` in a result of the engine. -/
def contributionOf (r : Effective) (k : Nat) : JsNum := JsNum.ofGet (JsMap.get r.contributions k)

/-- Two members with the same display name; the first one paid an expense of 100. -/
def namesakeRoom : Room :=
  { _id := 1, members := [⟨10, "Sam"⟩, ⟨11, "Sam"⟩], createdBy := 10, joinCode := "SAMS01",
    maxMembers := JsNum.fin 4 }

/-- The history of the room of the two namesakes. -/
def namesakeDb : Db :=
  { rooms := [namesakeRoom],
    expenses := [{ _id := 108, amount := JsNum.fin 100, room := 1, addedBy := 10 }],
    settlements := [], activities := [], groceryItems := [], requests := [] }

/-- The room of A and B with one grocery item, "milk", on its list. -/
def groceryDb : Db :=
  { rooms := [pairRoom], expenses := [], settlements := [], activities := [],
    groceryItems := [{ _id := 7, name := "milk", room := 1, addedBy := 10, isPurchased := false }],
    requests := [] }

/-- Every stored settlement has a positive amount. -/
def positiveSettlements (db : Db) : Prop :=
  ∀ s ∈ db.settlements, JsNum.gt s.amount JsNum.zero = true

/-- The room of the worked example with no expense and no settlement on record. -/
def clearedDb : Db :=
  { rooms := [exampleRoom], expenses := [], settlements := [], activities := [],
    groceryItems := [], requests := [] }

/-- The number of rooms that list user `u` as a member. -/
def roomCount (db : Db) (u : Nat) : Nat := db.rooms.countP (fun r => includesMember r u)

/-- Every user is a member of at most one room. -/
def oneRoomPerUser (db : Db) : Prop := ∀ u, roomCount db u ≤ 1

/-- No two stored rooms share their `_id`. -/
def uniqueRoomIds (db : Db) : Prop := (db.rooms.map (fun r => r._id)).Nodup

/-- The user a request asks to add to a room, if it is a create, join or accept request. -/
def joiner (db : Db) : Op → Option Nat
  | Op.createRoom user _ _ => some user._id
  | Op.joinRoom user _ => some user._id
  | Op.acceptRequest _ requestId =>
    (db.requests.find? (fun q => q._id == requestId)).map (fun q => q.user._id)
  | _ => none

/-- A request is admissible when the user it asks to add is not a member of any room. -/
def admissible (db : Db) (op : Op) : Bool :=
  match joiner db op with
  | none => true
  | some u => roomCount db u == 0

/-- Every request of the sequence is admissible at the moment it is handled. -/
def admissibleRun : Db → List Op → Bool
  | _, [] => true
  | db, op :: ops => admissible db op && admissibleRun (step db op) ops

/-- The shapes the room collection can take after one request that asks to add user `j`. -/
def RoomsStep (db : Db) (j : Option Nat) (rooms2 : List Room) : Prop :=
  rooms2 = db.rooms ∨
    (∃ R R2, R ∈ db.rooms ∧ R2._id = R._id ∧ rooms2 = saveRoom db.rooms R2 ∧
      ∀ u, includesMember R2 u = true → includesMember R u = true ∨ j = some u) ∨
    (∃ R2, rooms2 = db.rooms ++ [R2] ∧ R2._id = freshRoomId db ∧
      ∀ u, includesMember R2 u = true → j = some u) ∨
    (∃ q : Room → Bool, rooms2 = db.rooms.eraseP q)

/-- Two rooms: the room of A, B and C, and the room of D; B has asked to join the room of D. -/
def twoRoomsDb : Db :=
  { rooms := [exampleRoom,
              { _id := 2, members := [⟨13, "D"⟩], createdBy := 13, joinCode := "SOLO02",
                maxMembers := JsNum.fin 4 }],
    expenses := [], settlements := [], activities := [], groceryItems := [],
    requests := [{ _id := 5, room := 2, user := ⟨11, "B"⟩, status := "pending" }] }

/-- A body of `POST /create` that passes every check. -/
def flatBody : CreateBody :=
  { name := "Flat", location := "Pune", contact := "A", maxMembers := some (JsNum.fin 3) }

/-- The room of D alone, who owns it. -/
def ownerOnlyRoom : Room :=
  { _id := 2, members := [⟨13, "D"⟩], createdBy := 13, joinCode := "SOLO02",
    maxMembers := JsNum.fin 4 }

/-- Two rooms with a ledger each: in room 1 A paid 300, B paid 30 and B settled 100; in room 2
its only member D paid 50 and has a settlement of 5 on record. -/
def teardownDb : Db :=
  { rooms := [exampleRoom, ownerOnlyRoom],
    expenses := [{ _id := 201, amount := JsNum.fin 300, room := 1, addedBy := 10 },
                 { _id := 202, amount := JsNum.fin 50, room := 2, addedBy := 13 },
                 { _id := 203, amount := JsNum.fin 30, room := 1, addedBy := 11 }],
    settlements := [{ room := 1, paidBy := 11, amount := JsNum.fin 100 },
                    { room := 2, paidBy := 13, amount := JsNum.fin 5 }],
    activities := [], groceryItems := [], requests := [] }

/-- The contributions map after the redistribution of lines 72-80 and before the attribution
of lines 82-90, for a room with members. -/
def preAttribution (db : Db) (room : Room) : JsMap :=
  let expenses := findExpenses db room._id
  let settlements := findSettlements db room._id
  let total := sumFiniteExpenses expenses
  let perHead := JsNum.div total (JsNum.fin room.members.length)
  let contributions := addExpenses (initContributions room.members) expenses
  let creditors := collectCreditors contributions perHead
  let totalSettled := sumSettlements settlements
  if JsNum.gt creditors.2 JsNum.zero then
    distribute contributions creditors.1 creditors.2 totalSettled
  else contributions

/-- The number is a whole number (`Number.isInteger`). -/
def wholeNumber : JsNum → Bool
  | JsNum.fin q => q.den == 1
  | _ => false

/-- The member count of the room is at most its `maxMembers`. -/
def withinCapacity (room : Room) : Bool :=
  JsNum.le (JsNum.fin room.members.length) room.maxMembers

/-- Every stored room has a member count of at most its `maxMembers`. -/
def capacityKept (db : Db) : Bool := db.rooms.all withinCapacity

/-- Every stored room whose `maxMembers` is a whole number has a member count of at most its
`maxMembers`. -/
def wholeCapacityKept (db : Db) : Bool :=
  db.rooms.all (fun r => !wholeNumber r.maxMembers || withinCapacity r)

/-- The database without any document. -/
def emptyDb : Db :=
  { rooms := [], expenses := [], settlements := [], activities := [], groceryItems := [],
    requests := [] }

/-- A body of `POST /create` with `maxMembers: 2.5`, which the schema (`Number`, `min: 1`)
accepts. -/
def halfBody : CreateBody :=
  { name := "Flat", location := "Pune", contact := "A", maxMembers := some (JsNum.fin (5 / 2)) }

/-- The database after A created a room with `maxMembers: 2.5` and B joined it by its code. -/
def halfRoomDb : Db :=
  run emptyDb [Op.createRoom ⟨10, "A"⟩ halfBody "HALF01", Op.joinRoom ⟨11, "B"⟩ "HALF01"]

/-- Every settle operation of the sequence, handled one after the other, is answered with
"settled". -/
def allSettled : Db → List User → Bool
  | _, [] => true
  | db, u :: us =>
    decide ((settle db u).1 = SettleResponse.settled) && allSettled (settle db u).2 us

/-- A history without settlements: A paid 300 and B paid 60, so that `perHead = 120`, B is 60
short and C is 120 short. -/
def unsettledDb : Db :=
  { rooms := [exampleRoom],
    expenses := [{ _id := 301, amount := JsNum.fin 300, room := 1, addedBy := 10 },
                 { _id := 302, amount := JsNum.fin 60, room := 1, addedBy := 11 }],
    settlements := [], activities := [], groceryItems := [], requests := [] }

/-! ## Auxiliary definitions for the proofs -/

/-- The map with keys `ks`, in this order, and the finite value `f k` at key `k`. -/
def tab (ks : List Nat) (f : Nat → ℚ) : JsMap := ks.map (fun k => (k, JsNum.fin (f k)))

/-- The keys of `initContributions`: the member ids in order of first occurrence. -/
def memberKeys (members : List User) : List Nat :=
  members.foldl (fun ks m => if m._id ∈ ks then ks else ks ++ [m._id]) []

/-- The sum of the finite amounts in a list of `(payer, amount)` pairs paid by `k`. -/
def ownSum (xs : List (Nat × JsNum)) (k : Nat) : ℚ :=
  ((xs.filter (fun x => x.1 == k)).map (fun x => x.2.toRat)).sum

/-- The loop shared by lines 52-59 and 83-90, on `(payer, amount)` pairs. -/
def accumulate (m : JsMap) (xs : List (Nat × JsNum)) : JsMap :=
  xs.foldl
    (fun m x =>
      if JsMap.has m x.1 then JsMap.set m x.1 (JsNum.add (JsNum.ofGet (JsMap.get m x.1)) x.2)
      else m)
    m

/-- The keys of a map in iteration order. -/
def JsMap.keys (m : JsMap) : List Nat := m.map (fun e => e.1)

/-- The exact value of the final contribution of member `k`, as the code computes it on finite
amounts: the redistribution applies to a creditor when `totalDebt > 0`. -/
def effectiveRat (db : Db) (room : Room) (k : Nat) : ℚ :=
  (if perHeadOf db room < expenseSum db room._id k ∧ 0 < totalDebt db room then
    expenseSum db room._id k -
      (expenseSum db room._id k - perHeadOf db room) / totalDebt db room * totalSettled db room._id
  else expenseSum db room._id k) + settlementSum db room._id k

/-! ## Lemmas on numbers and maps -/

@[simp] theorem JsNum.add_fin (a b : ℚ) : JsNum.add (JsNum.fin a) (JsNum.fin b) = JsNum.fin (a + b) := rfl

@[simp] theorem JsNum.sub_fin (a b : ℚ) : JsNum.sub (JsNum.fin a) (JsNum.fin b) = JsNum.fin (a - b) := by
  simp [JsNum.sub, JsNum.neg, sub_eq_add_neg]

@[simp] theorem JsNum.mul_fin (a b : ℚ) : JsNum.mul (JsNum.fin a) (JsNum.fin b) = JsNum.fin (a * b) := rfl

theorem JsNum.div_fin (a b : ℚ) (hb : b ≠ 0) :
    JsNum.div (JsNum.fin a) (JsNum.fin b) = JsNum.fin (a / b) := by
  simp [JsNum.div, hb]

@[simp] theorem JsNum.gt_fin (a b : ℚ) : JsNum.gt (JsNum.fin a) (JsNum.fin b) = decide (b < a) := rfl

@[simp] theorem JsNum.le_fin (a b : ℚ) : JsNum.le (JsNum.fin a) (JsNum.fin b) = decide (a ≤ b) := rfl

theorem JsNum.eq_fin_of_isFinite {x : JsNum} (h : x.isFinite = true) : x = JsNum.fin x.toRat := by
  cases x <;> simp_all [JsNum.isFinite, JsNum.toRat]

theorem JsMap.has_cons (a : Nat) (v : JsNum) (m : JsMap) (k : Nat) :
    JsMap.has ((a, v) :: m) k = (decide (a = k) || JsMap.has m k) := by
  by_cases h : a = k <;> simp [JsMap.has, h]

theorem JsMap.get_cons (a : Nat) (v : JsNum) (m : JsMap) (k : Nat) :
    JsMap.get ((a, v) :: m) k = if a = k then some v else JsMap.get m k := by
  by_cases h : a = k <;> simp [JsMap.get, List.find?_cons, h]

theorem tab_cons (a : Nat) (ks : List Nat) (f : Nat → ℚ) :
    tab (a :: ks) f = (a, JsNum.fin (f a)) :: tab ks f := rfl

theorem tab_has (ks : List Nat) (f : Nat → ℚ) (k : Nat) : JsMap.has (tab ks f) k = decide (k ∈ ks) := by
  induction ks with
  | nil => simp [tab, JsMap.has]
  | cons a ks ih =>
    rw [tab_cons, JsMap.has_cons, ih]
    by_cases h : a = k
    · simp [h]
    · simp [h, Ne.symm h]

theorem tab_get (ks : List Nat) (f : Nat → ℚ) (k : Nat) (hk : k ∈ ks) :
    JsMap.get (tab ks f) k = some (JsNum.fin (f k)) := by
  induction ks with
  | nil => simp at hk
  | cons a ks ih =>
    rw [tab_cons, JsMap.get_cons]
    by_cases h : a = k
    · simp [h]
    · have hk2 : k ∈ ks := by
        rcases List.mem_cons.1 hk with h1 | h1
        · exact absurd h1.symm h
        · exact h1
      simp [h, ih hk2]

theorem tab_get_none (ks : List Nat) (f : Nat → ℚ) (k : Nat) (hk : k ∉ ks) :
    JsMap.get (tab ks f) k = none := by
  induction ks with
  | nil => simp [tab, JsMap.get]
  | cons a ks ih =>
    have h : a ≠ k := fun h => hk (by simp [h])
    have hk2 : k ∉ ks := fun h2 => hk (List.mem_cons_of_mem _ h2)
    rw [tab_cons, JsMap.get_cons]
    simp [h, ih hk2]

theorem tab_congr (ks : List Nat) (f g : Nat → ℚ) (h : ∀ k ∈ ks, f k = g k) : tab ks f = tab ks g := by
  unfold tab
  apply List.map_congr_left
  intro k hk
  rw [h k hk]

theorem tab_set (ks : List Nat) (f : Nat → ℚ) (k : Nat) (v : ℚ) (hk : k ∈ ks) (hnd : ks.Nodup) :
    JsMap.set (tab ks f) k (JsNum.fin v) = tab ks (Function.update f k v) := by
  induction ks with
  | nil => simp at hk
  | cons a ks ih =>
    have hnd2 := List.nodup_cons.1 hnd
    by_cases h : a = k
    · subst h
      have : tab ks (Function.update f a v) = tab ks f := by
        apply tab_congr
        intro j hj
        have : j ≠ a := fun e => hnd2.1 (e ▸ hj)
        simp [Function.update, this]
      simp only [tab, List.map_cons, JsMap.set] at this ⊢
      simp [this]
    · have hk2 : k ∈ ks := by
        rcases List.mem_cons.1 hk with h1 | h1
        · exact absurd h1.symm h
        · exact h1
      have := ih hk2 hnd2.2
      simp only [tab, List.map_cons, JsMap.set] at this ⊢
      simp [h, this, Function.update, Ne.symm h]

theorem tab_set_new (ks : List Nat) (f : Nat → ℚ) (k : Nat) (hk : k ∉ ks) :
    JsMap.set (tab ks f) k (JsNum.fin (f k)) = tab (ks ++ [k]) f := by
  induction ks with
  | nil => simp [tab, JsMap.set]
  | cons a ks ih =>
    have h : a ≠ k := fun h => hk (by simp [h])
    have hk2 : k ∉ ks := fun h2 => hk (List.mem_cons_of_mem _ h2)
    have := ih hk2
    simp only [tab, List.map_cons, JsMap.set, List.cons_append] at this ⊢
    simp [h, this]

theorem sumContributions_aux (f : Nat → ℚ) (ks : List Nat) :
    ∀ d : ℚ, (tab ks f).foldl (fun acc e => JsNum.add acc e.2) (JsNum.fin d) =
      JsNum.fin (d + (ks.map f).sum) := by
  induction ks with
  | nil => intro d; simp [tab]
  | cons a ks ih =>
    intro d
    rw [tab_cons, List.foldl_cons, JsNum.add_fin, ih]
    simp [add_assoc]

theorem sumContributions_tab (ks : List Nat) (f : Nat → ℚ) :
    sumContributions (tab ks f) = JsNum.fin ((ks.map f).sum) := by
  have := sumContributions_aux f ks 0
  simpa [sumContributions, JsNum.zero] using this

theorem initContributions_aux (members : List User) :
    ∀ ks : List Nat, ks.Nodup →
      members.foldl (fun m member => JsMap.set m member._id JsNum.zero) (tab ks (fun _ => 0)) =
          tab (members.foldl (fun ks m => if m._id ∈ ks then ks else ks ++ [m._id]) ks) (fun _ => 0) ∧
        (members.foldl (fun ks m => if m._id ∈ ks then ks else ks ++ [m._id]) ks).Nodup ∧
        ∀ k, k ∈ members.foldl (fun ks m => if m._id ∈ ks then ks else ks ++ [m._id]) ks ↔
          k ∈ ks ∨ k ∈ members.map (fun m => m._id) := by
  induction members with
  | nil => intro ks hnd; simp [hnd]
  | cons u us ih =>
    intro ks hnd
    simp only [List.foldl_cons]
    by_cases hu : u._id ∈ ks
    · have hset : JsMap.set (tab ks (fun _ => 0)) u._id JsNum.zero = tab ks (fun _ => 0) := by
        have := tab_set ks (fun _ => 0) u._id 0 hu hnd
        rw [JsNum.zero, this]
        apply tab_congr
        intro j _
        by_cases hj : j = u._id <;> simp [Function.update, hj]
      rw [hset, if_pos hu]
      obtain ⟨h1, h2, h3⟩ := ih ks hnd
      refine ⟨h1, h2, fun k => ?_⟩
      rw [h3 k]
      simp only [List.map_cons, List.mem_cons]
      constructor
      · rintro (h | h)
        · exact Or.inl h
        · exact Or.inr (Or.inr h)
      · rintro (h | h | h)
        · exact Or.inl h
        · exact Or.inl (h ▸ hu)
        · exact Or.inr h
    · have hset : JsMap.set (tab ks (fun _ => 0)) u._id JsNum.zero = tab (ks ++ [u._id]) (fun _ => 0) :=
        tab_set_new ks (fun _ => 0) u._id hu
      rw [hset, if_neg hu]
      have hnd2 : (ks ++ [u._id]).Nodup := by
        rw [List.nodup_append]
        refine ⟨hnd, List.nodup_singleton _, ?_⟩
        intro a ha hb
        rw [List.mem_singleton] at hb
        exact hu (hb ▸ ha)
      obtain ⟨h1, h2, h3⟩ := ih (ks ++ [u._id]) hnd2
      refine ⟨h1, h2, fun k => ?_⟩
      rw [h3 k]
      simp only [List.map_cons, List.mem_cons, List.mem_append, List.mem_singleton]
      tauto

theorem initContributions_eq (members : List User) :
    initContributions members = tab (memberKeys members) (fun _ => 0) :=
  (initContributions_aux members [] List.nodup_nil).1

theorem memberKeys_nodup (members : List User) : (memberKeys members).Nodup :=
  (initContributions_aux members [] List.nodup_nil).2.1

theorem mem_memberKeys (members : List User) (k : Nat) :
    k ∈ memberKeys members ↔ k ∈ members.map (fun m => m._id) := by
  have := (initContributions_aux members [] List.nodup_nil).2.2 k
  simpa [memberKeys] using this

theorem memberKeys_perm (room : Room) : List.Perm (memberKeys room.members) (memberIds room).dedup := by
  rw [List.perm_ext_iff_of_nodup (memberKeys_nodup _) (List.nodup_dedup _)]
  intro a
  rw [mem_memberKeys, List.mem_dedup, memberIds]

theorem ownSum_cons (x : Nat × JsNum) (xs : List (Nat × JsNum)) (k : Nat) :
    ownSum (x :: xs) k = (if x.1 = k then x.2.toRat else 0) + ownSum xs k := by
  by_cases h : x.1 = k <;> simp [ownSum, List.filter_cons, h]

theorem accumulate_tab (xs : List (Nat × JsNum)) :
    ∀ (ks : List Nat) (f : Nat → ℚ), ks.Nodup → (∀ x ∈ xs, x.2.isFinite = true) →
      accumulate (tab ks f) xs = tab ks (fun k => f k + ownSum xs k) := by
  induction xs with
  | nil => intro ks f _ _; simp [accumulate, ownSum]
  | cons x xs ih =>
    intro ks f hnd hfin
    have hx : x.2 = JsNum.fin x.2.toRat := JsNum.eq_fin_of_isFinite (hfin x (List.mem_cons_self _ _))
    have hrest : ∀ y ∈ xs, y.2.isFinite = true := fun y hy => hfin y (List.mem_cons_of_mem _ hy)
    have hstep : accumulate (tab ks f) (x :: xs) =
        accumulate (if JsMap.has (tab ks f) x.1 then
          JsMap.set (tab ks f) x.1 (JsNum.add (JsNum.ofGet (JsMap.get (tab ks f) x.1)) x.2)
          else tab ks f) xs := by
      simp [accumulate]
    rw [hstep, tab_has]
    by_cases hk : x.1 ∈ ks
    · simp only [hk, decide_True, if_true]
      rw [tab_get ks f x.1 hk, hx]
      simp only [JsNum.ofGet, JsNum.add_fin]
      rw [tab_set ks f x.1 _ hk hnd, ih ks _ hnd hrest]
      apply tab_congr
      intro k _
      rw [ownSum_cons]
      by_cases h : x.1 = k
      · subst h; simp [Function.update, JsNum.toRat]; ring
      · simp [Function.update, h, Ne.symm h]
    · simp only [hk, decide_False]
      rw [if_neg (by simp), ih ks f hnd hrest]
      apply tab_congr
      intro k hk2
      rw [ownSum_cons]
      have h : x.1 ≠ k := fun e => hk (e ▸ hk2)
      simp [h]

theorem addExpenses_eq (m : JsMap) (es : List Expense) :
    addExpenses m es = accumulate m (es.map (fun e => (e.addedBy, e.amount))) := by
  simp [addExpenses, accumulate, List.foldl_map]

theorem addSettlements_eq (m : JsMap) (ss : List Settlement) :
    addSettlements m ss = accumulate m (ss.map (fun s => (s.paidBy, s.amount))) := by
  simp [addSettlements, accumulate, List.foldl_map]

theorem creditorStep_fin (p v d : ℚ) (cs : List Creditor) (a : Nat) :
    creditorStep (JsNum.fin p) (cs, JsNum.fin d) (a, JsNum.fin v) =
      if p < v then (cs ++ [{ memberId := a, credit := JsNum.fin (v - p) }], JsNum.fin (d + (v - p)))
      else (cs, JsNum.fin d) := by
  by_cases h : p < v <;> simp [creditorStep, JsNum.zero, h]

theorem collectCreditors_aux (p : ℚ) (f : Nat → ℚ) (ks : List Nat) :
    ∀ (cs : List Creditor) (d : ℚ),
      (tab ks f).foldl (creditorStep (JsNum.fin p)) (cs, JsNum.fin d) =
        (cs ++ (ks.filter (fun k => decide (p < f k))).map
            (fun k => { memberId := k, credit := JsNum.fin (f k - p) }),
          JsNum.fin (d + ((ks.filter (fun k => decide (p < f k))).map (fun k => f k - p)).sum)) := by
  induction ks with
  | nil => intro cs d; simp [tab]
  | cons a ks ih =>
    intro cs d
    rw [tab_cons, List.foldl_cons, creditorStep_fin]
    by_cases h : p < f a
    · rw [if_pos h, ih]
      simp [List.filter_cons, h, add_assoc]
    · rw [if_neg h, ih]
      simp [List.filter_cons, h]

theorem collectCreditors_tab (p : ℚ) (f : Nat → ℚ) (ks : List Nat) :
    collectCreditors (tab ks f) (JsNum.fin p) =
      ((ks.filter (fun k => decide (p < f k))).map
          (fun k => { memberId := k, credit := JsNum.fin (f k - p) }),
        JsNum.fin (((ks.filter (fun k => decide (p < f k))).map (fun k => f k - p)).sum)) := by
  have := collectCreditors_aux p f ks [] 0
  simpa [collectCreditors, JsNum.zero] using this

theorem distribute_tab (c : Nat → ℚ) (D S : ℚ) (hD : D ≠ 0) (ks : List Nat) (hnd : ks.Nodup)
    (L : List Nat) :
    ∀ (f : Nat → ℚ), L.Nodup → (∀ k ∈ L, k ∈ ks) →
      distribute (tab ks f) (L.map (fun k => { memberId := k, credit := JsNum.fin (c k) }))
          (JsNum.fin D) (JsNum.fin S) =
        tab ks (fun k => if k ∈ L then f k - c k / D * S else f k) := by
  induction L with
  | nil => intro f _ _; simp [distribute]
  | cons a L ih =>
    intro f hL hsub
    have hL2 := List.nodup_cons.1 hL
    have ha : a ∈ ks := hsub a (List.mem_cons_self _ _)
    have hstep : distribute (tab ks f)
          ((a :: L).map (fun k => { memberId := k, credit := JsNum.fin (c k) }))
          (JsNum.fin D) (JsNum.fin S) =
        distribute
          (JsMap.set (tab ks f) a
            (JsNum.sub (JsNum.ofGet (JsMap.get (tab ks f) a))
              (JsNum.mul (JsNum.div (JsNum.fin (c a)) (JsNum.fin D)) (JsNum.fin S))))
          (L.map (fun k => { memberId := k, credit := JsNum.fin (c k) }))
          (JsNum.fin D) (JsNum.fin S) := by
      simp [distribute]
    rw [hstep, tab_get ks f a ha, JsNum.div_fin _ _ hD]
    simp only [JsNum.ofGet, JsNum.mul_fin, JsNum.sub_fin]
    rw [tab_set ks f a _ ha hnd, ih _ hL2.2 (fun k hk => hsub k (List.mem_cons_of_mem _ hk))]
    apply tab_congr
    intro k _
    by_cases hka : k = a
    · subst hka
      simp [Function.update, hL2.1]
    · by_cases hkL : k ∈ L <;> simp [Function.update, hka, hkL]

theorem finiteOrZero_add (d : ℚ) (x : JsNum) :
    JsNum.add (JsNum.fin d) (if x.isFinite then x else JsNum.zero) = JsNum.fin (d + x.toRat) := by
  cases x <;> simp [JsNum.isFinite, JsNum.zero, JsNum.toRat]

theorem sumFiniteExpenses_aux (es : List Expense) :
    ∀ d : ℚ,
      es.foldl (fun acc exp => JsNum.add acc (if exp.amount.isFinite then exp.amount else JsNum.zero))
          (JsNum.fin d) =
        JsNum.fin (d + (es.map (fun e => e.amount.toRat)).sum) := by
  induction es with
  | nil => intro d; simp
  | cons e es ih =>
    intro d
    rw [List.foldl_cons, finiteOrZero_add, ih]
    simp [add_assoc]

theorem sumFiniteExpenses_eq (es : List Expense) :
    sumFiniteExpenses es = JsNum.fin ((es.map (fun e => e.amount.toRat)).sum) := by
  have := sumFiniteExpenses_aux es 0
  simpa [sumFiniteExpenses, JsNum.zero] using this

theorem sumExpenses_aux (es : List Expense) :
    ∀ d : ℚ, (∀ e ∈ es, e.amount.isFinite = true) →
      es.foldl (fun acc exp => JsNum.add acc exp.amount) (JsNum.fin d) =
        JsNum.fin (d + (es.map (fun e => e.amount.toRat)).sum) := by
  induction es with
  | nil => intro d _; simp
  | cons e es ih =>
    intro d hfin
    have he := JsNum.eq_fin_of_isFinite (hfin e (List.mem_cons_self _ _))
    rw [List.foldl_cons, he, JsNum.add_fin, ih _ (fun y hy => hfin y (List.mem_cons_of_mem _ hy))]
    simp [JsNum.toRat, add_assoc]

theorem sumExpenses_eq (es : List Expense) (hfin : ∀ e ∈ es, e.amount.isFinite = true) :
    sumExpenses es = JsNum.fin ((es.map (fun e => e.amount.toRat)).sum) := by
  have := sumExpenses_aux es 0 hfin
  simpa [sumExpenses, JsNum.zero] using this

theorem sumSettlements_aux (ss : List Settlement) :
    ∀ d : ℚ, (∀ s ∈ ss, s.amount.isFinite = true) →
      ss.foldl (fun acc s => JsNum.add acc s.amount) (JsNum.fin d) =
        JsNum.fin (d + (ss.map (fun s => s.amount.toRat)).sum) := by
  induction ss with
  | nil => intro d _; simp
  | cons e es ih =>
    intro d hfin
    have he := JsNum.eq_fin_of_isFinite (hfin e (List.mem_cons_self _ _))
    rw [List.foldl_cons, he, JsNum.add_fin, ih _ (fun y hy => hfin y (List.mem_cons_of_mem _ hy))]
    simp [JsNum.toRat, add_assoc]

theorem sumSettlements_eq (ss : List Settlement) (hfin : ∀ s ∈ ss, s.amount.isFinite = true) :
    sumSettlements ss = JsNum.fin ((ss.map (fun s => s.amount.toRat)).sum) := by
  have := sumSettlements_aux ss 0 hfin
  simpa [sumSettlements, JsNum.zero] using this

theorem finiteAmounts_expenses {db : Db} {roomId : Nat} (h : finiteAmounts db roomId = true) :
    ∀ e ∈ findExpenses db roomId, e.amount.isFinite = true := by
  simp only [finiteAmounts, Bool.and_eq_true, List.all_eq_true] at h
  exact h.1

theorem finiteAmounts_settlements {db : Db} {roomId : Nat} (h : finiteAmounts db roomId = true) :
    ∀ s ∈ findSettlements db roomId, s.amount.isFinite = true := by
  simp only [finiteAmounts, Bool.and_eq_true, List.all_eq_true] at h
  exact h.2

theorem findRoomById_id {db : Db} {roomId : Nat} {room : Room}
    (h : findRoomById db roomId = some room) : room._id = roomId := by
  have := List.find?_some h
  simpa using this

theorem expenseSum_eq_ownSum (db : Db) (roomId k : Nat) :
    expenseSum db roomId k =
      ownSum ((findExpenses db roomId).map (fun e => (e.addedBy, e.amount))) k := by
  simp [expenseSum, ownSum, List.filter_map, Function.comp_def]

theorem settlementSum_eq_ownSum (db : Db) (roomId k : Nat) :
    settlementSum db roomId k =
      ownSum ((findSettlements db roomId).map (fun s => (s.paidBy, s.amount))) k := by
  simp [settlementSum, ownSum, List.filter_map, Function.comp_def]

theorem totalDebt_eq_keys (db : Db) (room : Room) :
    totalDebt db room =
      (((memberKeys room.members).filter
          (fun k => decide (perHeadOf db room < expenseSum db room._id k))).map
        (fun k => expenseSum db room._id k - perHeadOf db room)).sum := by
  unfold totalDebt creditorIds
  exact (((memberKeys_perm room).filter _).map _).sum_eq.symm

theorem length_cast_ne_zero {room : Room} (hmem : room.members ≠ []) :
    ((room.members.length : ℕ) : ℚ) ≠ 0 := by
  have : room.members.length ≠ 0 := fun h => hmem (List.length_eq_zero.1 h)
  exact_mod_cast this

/-- On finite amounts the code computes the closed form `effectiveRat` for every member. -/
theorem calculate_eq (db : Db) (roomId : Nat) (room : Room)
    (hroom : findRoomById db roomId = some room) (hmem : room.members ≠ [])
    (hfin : finiteAmounts db roomId = true) :
    calculateEffectiveContributions db roomId =
      { contributions := tab (memberKeys room.members) (effectiveRat db room),
        total := JsNum.fin (totalExpenses db roomId),
        perHead := JsNum.fin (perHeadOf db room),
        members := room.members } := by
  have hid := findRoomById_id hroom
  subst hid
  have hlen : room.members.length ≠ 0 := fun h => hmem (List.length_eq_zero.1 h)
  have hn := length_cast_ne_zero hmem
  have hE := finiteAmounts_expenses hfin
  have hS := finiteAmounts_settlements hfin
  have hnd := memberKeys_nodup room.members
  have hEp : ∀ x ∈ (findExpenses db room._id).map (fun e => (e.addedBy, e.amount)),
      x.2.isFinite = true := by
    intro x hx
    obtain ⟨e, he, rfl⟩ := List.mem_map.1 hx
    exact hE e he
  have hSp : ∀ x ∈ (findSettlements db room._id).map (fun s => (s.paidBy, s.amount)),
      x.2.isFinite = true := by
    intro x hx
    obtain ⟨e, he, rfl⟩ := List.mem_map.1 hx
    exact hS e he
  have hbase : addExpenses (initContributions room.members) (findExpenses db room._id) =
      tab (memberKeys room.members) (fun k => expenseSum db room._id k) := by
    rw [addExpenses_eq, initContributions_eq, accumulate_tab _ _ _ hnd hEp]
    apply tab_congr
    intro k _
    rw [expenseSum_eq_ownSum]
    simp
  have hper : JsNum.div (sumFiniteExpenses (findExpenses db room._id))
      (JsNum.fin (room.members.length : ℚ)) = JsNum.fin (perHeadOf db room) := by
    rw [sumFiniteExpenses_eq, JsNum.div_fin _ _ hn]
    rfl
  unfold calculateEffectiveContributions
  rw [hroom]
  simp only [if_neg hlen]
  rw [hbase, hper, collectCreditors_tab, sumSettlements_eq _ hS, ← totalDebt_eq_keys]
  have htot : sumFiniteExpenses (findExpenses db room._id) = JsNum.fin (totalExpenses db room._id) :=
    sumFiniteExpenses_eq _
  rw [htot]
  congr 1
  by_cases hD : 0 < totalDebt db room
  · have hg : JsNum.gt (JsNum.fin (totalDebt db room)) JsNum.zero = true := by
      simp [JsNum.zero, hD]
    simp only [hg, if_true]
    rw [distribute_tab (fun k => expenseSum db room._id k - perHeadOf db room) _ _ (ne_of_gt hD)
      _ hnd _ _ (hnd.filter _) (fun k hk => (List.mem_filter.1 hk).1)]
    rw [addSettlements_eq, accumulate_tab _ _ _ hnd hSp]
    apply tab_congr
    intro k hk
    simp only [effectiveRat, settlementSum_eq_ownSum, List.mem_filter, hk, true_and,
      decide_eq_true_eq, hD, and_true]
    rfl
  · have hg : JsNum.gt (JsNum.fin (totalDebt db room)) JsNum.zero = false := by
      simp [JsNum.zero, hD]
    simp only [hg]
    rw [if_neg (by simp), addSettlements_eq, accumulate_tab _ _ _ hnd hSp]
    apply tab_congr
    intro k _
    simp [effectiveRat, settlementSum_eq_ownSum, hD]

theorem indicator_sum (q : ℚ) (a : Nat) (ks : List Nat) (hnd : ks.Nodup) :
    (ks.map (fun k => if a = k then q else 0)).sum = if a ∈ ks then q else 0 := by
  induction ks with
  | nil => simp
  | cons b ks ih =>
    have hnd2 := List.nodup_cons.1 hnd
    rw [List.map_cons, List.sum_cons, ih hnd2.2]
    by_cases hab : a = b
    · subst hab
      simp [hnd2.1]
    · simp [hab]

theorem sum_ownSum (ks : List Nat) (hnd : ks.Nodup) (xs : List (Nat × JsNum)) :
    (ks.map (ownSum xs)).sum =
      ((xs.filter (fun x => decide (x.1 ∈ ks))).map (fun x => x.2.toRat)).sum := by
  induction xs with
  | nil =>
    have h0 : ownSum [] = fun _ => (0 : ℚ) := funext (fun k => by simp [ownSum])
    rw [h0]
    simp
  | cons x xs ih =>
    have h1 : (ks.map (ownSum (x :: xs))).sum =
        (ks.map (fun k => if x.1 = k then x.2.toRat else 0)).sum + (ks.map (ownSum xs)).sum := by
      rw [← List.sum_map_add]
      congr 1
      apply List.map_congr_left
      intro k _
      rw [ownSum_cons]
    rw [h1, ih, indicator_sum _ _ _ hnd]
    by_cases hx : x.1 ∈ ks <;> simp [List.filter_cons, hx]

theorem sum_ownSum_of_mem (ks : List Nat) (hnd : ks.Nodup) (xs : List (Nat × JsNum))
    (h : ∀ x ∈ xs, x.1 ∈ ks) :
    (ks.map (ownSum xs)).sum = (xs.map (fun x => x.2.toRat)).sum := by
  rw [sum_ownSum ks hnd xs]
  congr 2
  rw [List.filter_eq_self]
  intro x hx
  simpa using h x hx

theorem sum_expenseSum (db : Db) (room : Room)
    (hpay : ∀ e ∈ findExpenses db room._id, e.addedBy ∈ memberIds room) :
    ((memberKeys room.members).map (fun k => expenseSum db room._id k)).sum =
      totalExpenses db room._id := by
  have h := sum_ownSum_of_mem (memberKeys room.members) (memberKeys_nodup _)
    ((findExpenses db room._id).map (fun e => (e.addedBy, e.amount)))
    (by
      intro x hx
      obtain ⟨e, he, rfl⟩ := List.mem_map.1 hx
      exact (mem_memberKeys _ _).2 (hpay e he))
  have h2 : (fun k => expenseSum db room._id k) =
      ownSum ((findExpenses db room._id).map (fun e => (e.addedBy, e.amount))) := by
    funext k
    exact expenseSum_eq_ownSum db room._id k
  rw [h2, h]
  simp [totalExpenses, Function.comp_def]

theorem sum_settlementSum (db : Db) (room : Room)
    (hpay : ∀ s ∈ findSettlements db room._id, s.paidBy ∈ memberIds room) :
    ((memberKeys room.members).map (fun k => settlementSum db room._id k)).sum =
      totalSettled db room._id := by
  have h := sum_ownSum_of_mem (memberKeys room.members) (memberKeys_nodup _)
    ((findSettlements db room._id).map (fun s => (s.paidBy, s.amount)))
    (by
      intro x hx
      obtain ⟨e, he, rfl⟩ := List.mem_map.1 hx
      exact (mem_memberKeys _ _).2 (hpay e he))
  have h2 : (fun k => settlementSum db room._id k) =
      ownSum ((findSettlements db room._id).map (fun s => (s.paidBy, s.amount))) := by
    funext k
    exact settlementSum_eq_ownSum db room._id k
  rw [h2, h]
  simp [totalSettled, Function.comp_def]

theorem calculate_empty (db : Db) (roomId : Nat) (room : Room)
    (hroom : findRoomById db roomId = some room) (hmem : room.members = []) :
    calculateEffectiveContributions db roomId =
      { contributions := [], total := JsNum.zero, perHead := JsNum.zero, members := [] } := by
  unfold calculateEffectiveContributions
  rw [hroom]
  simp [hmem]

theorem ownFold_expenses (uid : Nat) (es : List Expense) :
    ∀ d : ℚ, (∀ e ∈ es, e.amount.isFinite = true) →
      es.foldl (fun c e => if e.addedBy == uid then JsNum.add c e.amount else c) (JsNum.fin d) =
        JsNum.fin (d + ((es.filter (fun e => e.addedBy == uid)).map (fun e => e.amount.toRat)).sum) := by
  induction es with
  | nil => intro d _; simp
  | cons e es ih =>
    intro d hfin
    have he := JsNum.eq_fin_of_isFinite (hfin e (List.mem_cons_self _ _))
    have hrest : ∀ y ∈ es, y.amount.isFinite = true := fun y hy => hfin y (List.mem_cons_of_mem _ hy)
    rw [List.foldl_cons]
    by_cases h : e.addedBy = uid
    · have hb : (e.addedBy == uid) = true := by simp [h]
      rw [if_pos hb, he, JsNum.add_fin, ih _ hrest]
      simp [List.filter_cons, hb, JsNum.toRat, add_assoc]
    · have hb : (e.addedBy == uid) = false := by simp [h]
      rw [hb, if_neg (by simp), ih _ hrest]
      simp [List.filter_cons, hb]

theorem ownFold_settlements (uid : Nat) (ss : List Settlement) :
    ∀ d : ℚ, (∀ s ∈ ss, s.amount.isFinite = true) →
      ss.foldl (fun c s => if s.paidBy == uid then JsNum.add c s.amount else c) (JsNum.fin d) =
        JsNum.fin (d + ((ss.filter (fun s => s.paidBy == uid)).map (fun s => s.amount.toRat)).sum) := by
  induction ss with
  | nil => intro d _; simp
  | cons e es ih =>
    intro d hfin
    have he := JsNum.eq_fin_of_isFinite (hfin e (List.mem_cons_self _ _))
    have hrest : ∀ y ∈ es, y.amount.isFinite = true := fun y hy => hfin y (List.mem_cons_of_mem _ hy)
    rw [List.foldl_cons]
    by_cases h : e.paidBy = uid
    · have hb : (e.paidBy == uid) = true := by simp [h]
      rw [if_pos hb, he, JsNum.add_fin, ih _ hrest]
      simp [List.filter_cons, hb, JsNum.toRat, add_assoc]
    · have hb : (e.paidBy == uid) = false := by simp [h]
      rw [hb, if_neg (by simp), ih _ hrest]
      simp [List.filter_cons, hb]

theorem amountOwed_eq (db : Db) (room : Room) (uid : Nat) (hmem : room.members ≠ [])
    (hfin : finiteAmounts db room._id = true) :
    amountOwed db room uid = JsNum.fin (owedRat db room uid) := by
  have hE := finiteAmounts_expenses hfin
  have hS := finiteAmounts_settlements hfin
  unfold amountOwed userContribution
  simp only [JsNum.zero]
  rw [sumExpenses_eq _ hE, JsNum.div_fin _ _ (length_cast_ne_zero hmem), ownFold_expenses uid _ 0 hE,
    ownFold_settlements uid _ _ hS, JsNum.sub_fin]
  simp [owedRat, perHeadOf, totalExpenses, expenseSum, settlementSum]

theorem getUserRoom_mem {db : Db} {user : User} {room : Room}
    (h : getUserRoom db user = some room) : user._id ∈ memberIds room := by
  have := List.find?_some h
  simp only [List.any_eq_true, beq_iff_eq] at this
  obtain ⟨m, hm, he⟩ := this
  exact List.mem_map.2 ⟨m, hm, he⟩

theorem getUserRoom_nonempty {db : Db} {user : User} {room : Room}
    (h : getUserRoom db user = some room) : room.members ≠ [] := by
  intro he
  have := getUserRoom_mem h
  simp [memberIds, he] at this

/-- The settle route on finite amounts: the threshold test decides between the two outcomes. -/
theorem settle_eq (db : Db) (user : User) (room : Room) (hroom : getUserRoom db user = some room)
    (hfin : finiteAmounts db room._id = true) :
    settle db user =
      if owedRat db room user._id ≤ 1 / 100 then (SettleResponse.noOutstandingBalance, db)
      else
        (SettleResponse.settled,
          logAndEmit
            { db with
              settlements := db.settlements ++ [newSettlement room user (owedRat db room user._id)] }
            room user
            (user.name ++ " settled their expenses for ₹" ++
              toFixed2 (JsNum.fin (owedRat db room user._id))) "expense") := by
  have hmem := getUserRoom_nonempty hroom
  have hlen : room.members.length ≠ 0 := fun h => hmem (List.length_eq_zero.1 h)
  unfold settle
  rw [hroom]
  simp only [if_neg hlen, amountOwed_eq db room user._id hmem hfin, threshold, JsNum.le_fin,
    decide_eq_true_eq, newSettlement]
  by_cases h : owedRat db room user._id ≤ 1 / 100
  · simp [h]
  · simp [h]

theorem balanceOf_eq (db : Db) (room : Room) (k : Nat)
    (hkey : findRoomById db room._id = some room) (hmem : room.members ≠ [])
    (hfin : finiteAmounts db room._id = true) (hk : k ∈ memberIds room) :
    balanceOf (calculateEffectiveContributions db room._id) k =
      JsNum.fin (perHeadOf db room - effectiveRat db room k) := by
  rw [calculate_eq db room._id room hkey hmem hfin]
  simp only [balanceOf]
  rw [tab_get _ _ _ ((mem_memberKeys _ _).2 hk)]
  simp [JsNum.ofGet]

/-- What the engine's quantities become when one settlement of the room is appended. -/
theorem appended_settlement (db db2 : Db) (room : Room) (s : Settlement) (a : ℚ)
    (hr : db2.rooms = db.rooms) (he : db2.expenses = db.expenses)
    (hs : db2.settlements = db.settlements ++ [s]) (hsr : s.room = room._id)
    (hsa : s.amount = JsNum.fin a) :
    findRoomById db2 room._id = findRoomById db room._id ∧
      findExpenses db2 room._id = findExpenses db room._id ∧
      findSettlements db2 room._id = findSettlements db room._id ++ [s] ∧
      perHeadOf db2 room = perHeadOf db room ∧
      totalDebt db2 room = totalDebt db room ∧
      totalSettled db2 room._id = totalSettled db room._id + a ∧
      (∀ k, expenseSum db2 room._id k = expenseSum db room._id k) ∧
      (∀ k, settlementSum db2 room._id k =
        settlementSum db room._id k + if s.paidBy = k then a else 0) ∧
      (finiteAmounts db room._id = true → finiteAmounts db2 room._id = true) := by
  have h1 : findExpenses db2 room._id = findExpenses db room._id := by
    simp [findExpenses, he]
  have h2 : findSettlements db2 room._id = findSettlements db room._id ++ [s] := by
    simp [findSettlements, hs, List.filter_append, List.filter_cons, hsr]
  have h3 : ∀ k, expenseSum db2 room._id k = expenseSum db room._id k := by
    intro k; simp [expenseSum, h1]
  have h4 : perHeadOf db2 room = perHeadOf db room := by
    simp [perHeadOf, totalExpenses, h1]
  refine ⟨by simp [findRoomById, hr], h1, h2, h4, ?_, ?_, h3, ?_, ?_⟩
  · simp [totalDebt, creditorIds, h3, h4]
  · simp [totalSettled, h2, hsa, JsNum.toRat]
  · intro k
    by_cases hk : s.paidBy = k
    · simp [settlementSum, h2, List.filter_append, List.filter_cons, hk, hsa, JsNum.toRat]
    · simp [settlementSum, h2, List.filter_append, List.filter_cons, hk]
  · intro hfin
    simp only [finiteAmounts, Bool.and_eq_true, List.all_eq_true] at hfin ⊢
    refine ⟨by rw [h1]; exact hfin.1, ?_⟩
    intro x hx
    rw [h2, List.mem_append, List.mem_singleton] at hx
    rcases hx with hx | hx
    · exact hfin.2 x hx
    · rw [hx, hsa]; rfl

theorem settlementSum_nonneg (db : Db) (roomId k : Nat) (hfin : finiteAmounts db roomId = true)
    (hpos : nonnegSettlements db roomId = true) : 0 ≤ settlementSum db roomId k := by
  unfold settlementSum
  apply List.sum_nonneg
  intro q hq
  obtain ⟨s, hs, rfl⟩ := List.mem_map.1 hq
  have hs2 : s ∈ findSettlements db roomId := (List.mem_filter.1 hs).1
  have h1 := JsNum.eq_fin_of_isFinite (finiteAmounts_settlements hfin s hs2)
  simp only [nonnegSettlements, List.all_eq_true] at hpos
  have h2 := hpos s hs2
  rw [h1, JsNum.zero, JsNum.le_fin, decide_eq_true_eq] at h2
  exact h2

theorem settle_settled_fields (db : Db) (user : User) (room : Room)
    (hroom : getUserRoom db user = some room) (hfin : finiteAmounts db room._id = true)
    (hn : ¬ owedRat db room user._id ≤ 1 / 100) :
    (settle db user).1 = SettleResponse.settled ∧
      (settle db user).2.rooms = db.rooms ∧
      (settle db user).2.expenses = db.expenses ∧
      (settle db user).2.settlements =
        db.settlements ++ [newSettlement room user (owedRat db room user._id)] := by
  rw [settle_eq db user room hroom hfin, if_neg hn]
  exact ⟨rfl, rfl, rfl, rfl⟩

theorem settle_failed (db : Db) (user : User) (room : Room)
    (hroom : getUserRoom db user = some room) (hfin : finiteAmounts db room._id = true)
    (hn : owedRat db room user._id ≤ 1 / 100) :
    settle db user = (SettleResponse.noOutstandingBalance, db) := by
  rw [settle_eq db user room hroom hfin, if_pos hn]

theorem sum_linear (a b c : Nat → ℚ) (t : ℚ) (ks : List Nat) :
    (ks.map (fun k => a k + b k - c k * t)).sum =
      (ks.map a).sum + (ks.map b).sum - (ks.map c).sum * t := by
  induction ks with
  | nil => simp
  | cons k ks ih =>
    simp only [List.map_cons, List.sum_cons, ih]
    ring

theorem sum_ite_filter (P : Nat → Prop) [DecidablePred P] (f : Nat → ℚ) (ks : List Nat) :
    (ks.map (fun k => if P k then f k else 0)).sum = ((ks.filter (fun k => decide (P k))).map f).sum := by
  induction ks with
  | nil => simp
  | cons k ks ih =>
    by_cases h : P k <;> simp [List.filter_cons, h, ih]

theorem totalDebt_nonneg (db : Db) (room : Room) : 0 ≤ totalDebt db room := by
  unfold totalDebt
  apply List.sum_nonneg
  intro q hq
  obtain ⟨k, hk, rfl⟩ := List.mem_map.1 hq
  have := (List.mem_filter.1 hk).2
  simp only [decide_eq_true_eq] at this
  linarith

theorem totalDebt_pos_iff (db : Db) (room : Room) :
    0 < totalDebt db room ↔
      ∃ k ∈ memberIds room, perHeadOf db room < expenseSum db room._id k := by
  constructor
  · intro h
    by_contra hne
    have hnil : creditorIds db room = [] := by
      unfold creditorIds
      rw [List.filter_eq_nil_iff]
      intro k hk hp
      simp only [decide_eq_true_eq] at hp
      exact hne ⟨k, List.mem_dedup.1 hk, hp⟩
    simp [totalDebt, hnil] at h
  · rintro ⟨k, hk, hp⟩
    unfold totalDebt
    apply List.sum_pos
    · intro q hq
      obtain ⟨j, hj, rfl⟩ := List.mem_map.1 hq
      have := (List.mem_filter.1 hj).2
      simp only [decide_eq_true_eq] at this
      linarith
    · intro hnil
      have hmemk : k ∈ creditorIds db room := by
        unfold creditorIds
        exact List.mem_filter.2 ⟨List.mem_dedup.2 hk, by simpa using hp⟩
      rw [List.map_eq_nil_iff] at hnil
      rw [hnil] at hmemk
      simp at hmemk

theorem sum_effectiveRat (db : Db) (room : Room) (hD : 0 < totalDebt db room)
    (hE : ∀ e ∈ findExpenses db room._id, e.addedBy ∈ memberIds room)
    (hS : ∀ s ∈ findSettlements db room._id, s.paidBy ∈ memberIds room) :
    ((memberKeys room.members).map (effectiveRat db room)).sum = totalExpenses db room._id := by
  have hform : ∀ k, effectiveRat db room k =
      expenseSum db room._id k + settlementSum db room._id k -
        (if perHeadOf db room < expenseSum db room._id k then
          expenseSum db room._id k - perHeadOf db room else 0) *
          (totalSettled db room._id / totalDebt db room) := by
    intro k
    unfold effectiveRat
    by_cases h : perHeadOf db room < expenseSum db room._id k
    · rw [if_pos ⟨h, hD⟩, if_pos h]
      ring
    · rw [if_neg (fun hh => h hh.1), if_neg h]
      ring
  rw [show effectiveRat db room = fun k => effectiveRat db room k from rfl]
  simp only [hform]
  rw [sum_linear, sum_expenseSum db room hE, sum_settlementSum db room hS,
    sum_ite_filter (fun k => perHeadOf db room < expenseSum db room._id k), ← totalDebt_eq_keys]
  field_simp

/-! ## C1: proportional redistribution -/

/-- C1. In a room with at least one member, finite amounts and `totalDebt > 0`, a creditor `c`
(a member whose expense sum exceeds `perHead`) ends with the contribution
`base - ((base - perHead) / totalDebt) * totalSettled + (sum of c's own settlements)`. -/
theorem C1_proportional_redistribution (db : Db) (roomId : Nat) (room : Room) (c : Nat)
    (hroom : findRoomById db roomId = some room) (hmem : room.members ≠ [])
    (hfin : finiteAmounts db roomId = true) (hc : c ∈ memberIds room)
    (hcred : perHeadOf db room < expenseSum db roomId c) (hdebt : 0 < totalDebt db room) :
    JsMap.get (calculateEffectiveContributions db roomId).contributions c =
      some (JsNum.fin
        (expenseSum db roomId c -
          ((expenseSum db roomId c - perHeadOf db room) / totalDebt db room) * totalSettled db roomId +
          settlementSum db roomId c)) := by
  have hid := findRoomById_id hroom
  subst hid
  rw [calculate_eq db room._id room hroom hmem hfin]
  have hk : c ∈ memberKeys room.members := (mem_memberKeys _ _).2 hc
  simp only []
  rw [tab_get _ _ _ hk, effectiveRat, if_pos ⟨hcred, hdebt⟩]

/-- C1 at the worked example: A is the creditor of a room with `totalDebt = 200`. -/
theorem C1_proportional_redistribution_witness :
    JsMap.get (calculateEffectiveContributions exampleDb 1).contributions 10 =
      some (JsNum.fin
        (expenseSum exampleDb 1 10 -
          ((expenseSum exampleDb 1 10 - perHeadOf exampleDb exampleRoom) /
            totalDebt exampleDb exampleRoom) * totalSettled exampleDb 1 +
          settlementSum exampleDb 1 10)) :=
  C1_proportional_redistribution exampleDb 1 exampleRoom 10 (by decide) (by decide) (by decide)
    (by decide) (by decide!) (by decide!)

/-! ## C2: the worked example -/

/-- C2. With members A, B, C, one expense of 300 paid by A and one settlement of 100 paid by B,
the engine returns `total = 300`, `perHead = 100`, contributions A = 200, B = 100, C = 0, and
`/split` reports the balances A = -100, B = 0, C = 100. -/
theorem C2_worked_example :
    calculateEffectiveContributions exampleDb 1 =
        { contributions := [(10, JsNum.fin 200), (11, JsNum.fin 100), (12, JsNum.fin 0)],
          total := JsNum.fin 300, perHead := JsNum.fin 100,
          members := [⟨10, "A"⟩, ⟨11, "B"⟩, ⟨12, "C"⟩] } ∧
      split exampleDb exampleRoom =
        { total := JsNum.fin 300, perHead := JsNum.fin 100,
          balances := [("A", { owes := JsNum.fin (-100), userId := 10 }),
                       ("B", { owes := JsNum.fin 0, userId := 11 }),
                       ("C", { owes := JsNum.fin 100, userId := 12 })] } := by
  decide!

/-! ## C3: conservation without settlements -/

/-- C3 as stated fails: with an expense paid by a user who is not a member and no settlement,
the contributions sum to 0 while the total is 100. -/
theorem C3_counterexample :
    findSettlements strangerDb 1 = [] ∧
      sumContributions (calculateEffectiveContributions strangerDb 1).contributions = JsNum.fin 0 ∧
      (calculateEffectiveContributions strangerDb 1).total = JsNum.fin 100 ∧
      sumContributions (calculateEffectiveContributions strangerDb 1).contributions ≠
        (calculateEffectiveContributions strangerDb 1).total := by
  decide!

/-- C3, amended. For every member list and every list of expenses with finite amounts whose
payers are all current members, when the room has no settlements, the contributions returned by
the engine sum to the returned total. -/
theorem C3_conservation_without_settlements (db : Db) (roomId : Nat) (room : Room)
    (hroom : findRoomById db roomId = some room) (hfin : finiteAmounts db roomId = true)
    (hnone : findSettlements db roomId = [])
    (hpay : ∀ e ∈ findExpenses db roomId, e.addedBy ∈ memberIds room) :
    sumContributions (calculateEffectiveContributions db roomId).contributions =
      (calculateEffectiveContributions db roomId).total := by
  have hid := findRoomById_id hroom
  subst hid
  by_cases hmem : room.members = []
  · rw [calculate_empty db room._id room hroom hmem]
    rfl
  · rw [calculate_eq db room._id room hroom hmem hfin]
    simp only []
    rw [sumContributions_tab, ← sum_expenseSum db room hpay]
    congr 2
    apply List.map_congr_left
    intro k _
    simp [effectiveRat, settlementSum, totalSettled, hnone]

/-- C3 at the worked example without its settlement. -/
theorem C3_conservation_without_settlements_witness :
    sumContributions
        (calculateEffectiveContributions { exampleDb with settlements := [] } 1).contributions =
      (calculateEffectiveContributions { exampleDb with settlements := [] } 1).total :=
  C3_conservation_without_settlements { exampleDb with settlements := [] } 1 exampleRoom
    (by decide) (by decide) (by decide) (by decide)

/-! ## C4: the settle-up threshold and amount -/

/-- C4. For a requesting member of a room (finite amounts), with
`amountOwed = perHead - (own expenses + own settlements)`: the settle operation answers
"no outstanding balance" if and only if `amountOwed ≤ 0.01`, and otherwise it appends exactly one
settlement, paid by the member, in the member's room, with amount `amountOwed`; in particular
`amountOwed = 0.01` fails and `amountOwed = 0.02` records a settlement of `0.02`. -/
theorem C4_settle_threshold (db : Db) (user : User) (room : Room)
    (hroom : getUserRoom db user = some room) (hfin : finiteAmounts db room._id = true) :
    amountOwed db room user._id = JsNum.fin (owedRat db room user._id) ∧
      ((settle db user).1 = SettleResponse.noOutstandingBalance ↔
        owedRat db room user._id ≤ 1 / 100) ∧
      (¬ owedRat db room user._id ≤ 1 / 100 →
        (settle db user).1 = SettleResponse.settled ∧
          (settle db user).2.settlements =
            db.settlements ++
              [{ room := room._id, paidBy := user._id,
                 amount := JsNum.fin (owedRat db room user._id) }]) ∧
      (owedRat db room user._id = 1 / 100 →
        (settle db user).1 = SettleResponse.noOutstandingBalance) ∧
      (owedRat db room user._id = 2 / 100 →
        (settle db user).1 = SettleResponse.settled ∧
          (settle db user).2.settlements =
            db.settlements ++ [{ room := room._id, paidBy := user._id, amount := JsNum.fin (2 / 100) }]) := by
  have hs := settle_eq db user room hroom hfin
  have hmem := getUserRoom_nonempty hroom
  refine ⟨amountOwed_eq db room user._id hmem hfin, ?_, ?_, ?_, ?_⟩
  · rw [hs]
    by_cases h : owedRat db room user._id ≤ 1 / 100
    · rw [if_pos h]
      exact ⟨fun _ => h, fun _ => rfl⟩
    · rw [if_neg h]
      exact ⟨fun hh => absurd hh (by simp), fun hh => absurd hh h⟩
  · intro h
    rw [hs, if_neg h]
    simp [logAndEmit, newSettlement]
  · intro h
    rw [hs, if_pos (le_of_eq h)]
  · intro h
    have hn : ¬ owedRat db room user._id ≤ 1 / 100 := by rw [h]; norm_num
    rw [hs, if_neg hn, h]
    simp [logAndEmit, newSettlement]

/-- C4 for member B of a room in which B owes 0.02. -/
theorem C4_settle_threshold_witness :
    amountOwed twoCentsDb pairRoom 11 = JsNum.fin (2 / 100) ∧
      (settle twoCentsDb ⟨11, "B"⟩).1 = SettleResponse.settled ∧
      (settle twoCentsDb ⟨11, "B"⟩).2.settlements =
        [{ room := 1, paidBy := 11, amount := JsNum.fin (2 / 100) }] := by
  have h := C4_settle_threshold twoCentsDb ⟨11, "B"⟩ pairRoom
    (by decide) (by decide)
  have ho : owedRat twoCentsDb pairRoom 11 = 2 / 100 := by decide!
  refine ⟨?_, (h.2.2.2.2 ho).1, ?_⟩
  · rw [h.1, ho]
  · rw [(h.2.2.2.2 ho).2]
    rfl

/-! ## C5: the settled amount clears the member's balance -/

/-- C5. Whenever the settle operation succeeds for a member (finite amounts, no negative
settlement in the room's history), recomputing the engine on the history extended by the new
settlement gives `perHead - contribution(member) = 0` for that member. -/
theorem C5_settle_amount_matches_owed (db : Db) (user : User) (room : Room)
    (hroom : getUserRoom db user = some room) (hkey : findRoomById db room._id = some room)
    (hfin : finiteAmounts db room._id = true) (hpos : nonnegSettlements db room._id = true)
    (hok : (settle db user).1 = SettleResponse.settled) :
    balanceOf (calculateEffectiveContributions (settle db user).2 room._id) user._id =
      JsNum.fin 0 := by
  have hmem := getUserRoom_nonempty hroom
  have hu := getUserRoom_mem hroom
  have hn : ¬ owedRat db room user._id ≤ 1 / 100 := by
    intro h
    rw [settle_failed db user room hroom hfin h] at hok
    exact absurd hok (by simp)
  obtain ⟨_, f1, f2, f3⟩ := settle_settled_fields db user room hroom hfin hn
  obtain ⟨a1, _, _, a4, a5, _, a7, a8, a9⟩ :=
    appended_settlement db (settle db user).2 room
      (newSettlement room user (owedRat db room user._id)) (owedRat db room user._id)
      f1 f2 f3 rfl rfl
  rw [balanceOf_eq _ room user._id (a1.trans hkey) hmem (a9 hfin) hu]
  have hs0 := settlementSum_nonneg db room._id user._id hfin hpos
  have hlt : ¬ perHeadOf db room < expenseSum db room._id user._id := by
    unfold owedRat at hn
    intro hc
    apply hn
    have : (0 : ℚ) ≤ 1 / 100 := by norm_num
    linarith
  have h8 : settlementSum (settle db user).2 room._id user._id =
      settlementSum db room._id user._id + owedRat db room user._id := by
    rw [a8 user._id]
    simp [newSettlement]
  congr 1
  unfold effectiveRat
  rw [a4, a7, h8, if_neg (fun h => hlt h.1)]
  unfold owedRat
  ring

/-- C5 for member C of the worked example, who owes 100 and settles. -/
theorem C5_settle_amount_matches_owed_witness :
    balanceOf (calculateEffectiveContributions (settle exampleDb ⟨12, "C"⟩).2 1) 12 =
      JsNum.fin 0 :=
  C5_settle_amount_matches_owed exampleDb ⟨12, "C"⟩ exampleRoom (by decide) (by decide)
    (by decide) (by decide!) (by decide!)

/-! ## C6: the settle-up action against the balance query -/

/-- C6 as stated fails. A paid 300, B and C settled 100 each, then B paid 30: the balance query
reports that creditor A owes 10, the settle operation computes `amountOwed = -190` for A and
answers "no outstanding balance". -/
theorem C6_counterexample :
    amountOwed overSettledDb exampleRoom 10 = JsNum.fin (-190) ∧
      balanceOf (calculateEffectiveContributions overSettledDb 1) 10 = JsNum.fin 10 ∧
      amountOwed overSettledDb exampleRoom 10 ≠
        balanceOf (calculateEffectiveContributions overSettledDb 1) 10 ∧
      JsNum.gt (balanceOf (calculateEffectiveContributions overSettledDb 1) 10) threshold = true ∧
      (settle overSettledDb ⟨10, "A"⟩).1 = SettleResponse.noOutstandingBalance := by
  decide!

/-- C6, amended. For a member who is not a creditor (expense sum at most `perHead`), or when the
room's settlements sum to zero, on finite amounts: the `amountOwed` of the settle operation
equals the balance `perHead - contribution(member)` of the engine, so for such a member settle
succeeds exactly when the reported balance exceeds 0.01 and records exactly that balance. -/
theorem C6_settle_agrees_with_balance (db : Db) (user : User) (room : Room)
    (hroom : getUserRoom db user = some room) (hkey : findRoomById db room._id = some room)
    (hfin : finiteAmounts db room._id = true)
    (hnc : ¬ perHeadOf db room < expenseSum db room._id user._id ∨ totalSettled db room._id = 0) :
    amountOwed db room user._id =
        balanceOf (calculateEffectiveContributions db room._id) user._id ∧
      ((settle db user).1 = SettleResponse.settled ↔
        JsNum.gt (balanceOf (calculateEffectiveContributions db room._id) user._id) threshold =
          true) ∧
      ((settle db user).1 = SettleResponse.settled →
        (settle db user).2.settlements =
          db.settlements ++
            [{ room := room._id, paidBy := user._id,
               amount := balanceOf (calculateEffectiveContributions db room._id) user._id }]) := by
  have hmem := getUserRoom_nonempty hroom
  have hu := getUserRoom_mem hroom
  have hbal : balanceOf (calculateEffectiveContributions db room._id) user._id =
      JsNum.fin (owedRat db room user._id) := by
    rw [balanceOf_eq db room user._id hkey hmem hfin hu]
    congr 1
    unfold owedRat effectiveRat
    rcases hnc with h | h
    · rw [if_neg (fun hh => h hh.1)]
    · rw [h]
      split <;> ring
  rw [hbal]
  refine ⟨amountOwed_eq db room user._id hmem hfin, ?_, ?_⟩
  · simp only [threshold, JsNum.gt_fin, decide_eq_true_eq]
    by_cases h : owedRat db room user._id ≤ 1 / 100
    · rw [settle_failed db user room hroom hfin h]
      exact ⟨fun hh => absurd hh (by simp), fun hh => absurd h (not_le.2 hh)⟩
    · exact ⟨fun _ => not_le.1 h, fun _ => (settle_settled_fields db user room hroom hfin h).1⟩
  · intro hok
    have hn : ¬ owedRat db room user._id ≤ 1 / 100 := by
      intro h
      rw [settle_failed db user room hroom hfin h] at hok
      exact absurd hok (by simp)
    exact (settle_settled_fields db user room hroom hfin hn).2.2.2

/-- C6 for debtor C of the worked example. -/
theorem C6_settle_agrees_with_balance_witness :
    amountOwed exampleDb exampleRoom 12 =
        balanceOf (calculateEffectiveContributions exampleDb 1) 12 ∧
      ((settle exampleDb ⟨12, "C"⟩).1 = SettleResponse.settled ↔
        JsNum.gt (balanceOf (calculateEffectiveContributions exampleDb 1) 12) threshold = true) ∧
      ((settle exampleDb ⟨12, "C"⟩).1 = SettleResponse.settled →
        (settle exampleDb ⟨12, "C"⟩).2.settlements =
          exampleDb.settlements ++
            [{ room := 1, paidBy := 12,
               amount := balanceOf (calculateEffectiveContributions exampleDb 1) 12 }]) :=
  C6_settle_agrees_with_balance exampleDb ⟨12, "C"⟩ exampleRoom (by decide) (by decide)
    (by decide) (Or.inl (by decide!))

/-! ## C7: the zero-member guard -/

/-- C7. For a missing room or a room without members, whatever the expenses and settlements,
the engine returns an empty contributions map, `total = 0` and `perHead = 0`; the returned
`perHead` is finite, whereas the quotient `total / 0` never is. -/
theorem C7_zero_member_guard (db : Db) (roomId : Nat)
    (hzero : ∀ room, findRoomById db roomId = some room → room.members = []) :
    calculateEffectiveContributions db roomId =
        { contributions := [], total := JsNum.fin 0, perHead := JsNum.fin 0, members := [] } ∧
      (calculateEffectiveContributions db roomId).perHead.isFinite = true ∧
      (JsNum.div (sumFiniteExpenses (findExpenses db roomId)) (JsNum.fin 0)).isFinite = false := by
  have h1 : calculateEffectiveContributions db roomId =
      { contributions := [], total := JsNum.fin 0, perHead := JsNum.fin 0, members := [] } := by
    cases hr : findRoomById db roomId with
    | none =>
      unfold calculateEffectiveContributions
      rw [hr]
      rfl
    | some room => exact calculate_empty db roomId room hr (hzero room hr)
  refine ⟨h1, by rw [h1]; rfl, ?_⟩
  rw [sumFiniteExpenses_eq]
  simp only [JsNum.div, if_true]
  split
  · rfl
  · split <;> rfl

/-- C7 for a room without members that still has an expense and a settlement, and for a room
id that does not exist. -/
theorem C7_zero_member_guard_witness :
    (calculateEffectiveContributions emptyRoomDb 1 =
        { contributions := [], total := JsNum.fin 0, perHead := JsNum.fin 0, members := [] } ∧
      (calculateEffectiveContributions emptyRoomDb 1).perHead.isFinite = true ∧
      (JsNum.div (sumFiniteExpenses (findExpenses emptyRoomDb 1)) (JsNum.fin 0)).isFinite = false) ∧
    (calculateEffectiveContributions emptyRoomDb 7 =
        { contributions := [], total := JsNum.fin 0, perHead := JsNum.fin 0, members := [] } ∧
      (calculateEffectiveContributions emptyRoomDb 7).perHead.isFinite = true ∧
      (JsNum.div (sumFiniteExpenses (findExpenses emptyRoomDb 7)) (JsNum.fin 0)).isFinite = false) :=
  ⟨C7_zero_member_guard emptyRoomDb 1 (by decide), C7_zero_member_guard emptyRoomDb 7 (by decide)⟩

/-! ## C8: total and perHead -/

/-- C8. For every room with at least one member, the returned total is the sum of the amounts
of all expenses of the room, whoever paid them (an amount that is not finite counts as 0, so
on finite amounts the total is the plain sum of all amounts), and `perHead` is the total divided
by the number of members. -/
theorem C8_total_and_perHead (db : Db) (roomId : Nat) (room : Room)
    (hroom : findRoomById db roomId = some room) (hmem : room.members ≠ []) :
    (calculateEffectiveContributions db roomId).total =
        JsNum.fin (((findExpenses db roomId).map (fun e => e.amount.toRat)).sum) ∧
      (calculateEffectiveContributions db roomId).perHead =
        JsNum.fin
          (((findExpenses db roomId).map (fun e => e.amount.toRat)).sum /
            (room.members.length : ℚ)) ∧
      ((∀ e ∈ findExpenses db roomId, e.amount.isFinite = true) →
        (calculateEffectiveContributions db roomId).total = sumExpenses (findExpenses db roomId) ∧
          (calculateEffectiveContributions db roomId).perHead =
            JsNum.div (sumExpenses (findExpenses db roomId)) (JsNum.fin (room.members.length : ℚ))) := by
  have hlen : room.members.length ≠ 0 := fun h => hmem (List.length_eq_zero.1 h)
  unfold calculateEffectiveContributions
  rw [hroom]
  simp only [if_neg hlen]
  rw [sumFiniteExpenses_eq, JsNum.div_fin _ _ (length_cast_ne_zero hmem)]
  refine ⟨rfl, rfl, fun hfin => ?_⟩
  rw [sumExpenses_eq _ hfin, JsNum.div_fin _ _ (length_cast_ne_zero hmem)]
  exact ⟨rfl, rfl⟩

/-- C8 for a room whose only expense was paid by a user who is not a member. -/
theorem C8_total_and_perHead_witness :
    (calculateEffectiveContributions strangerDb 1).total = JsNum.fin 100 ∧
      (calculateEffectiveContributions strangerDb 1).perHead = JsNum.fin 100 ∧
      (calculateEffectiveContributions strangerDb 1).total =
        sumExpenses (findExpenses strangerDb 1) := by
  have h := C8_total_and_perHead strangerDb 1 soloRoom (by decide) (by decide)
  have hs : ((findExpenses strangerDb 1).map (fun e => e.amount.toRat)).sum = 100 := by decide!
  refine ⟨?_, ?_, (h.2.2 (by decide)).1⟩
  · rw [h.1, hs]
  · rw [h.2.1, hs]
    norm_num [soloRoom]

/-! ## C9: conservation with settlements -/

/-- The degenerate case: with no expense left and a settlement of 50 still recorded, every payer
is a member, `totalDebt = 0`, and the contributions sum to 50 while the total is 0. -/
theorem ledger_can_fail_when_balanced :
    totalDebt balancedDb pairRoom = 0 ∧
      sumContributions (calculateEffectiveContributions balancedDb 1).contributions = JsNum.fin 50 ∧
      (calculateEffectiveContributions balancedDb 1).total = JsNum.fin 0 := by
  decide!

/-- C9. In a room with at least one member in which every expense payer and every settlement
payer is a current member (finite amounts, any settlement amounts): `totalDebt > 0` holds exactly
when some member has paid more than `perHead`, and then the final contributions sum to the
total; the ledger can fail to sum to the total only when `totalDebt = 0`. -/
theorem C9_conservation_with_settlements (db : Db) (roomId : Nat) (room : Room)
    (hroom : findRoomById db roomId = some room) (hmem : room.members ≠ [])
    (hfin : finiteAmounts db roomId = true)
    (hE : ∀ e ∈ findExpenses db roomId, e.addedBy ∈ memberIds room)
    (hS : ∀ s ∈ findSettlements db roomId, s.paidBy ∈ memberIds room) :
    (0 < totalDebt db room ↔ ∃ k ∈ memberIds room, perHeadOf db room < expenseSum db roomId k) ∧
      (0 < totalDebt db room →
        sumContributions (calculateEffectiveContributions db roomId).contributions =
          (calculateEffectiveContributions db roomId).total) ∧
      (sumContributions (calculateEffectiveContributions db roomId).contributions ≠
          (calculateEffectiveContributions db roomId).total →
        totalDebt db room = 0) := by
  have hid := findRoomById_id hroom
  subst hid
  have hsum : 0 < totalDebt db room →
      sumContributions (calculateEffectiveContributions db room._id).contributions =
        (calculateEffectiveContributions db room._id).total := by
    intro hD
    rw [calculate_eq db room._id room hroom hmem hfin]
    simp only []
    rw [sumContributions_tab, sum_effectiveRat db room hD hE hS]
  refine ⟨totalDebt_pos_iff db room, hsum, ?_⟩
  intro hne
  by_contra h0
  exact hne (hsum (lt_of_le_of_ne (totalDebt_nonneg db room) (Ne.symm h0)))

/-- C9 at the worked example, where A has paid more than `perHead`. -/
theorem C9_conservation_with_settlements_witness :
    (0 < totalDebt exampleDb exampleRoom ↔
        ∃ k ∈ memberIds exampleRoom, perHeadOf exampleDb exampleRoom < expenseSum exampleDb 1 k) ∧
      (0 < totalDebt exampleDb exampleRoom →
        sumContributions (calculateEffectiveContributions exampleDb 1).contributions =
          (calculateEffectiveContributions exampleDb 1).total) ∧
      (sumContributions (calculateEffectiveContributions exampleDb 1).contributions ≠
          (calculateEffectiveContributions exampleDb 1).total →
        totalDebt exampleDb exampleRoom = 0) :=
  C9_conservation_with_settlements exampleDb 1 exampleRoom (by decide) (by decide) (by decide)
    (by decide) (by decide)

/-! ## C10: no redistribution without creditors -/

/-- C10. In a room with at least one member (finite amounts) in which no member's expense sum
exceeds `perHead`: `totalDebt = 0` and every member's final contribution is the sum of their own
expenses plus the sum of their own settlements; a room without expenses is such a room, with
`total = perHead = 0`. -/
theorem C10_no_redistribution_without_creditors (db : Db) (roomId : Nat) (room : Room)
    (hroom : findRoomById db roomId = some room) (hmem : room.members ≠ [])
    (hfin : finiteAmounts db roomId = true)
    (hno : findExpenses db roomId = [] ∨
      ∀ k ∈ memberIds room, ¬ perHeadOf db room < expenseSum db roomId k) :
    totalDebt db room = 0 ∧
      (∀ k ∈ memberIds room,
        JsMap.get (calculateEffectiveContributions db roomId).contributions k =
          some (JsNum.fin (expenseSum db roomId k + settlementSum db roomId k))) ∧
      (findExpenses db roomId = [] →
        (calculateEffectiveContributions db roomId).total = JsNum.fin 0 ∧
          (calculateEffectiveContributions db roomId).perHead = JsNum.fin 0) := by
  have hid := findRoomById_id hroom
  subst hid
  have hno2 : ∀ k ∈ memberIds room, ¬ perHeadOf db room < expenseSum db room._id k := by
    rcases hno with h | h
    · intro k _
      simp [perHeadOf, totalExpenses, expenseSum, h]
    · exact h
  have hD : totalDebt db room = 0 := by
    rcases lt_or_eq_of_le (totalDebt_nonneg db room) with h | h
    · obtain ⟨k, hk, hp⟩ := (totalDebt_pos_iff db room).1 h
      exact absurd hp (hno2 k hk)
    · exact h.symm
  rw [calculate_eq db room._id room hroom hmem hfin]
  refine ⟨hD, ?_, ?_⟩
  · intro k hk
    simp only []
    rw [tab_get _ _ _ ((mem_memberKeys _ _).2 hk), effectiveRat,
      if_neg (fun hh => hno2 k hk hh.1)]
  · intro he
    simp [perHeadOf, totalExpenses, he]

/-- C10 for a room without expenses in which B has a settlement of 50 on record. -/
theorem C10_no_redistribution_without_creditors_witness :
    totalDebt balancedDb pairRoom = 0 ∧
      (∀ k ∈ memberIds pairRoom,
        JsMap.get (calculateEffectiveContributions balancedDb 1).contributions k =
          some (JsNum.fin (expenseSum balancedDb 1 k + settlementSum balancedDb 1 k))) ∧
      (findExpenses balancedDb 1 = [] →
        (calculateEffectiveContributions balancedDb 1).total = JsNum.fin 0 ∧
          (calculateEffectiveContributions balancedDb 1).perHead = JsNum.fin 0) :=
  C10_no_redistribution_without_creditors balancedDb 1 pairRoom
    (by decide) (by decide) (by decide) (Or.inl (by decide))

/-! ## C11: order independence -/

theorem memberKeys_perm_of_perm {ms ms2 : List User} (h : ms2.Perm ms) :
    (memberKeys ms2).Perm (memberKeys ms) := by
  rw [List.perm_ext_iff_of_nodup (memberKeys_nodup _) (memberKeys_nodup _)]
  intro a
  rw [mem_memberKeys, mem_memberKeys]
  exact (h.map _).mem_iff

/-- The exact quantities of a room only depend on its history and member list up to order. -/
theorem quantities_perm (db db2 : Db) (room room2 : Room) (hid : room2._id = room._id)
    (hm : room2.members.Perm room.members)
    (he : (findExpenses db2 room._id).Perm (findExpenses db room._id))
    (hs : (findSettlements db2 room._id).Perm (findSettlements db room._id)) :
    totalExpenses db2 room._id = totalExpenses db room._id ∧
      perHeadOf db2 room2 = perHeadOf db room ∧
      (∀ k, effectiveRat db2 room2 k = effectiveRat db room k) ∧
      finiteAmounts db2 room._id = finiteAmounts db room._id := by
  have h1 : totalExpenses db2 room._id = totalExpenses db room._id := (he.map _).sum_eq
  have h2 : totalSettled db2 room2._id = totalSettled db room._id := by
    rw [hid]
    exact (hs.map _).sum_eq
  have h3 : ∀ k, expenseSum db2 room2._id k = expenseSum db room._id k := by
    intro k
    rw [hid]
    exact ((he.filter _).map _).sum_eq
  have h4 : ∀ k, settlementSum db2 room2._id k = settlementSum db room._id k := by
    intro k
    rw [hid]
    exact ((hs.filter _).map _).sum_eq
  have h5 : perHeadOf db2 room2 = perHeadOf db room := by
    unfold perHeadOf
    rw [hid, h1, hm.length_eq]
  have h6 : totalDebt db2 room2 = totalDebt db room := by
    unfold totalDebt creditorIds
    have hp : (memberIds room2).dedup.Perm (memberIds room).dedup := (hm.map _).dedup
    simp only [h3, h5]
    exact ((hp.filter _).map _).sum_eq
  refine ⟨h1, h5, ?_, ?_⟩
  · intro k
    unfold effectiveRat
    rw [h2, h3, h4, h5, h6]
  · unfold finiteAmounts
    have a1 : (findExpenses db2 room._id).all (fun e => e.amount.isFinite) =
        (findExpenses db room._id).all (fun e => e.amount.isFinite) := by
      rw [Bool.eq_iff_iff, List.all_eq_true, List.all_eq_true]
      exact ⟨fun h x hx => h x (he.mem_iff.2 hx), fun h x hx => h x (he.mem_iff.1 hx)⟩
    have a2 : (findSettlements db2 room._id).all (fun s => s.amount.isFinite) =
        (findSettlements db room._id).all (fun s => s.amount.isFinite) := by
      rw [Bool.eq_iff_iff, List.all_eq_true, List.all_eq_true]
      exact ⟨fun h x hx => h x (hs.mem_iff.2 hx), fun h x hx => h x (hs.mem_iff.1 hx)⟩
    rw [a1, a2]

/-- C11. Over exact (finite) amounts, permuting the expenses, the settlements or the members of
a room leaves total, perHead and the contributions map unchanged: the map has the same entries,
`get` answers the same for every key, and with the member list kept in place the map is
identical. -/
theorem C11_order_independence (db db2 : Db) (roomId : Nat) (room room2 : Room)
    (hroom : findRoomById db roomId = some room) (hroom2 : findRoomById db2 roomId = some room2)
    (hm : room2.members.Perm room.members) (he : db2.expenses.Perm db.expenses)
    (hs : db2.settlements.Perm db.settlements) (hfin : finiteAmounts db roomId = true) :
    (calculateEffectiveContributions db2 roomId).total =
        (calculateEffectiveContributions db roomId).total ∧
      (calculateEffectiveContributions db2 roomId).perHead =
        (calculateEffectiveContributions db roomId).perHead ∧
      (calculateEffectiveContributions db2 roomId).contributions.Perm
        (calculateEffectiveContributions db roomId).contributions ∧
      (∀ k, JsMap.get (calculateEffectiveContributions db2 roomId).contributions k =
        JsMap.get (calculateEffectiveContributions db roomId).contributions k) ∧
      (room2.members = room.members →
        (calculateEffectiveContributions db2 roomId).contributions =
          (calculateEffectiveContributions db roomId).contributions) := by
  have hid := findRoomById_id hroom
  have hid2 := findRoomById_id hroom2
  subst hid
  by_cases hmem : room.members = []
  · have hmem2 : room2.members = [] := by
      rw [hmem] at hm
      exact List.Perm.eq_nil hm
    rw [calculate_empty db room._id room hroom hmem, calculate_empty db2 room._id room2 hroom2 hmem2]
    exact ⟨rfl, rfl, List.Perm.refl _, fun _ => rfl, fun _ => rfl⟩
  · have hmem2 : room2.members ≠ [] := by
      intro h
      rw [h] at hm
      exact hmem (List.Perm.nil_eq hm).symm
    obtain ⟨q1, q2, q3, q4⟩ := quantities_perm db db2 room room2 hid2 hm
      (he.filter _) (hs.filter _)
    have hfin2 : finiteAmounts db2 room._id = true := by
      rw [q4]
      exact hfin
    rw [calculate_eq db room._id room hroom hmem hfin,
      calculate_eq db2 room._id room2 hroom2 hmem2 hfin2]
    have hk := memberKeys_perm_of_perm hm
    have hfun : effectiveRat db2 room2 = effectiveRat db room := funext q3
    rw [hfun]
    refine ⟨?_, ?_, ?_, ?_, ?_⟩
    · simp only [q1]
    · simp only [q2]
    · exact hk.map _
    · intro k
      by_cases hkm : k ∈ memberKeys room.members
      · rw [tab_get _ _ _ hkm, tab_get _ _ _ (hk.mem_iff.2 hkm)]
      · rw [tab_get_none _ _ _ hkm, tab_get_none _ _ _ (fun h => hkm (hk.mem_iff.1 h))]
    · intro heq
      simp only [heq]

/-- C11 for the history of `overSettledDb` and the same history listed in reverse. -/
theorem C11_order_independence_witness :
    (calculateEffectiveContributions overSettledReversed 1).total =
        (calculateEffectiveContributions overSettledDb 1).total ∧
      (calculateEffectiveContributions overSettledReversed 1).perHead =
        (calculateEffectiveContributions overSettledDb 1).perHead ∧
      (calculateEffectiveContributions overSettledReversed 1).contributions.Perm
        (calculateEffectiveContributions overSettledDb 1).contributions ∧
      (∀ k, JsMap.get (calculateEffectiveContributions overSettledReversed 1).contributions k =
        JsMap.get (calculateEffectiveContributions overSettledDb 1).contributions k) ∧
      (({ exampleRoom with members := exampleRoom.members.reverse } : Room).members =
          exampleRoom.members →
        (calculateEffectiveContributions overSettledReversed 1).contributions =
          (calculateEffectiveContributions overSettledDb 1).contributions) :=
  C11_order_independence overSettledDb overSettledReversed 1 exampleRoom
    { exampleRoom with members := exampleRoom.members.reverse } (by decide) (by decide)
    (List.reverse_perm _) (List.reverse_perm _) (List.reverse_perm _) (by decide)

/-! ## C12: totalDebt against the amount underpaid by debtors -/

theorem localTotalDebt_eq (db : Db) (room : Room) (hmem : room.members ≠ [])
    (hfin : finiteAmounts db room._id = true) :
    localTotalDebt db room = JsNum.fin (totalDebt db room) := by
  have hE := finiteAmounts_expenses hfin
  have hEp : ∀ x ∈ (findExpenses db room._id).map (fun e => (e.addedBy, e.amount)),
      x.2.isFinite = true := by
    intro x hx
    obtain ⟨e, he, rfl⟩ := List.mem_map.1 hx
    exact hE e he
  have hbase : addExpenses (initContributions room.members) (findExpenses db room._id) =
      tab (memberKeys room.members) (fun k => expenseSum db room._id k) := by
    rw [addExpenses_eq, initContributions_eq, accumulate_tab _ _ _ (memberKeys_nodup _) hEp]
    apply tab_congr
    intro k _
    rw [expenseSum_eq_ownSum]
    simp
  have hper : JsNum.div (sumFiniteExpenses (findExpenses db room._id))
      (JsNum.fin (room.members.length : ℚ)) = JsNum.fin (perHeadOf db room) := by
    rw [sumFiniteExpenses_eq, JsNum.div_fin _ _ (length_cast_ne_zero hmem)]
    rfl
  unfold localTotalDebt
  simp only []
  rw [hbase, hper, collectCreditors_tab, ← totalDebt_eq_keys]

theorem underpaid_eq_keys (db : Db) (room : Room) :
    underpaid db room =
      (((memberKeys room.members).filter
          (fun k => decide (expenseSum db room._id k < perHeadOf db room))).map
        (fun k => perHeadOf db room - expenseSum db room._id k)).sum := by
  unfold underpaid
  exact (((memberKeys_perm room).filter _).map _).sum_eq.symm

theorem sum_sub_const (f : Nat → ℚ) (c : ℚ) (ks : List Nat) :
    (ks.map (fun k => f k - c)).sum = (ks.map f).sum - (ks.length : ℚ) * c := by
  induction ks with
  | nil => simp
  | cons k ks ih =>
    simp only [List.map_cons, List.sum_cons, List.length_cons, ih]
    push_cast
    ring

theorem sum_map_sub_map (f g : Nat → ℚ) (ks : List Nat) :
    (ks.map (fun k => f k - g k)).sum = (ks.map f).sum - (ks.map g).sum := by
  induction ks with
  | nil => simp
  | cons k ks ih =>
    simp only [List.map_cons, List.sum_cons, ih]
    ring

/-- C12 as stated fails. With an expense of 100 paid by a user who is not a member, the only
member A underpaid 100 while `totalDebt = 0`; with member B listed twice and an expense of 300
paid by A, `totalDebt = 200` while B underpaid 100. -/
theorem C12_counterexample :
    (localTotalDebt strangerDb soloRoom = JsNum.fin 0 ∧ underpaid strangerDb soloRoom = 100) ∧
      (localTotalDebt doubledDb { exampleRoom with members := [⟨10, "A"⟩, ⟨11, "B"⟩, ⟨11, "B"⟩] } =
          JsNum.fin 200 ∧
        underpaid doubledDb { exampleRoom with members := [⟨10, "A"⟩, ⟨11, "B"⟩, ⟨11, "B"⟩] } =
          100) := by
  decide!

theorem totalDebt_eq_underpaid (db : Db) (room : Room) (hmem : room.members ≠ [])
    (hnd : (memberIds room).Nodup)
    (hpay : ∀ e ∈ findExpenses db room._id, e.addedBy ∈ memberIds room) :
    totalDebt db room = underpaid db room := by
  have hlen : (memberKeys room.members).length = room.members.length := by
    rw [(memberKeys_perm room).length_eq, List.Nodup.dedup hnd, memberIds, List.length_map]
  have hzero : ((memberKeys room.members).map
      (fun k => expenseSum db room._id k - perHeadOf db room)).sum = 0 := by
    rw [sum_sub_const, sum_expenseSum db room hpay, hlen]
    unfold perHeadOf
    field_simp [length_cast_ne_zero hmem]
  have hpoint : ∀ k, expenseSum db room._id k - perHeadOf db room =
      (if perHeadOf db room < expenseSum db room._id k then
          expenseSum db room._id k - perHeadOf db room else 0) -
        (if expenseSum db room._id k < perHeadOf db room then
          perHeadOf db room - expenseSum db room._id k else 0) := by
    intro k
    rcases lt_trichotomy (perHeadOf db room) (expenseSum db room._id k) with h | h | h
    · rw [if_pos h, if_neg (not_lt.2 (le_of_lt h))]
      ring
    · rw [h, if_neg (lt_irrefl _)]
      ring
    · rw [if_neg (not_lt.2 (le_of_lt h)), if_pos h]
      ring
  have hsplit : ((memberKeys room.members).map
      (fun k => expenseSum db room._id k - perHeadOf db room)).sum =
      totalDebt db room - underpaid db room := by
    rw [totalDebt_eq_keys, underpaid_eq_keys,
      ← sum_ite_filter (fun k => perHeadOf db room < expenseSum db room._id k),
      ← sum_ite_filter (fun k => expenseSum db room._id k < perHeadOf db room),
      ← sum_map_sub_map]
    congr 1
    apply List.map_congr_left
    intro k _
    exact hpoint k
  rw [hsplit] at hzero
  linarith

/-- C12, amended. For every room with at least one member, pairwise distinct member ids, finite
amounts and every expense paid by a current member, the `totalDebt` the engine computes is the
sum of `base - perHead` over the creditors, and it equals the total amount underpaid by
debtors. -/
theorem C12_totalDebt_equals_underpaid (db : Db) (room : Room) (hmem : room.members ≠ [])
    (hfin : finiteAmounts db room._id = true) (hnd : (memberIds room).Nodup)
    (hpay : ∀ e ∈ findExpenses db room._id, e.addedBy ∈ memberIds room) :
    localTotalDebt db room = JsNum.fin (totalDebt db room) ∧
      totalDebt db room = underpaid db room :=
  ⟨localTotalDebt_eq db room hmem hfin, totalDebt_eq_underpaid db room hmem hnd hpay⟩

/-- C12 at the worked example: A overpaid 200, B and C underpaid 100 each. -/
theorem C12_totalDebt_equals_underpaid_witness :
    localTotalDebt exampleDb exampleRoom = JsNum.fin (totalDebt exampleDb exampleRoom) ∧
      totalDebt exampleDb exampleRoom = underpaid exampleDb exampleRoom :=
  C12_totalDebt_equals_underpaid exampleDb exampleRoom (by decide) (by decide) (by decide)
    (by decide)

/-! ## C13: the keys of the contributions map -/

theorem JsMap.has_iff_mem_keys (m : JsMap) (k : Nat) : JsMap.has m k = true ↔ k ∈ JsMap.keys m := by
  simp only [JsMap.has, JsMap.keys, List.any_eq_true, List.mem_map, beq_iff_eq]

theorem JsMap.keys_set (m : JsMap) (k : Nat) (v : JsNum) (hk : k ∈ JsMap.keys m) :
    JsMap.keys (JsMap.set m k v) = JsMap.keys m := by
  induction m with
  | nil => simp [JsMap.keys] at hk
  | cons e m ih =>
    by_cases h : e.1 = k
    · simp [JsMap.set, JsMap.keys, h]
    · have hk2 : k ∈ JsMap.keys m := by
        simp only [JsMap.keys, List.map_cons, List.mem_cons] at hk
        rcases hk with h1 | h1
        · exact absurd h1.symm h
        · exact h1
      have := ih hk2
      simp only [JsMap.keys] at this
      simp [JsMap.set, JsMap.keys, h, this]

theorem keys_tab (ks : List Nat) (f : Nat → ℚ) : JsMap.keys (tab ks f) = ks := by
  simp [JsMap.keys, tab, Function.comp_def]

theorem accumulate_cons (m : JsMap) (x : Nat × JsNum) (xs : List (Nat × JsNum)) :
    accumulate m (x :: xs) =
      accumulate
        (if JsMap.has m x.1 then JsMap.set m x.1 (JsNum.add (JsNum.ofGet (JsMap.get m x.1)) x.2)
          else m) xs := by
  simp [accumulate]

theorem keys_accumulate (xs : List (Nat × JsNum)) :
    ∀ m : JsMap, JsMap.keys (accumulate m xs) = JsMap.keys m := by
  induction xs with
  | nil => intro m; rfl
  | cons x xs ih =>
    intro m
    rw [accumulate_cons, ih]
    by_cases h : JsMap.has m x.1 = true
    · rw [if_pos h, JsMap.keys_set _ _ _ ((JsMap.has_iff_mem_keys m x.1).1 h)]
    · rw [if_neg h]

/-- An entry whose payer has no key in the map is skipped by the attribution loop. -/
theorem accumulate_filter (xs : List (Nat × JsNum)) :
    ∀ m : JsMap,
      accumulate m xs = accumulate m (xs.filter (fun x => decide (x.1 ∈ JsMap.keys m))) := by
  induction xs with
  | nil => intro m; rfl
  | cons x xs ih =>
    intro m
    by_cases h : JsMap.has m x.1 = true
    · have hk := (JsMap.has_iff_mem_keys m x.1).1 h
      rw [List.filter_cons, if_pos (by simpa using hk), accumulate_cons, accumulate_cons, if_pos h,
        ih, JsMap.keys_set _ _ _ hk]
    · have hk : x.1 ∉ JsMap.keys m := fun hk => h ((JsMap.has_iff_mem_keys m x.1).2 hk)
      rw [List.filter_cons, if_neg (by simpa using hk), accumulate_cons, if_neg h, ih]

theorem creditors_mem_keys (p : JsNum) (m : JsMap) :
    ∀ acc : List Creditor × JsNum,
      ∀ c ∈ (m.foldl (creditorStep p) acc).1, c ∈ acc.1 ∨ c.memberId ∈ JsMap.keys m := by
  induction m with
  | nil => intro acc c hc; exact Or.inl hc
  | cons e m ih =>
    intro acc c hc
    rw [List.foldl_cons] at hc
    rcases ih _ c hc with h | h
    · unfold creditorStep at h
      simp only [] at h
      split at h
      · rcases List.mem_append.1 h with h1 | h1
        · exact Or.inl h1
        · rw [List.mem_singleton] at h1
          right
          rw [h1]
          simp [JsMap.keys]
      · exact Or.inl h
    · right
      simp only [JsMap.keys, List.map_cons, List.mem_cons]
      exact Or.inr h

theorem keys_distribute (D S : JsNum) (cs : List Creditor) :
    ∀ m : JsMap, (∀ c ∈ cs, c.memberId ∈ JsMap.keys m) →
      JsMap.keys (distribute m cs D S) = JsMap.keys m := by
  induction cs with
  | nil => intro m _; rfl
  | cons c cs ih =>
    intro m h
    have hc := h c (List.mem_cons_self _ _)
    have hstep : distribute m (c :: cs) D S =
        distribute
          (JsMap.set m c.memberId
            (JsNum.sub (JsNum.ofGet (JsMap.get m c.memberId)) (JsNum.mul (JsNum.div c.credit D) S)))
          cs D S := by
      simp [distribute]
    rw [hstep, ih, JsMap.keys_set _ _ _ hc]
    intro c2 hc2
    rw [JsMap.keys_set _ _ _ hc]
    exact h c2 (List.mem_cons_of_mem _ hc2)

/-- The keys of the returned map are the member ids in order of first occurrence, whatever the
amounts are. -/
theorem keys_calculate (db : Db) (roomId : Nat) (room : Room)
    (hroom : findRoomById db roomId = some room) :
    JsMap.keys (calculateEffectiveContributions db roomId).contributions =
      memberKeys room.members := by
  by_cases hmem : room.members = []
  · rw [calculate_empty db roomId room hroom hmem, hmem]
    rfl
  · have hlen : room.members.length ≠ 0 := fun h => hmem (List.length_eq_zero.1 h)
    have hbase : JsMap.keys (addExpenses (initContributions room.members) (findExpenses db roomId)) =
        memberKeys room.members := by
      rw [addExpenses_eq, keys_accumulate, initContributions_eq, keys_tab]
    unfold calculateEffectiveContributions
    rw [hroom]
    simp only [if_neg hlen]
    rw [addSettlements_eq, keys_accumulate]
    split
    · rw [keys_distribute, hbase]
      intro c hc
      rcases creditors_mem_keys _ _ _ c hc with h | h
      · simp at h
      · exact h
    · exact hbase

/-- C13. The key set of the returned contributions map is exactly the set of current member
ids, each member having one entry; an expense or a settlement whose payer is not a current member
is skipped by the attribution loops of lines 52-59 and 83-90, which give the same map as on the
history without these records. -/
theorem C13_contribution_keys (db : Db) (roomId : Nat) (room : Room)
    (hroom : findRoomById db roomId = some room) :
    (∀ k, JsMap.has (calculateEffectiveContributions db roomId).contributions k = true ↔
        k ∈ memberIds room) ∧
      (JsMap.keys (calculateEffectiveContributions db roomId).contributions).Nodup ∧
      addExpenses (initContributions room.members) (findExpenses db roomId) =
        addExpenses (initContributions room.members)
          ((findExpenses db roomId).filter (fun e => decide (e.addedBy ∈ memberIds room))) ∧
      (∀ m : JsMap, (∀ k, k ∈ JsMap.keys m ↔ k ∈ memberIds room) →
        addSettlements m (findSettlements db roomId) =
          addSettlements m
            ((findSettlements db roomId).filter (fun s => decide (s.paidBy ∈ memberIds room)))) := by
  have hk := keys_calculate db roomId room hroom
  refine ⟨?_, ?_, ?_, ?_⟩
  · intro k
    rw [JsMap.has_iff_mem_keys, hk, mem_memberKeys, memberIds]
  · rw [hk]
    exact memberKeys_nodup _
  · rw [addExpenses_eq, addExpenses_eq, accumulate_filter, List.filter_map, initContributions_eq,
      keys_tab]
    congr 2
    apply List.filter_congr
    intro e _
    simp only [Function.comp_def, mem_memberKeys, memberIds]
  · intro m hm
    rw [addSettlements_eq, addSettlements_eq, accumulate_filter, List.filter_map]
    congr 2
    apply List.filter_congr
    intro e _
    simp only [Function.comp_def, hm]

/-- C13 for a room whose only expense was paid by a user who is not a member. -/
theorem C13_contribution_keys_witness :
    (∀ k, JsMap.has (calculateEffectiveContributions strangerDb 1).contributions k = true ↔
        k ∈ memberIds soloRoom) ∧
      (JsMap.keys (calculateEffectiveContributions strangerDb 1).contributions).Nodup ∧
      addExpenses (initContributions soloRoom.members) (findExpenses strangerDb 1) =
        addExpenses (initContributions soloRoom.members)
          ((findExpenses strangerDb 1).filter (fun e => decide (e.addedBy ∈ memberIds soloRoom))) ∧
      (∀ m : JsMap, (∀ k, k ∈ JsMap.keys m ↔ k ∈ memberIds soloRoom) →
        addSettlements m (findSettlements strangerDb 1) =
          addSettlements m
            ((findSettlements strangerDb 1).filter
              (fun s => decide (s.paidBy ∈ memberIds soloRoom)))) :=
  C13_contribution_keys strangerDb 1 soloRoom (by decide)

/-! ## C14 and C15: the balance query and the chart data -/

theorem objSet_append {α : Type} (o : List (String × α)) (k : String) (v : α)
    (h : k ∉ o.map (fun e => e.1)) : objSet o k v = o ++ [(k, v)] := by
  induction o with
  | nil => rfl
  | cons e o ih =>
    simp only [List.map_cons, List.mem_cons, not_or] at h
    have hne : ¬ e.1 = k := fun he => h.1 he.symm
    simp [objSet, hne, ih h.2]

theorem objSet_fold {α β : Type} (name : β → String) (g : β → α) (xs : List β) :
    ∀ acc : List (String × α), (xs.map name).Nodup →
      (∀ x ∈ xs, name x ∉ acc.map (fun e => e.1)) →
      xs.foldl (fun b x => objSet b (name x) (g x)) acc = acc ++ xs.map (fun x => (name x, g x)) := by
  induction xs with
  | nil => intro acc _ _; simp
  | cons x xs ih =>
    intro acc hnd hacc
    rw [List.map_cons] at hnd
    have hnd2 := List.nodup_cons.1 hnd
    rw [List.foldl_cons, objSet_append _ _ _ (hacc x (List.mem_cons_self _ _)), ih _ hnd2.2]
    · simp
    · intro y hy
      simp only [List.map_append, List.map_cons, List.map_nil, List.mem_append, List.mem_singleton,
        not_or]
      refine ⟨hacc y (List.mem_cons_of_mem _ hy), ?_⟩
      intro he
      exact hnd2.1 (List.mem_map.2 ⟨y, hy, he⟩)

theorem foldl_cond {α β : Type} (P : β → Bool) (f : α → β → α) (xs : List β) :
    ∀ acc : α, xs.foldl (fun c x => if P x then f c x else c) acc = (xs.filter P).foldl f acc := by
  induction xs with
  | nil => intro acc; rfl
  | cons x xs ih =>
    intro acc
    by_cases h : P x = true
    · simp [List.filter_cons, h, ih]
    · simp [List.filter_cons, h, ih]

theorem objGet_cons {α : Type} (a : String) (v : α) (o : List (String × α)) (k : String) :
    objGet ((a, v) :: o) k = if a = k then some v else objGet o k := by
  by_cases h : a = k <;> simp [objGet, List.find?_cons, h]

theorem objGet_map {α β : Type} (name : β → String) (g : β → α) (xs : List β)
    (hnd : (xs.map name).Nodup) (x : β) (hx : x ∈ xs) :
    objGet (xs.map (fun x => (name x, g x))) (name x) = some (g x) := by
  induction xs with
  | nil => simp at hx
  | cons y ys ih =>
    rw [List.map_cons] at hnd
    have hnd2 := List.nodup_cons.1 hnd
    rw [List.map_cons, objGet_cons]
    rcases List.mem_cons.1 hx with h | h
    · subst h
      simp
    · have hne : ¬ name y = name x := fun he => hnd2.1 (List.mem_map.2 ⟨x, h, he.symm⟩)
      rw [if_neg hne]
      exact ih hnd2.2 h

theorem objGet_map_none {α β : Type} (name : β → String) (g : β → α) (xs : List β) (key : String)
    (h : key ∉ xs.map name) : objGet (xs.map (fun x => (name x, g x))) key = none := by
  induction xs with
  | nil => simp [objGet]
  | cons y ys ih =>
    simp only [List.map_cons, List.mem_cons, not_or] at h
    have hne : ¬ name y = key := fun he => h.1 he.symm
    rw [List.map_cons, objGet_cons, if_neg hne]
    exact ih h.2

theorem orZero_tab (ks : List Nat) (f : Nat → ℚ) (k : Nat) (hk : k ∈ ks) :
    JsNum.orZero (JsMap.get (tab ks f) k) = JsNum.ofGet (JsMap.get (tab ks f) k) := by
  rw [tab_get _ _ _ hk]
  rfl

/-- On finite amounts and distinct display names `/split` lists the members one by one. -/
theorem split_eq (db : Db) (room : Room) (hkey : findRoomById db room._id = some room)
    (hfin : finiteAmounts db room._id = true) (hnames : (room.members.map (fun m => m.name)).Nodup) :
    split db room =
      { total := (calculateEffectiveContributions db room._id).total,
        perHead := (calculateEffectiveContributions db room._id).perHead,
        balances := room.members.map (fun m =>
          (m.name,
            { owes := balanceOf (calculateEffectiveContributions db room._id) m._id,
              userId := m._id })) } := by
  by_cases hmem : room.members = []
  · simp [split, calculate_empty db room._id room hkey hmem, hmem]
  · have hr := calculate_eq db room._id room hkey hmem hfin
    unfold split
    simp only [hr]
    rw [objSet_fold (fun m : User => m.name) _ room.members [] hnames (by simp)]
    simp only [List.nil_append]
    congr 1
    apply List.map_congr_left
    intro m hm
    have hk : m._id ∈ memberKeys room.members :=
      (mem_memberKeys _ _).2 (List.mem_map.2 ⟨m, hm, rfl⟩)
    simp only [balanceOf, orZero_tab _ _ _ hk]

/-- C14 as stated fails. Two members share the display name "Sam"; the first paid 100. The
split result has the single entry of the second member (owes 50), and none for the first
member, whose balance is -50. -/
theorem C14_counterexample :
    (split namesakeDb namesakeRoom).balances = [("Sam", { owes := JsNum.fin 50, userId := 11 })] ∧
      balanceOf (calculateEffectiveContributions namesakeDb 1) 10 = JsNum.fin (-50) ∧
      ¬ ∃ e ∈ (split namesakeDb namesakeRoom).balances, e.2.userId = 10 := by
  decide!

/-- C14, amended. For every room snapshot with finite amounts whose members have pairwise
distinct display names, the split result carries the total and perHead of the engine and,
for every current member, one entry under the member's name whose `owes` value is
`perHead - contribution(member)`; it has no other entries. -/
theorem C14_balance_query (db : Db) (room : Room) (hkey : findRoomById db room._id = some room)
    (hfin : finiteAmounts db room._id = true) (hnames : (room.members.map (fun m => m.name)).Nodup) :
    (split db room).total = (calculateEffectiveContributions db room._id).total ∧
      (split db room).perHead = (calculateEffectiveContributions db room._id).perHead ∧
      (∀ m ∈ room.members,
        objGet (split db room).balances m.name =
          some { owes := JsNum.sub (calculateEffectiveContributions db room._id).perHead
                   (contributionOf (calculateEffectiveContributions db room._id) m._id),
                 userId := m._id }) ∧
      (split db room).balances.map (fun e => e.1) = room.members.map (fun m => m.name) := by
  rw [split_eq db room hkey hfin hnames]
  refine ⟨rfl, rfl, ?_, ?_⟩
  · intro m hm
    exact objGet_map (fun m : User => m.name) _ room.members hnames m hm
  · simp [Function.comp_def]

/-- C14 at the worked example. -/
theorem C14_balance_query_witness :
    (split exampleDb exampleRoom).total = (calculateEffectiveContributions exampleDb 1).total ∧
      (split exampleDb exampleRoom).perHead =
        (calculateEffectiveContributions exampleDb 1).perHead ∧
      (∀ m ∈ exampleRoom.members,
        objGet (split exampleDb exampleRoom).balances m.name =
          some { owes := JsNum.sub (calculateEffectiveContributions exampleDb 1).perHead
                   (contributionOf (calculateEffectiveContributions exampleDb 1) m._id),
                 userId := m._id }) ∧
      (split exampleDb exampleRoom).balances.map (fun e => e.1) =
        exampleRoom.members.map (fun m => m.name) :=
  C14_balance_query exampleDb exampleRoom (by decide) (by decide) (by decide)

/-- On finite amounts and distinct display names `/chart-data` lists the members whose
contribution passes the threshold. -/
theorem chartData_eq (db : Db) (room : Room) (hkey : findRoomById db room._id = some room)
    (hfin : finiteAmounts db room._id = true) (hnames : (room.members.map (fun m => m.name)).Nodup) :
    chartData db room =
      (room.members.filter (fun m =>
          JsNum.gt (contributionOf (calculateEffectiveContributions db room._id) m._id)
            threshold)).map
        (fun m => (m.name, contributionOf (calculateEffectiveContributions db room._id) m._id)) := by
  by_cases hmem : room.members = []
  · simp [chartData, calculate_empty db room._id room hkey hmem, hmem]
  · have hr := calculate_eq db room._id room hkey hmem hfin
    have hz : ∀ m ∈ room.members,
        JsNum.orZero (JsMap.get (tab (memberKeys room.members) (effectiveRat db room)) m._id) =
          contributionOf (calculateEffectiveContributions db room._id) m._id := by
      intro m hm
      have hk : m._id ∈ memberKeys room.members :=
        (mem_memberKeys _ _).2 (List.mem_map.2 ⟨m, hm, rfl⟩)
      rw [orZero_tab _ _ _ hk, hr]
      rfl
    unfold chartData
    simp only [hr]
    rw [foldl_cond
      (fun m : User =>
        JsNum.gt
          (JsNum.orZero (JsMap.get (tab (memberKeys room.members) (effectiveRat db room)) m._id))
          threshold)
      (fun c m => objSet c m.name
        (JsNum.orZero (JsMap.get (tab (memberKeys room.members) (effectiveRat db room)) m._id)))]
    have hf : room.members.filter (fun m : User =>
        JsNum.gt
          (JsNum.orZero (JsMap.get (tab (memberKeys room.members) (effectiveRat db room)) m._id))
          threshold) =
        room.members.filter (fun m =>
          JsNum.gt (contributionOf (calculateEffectiveContributions db room._id) m._id)
            threshold) := by
      apply List.filter_congr
      intro m hm
      rw [hz m hm]
    rw [hf, objSet_fold (fun m : User => m.name) _ _ []
      (((List.filter_sublist _).map _).nodup hnames) (by simp)]
    simp only [List.nil_append]
    rw [← hr]
    apply List.map_congr_left
    intro m hm
    rw [hz m (List.mem_filter.1 hm).1]

/-- C15. For every room snapshot with finite amounts whose members have pairwise distinct
display names, the chart mapping contains exactly the members whose contribution is strictly
greater than 0.01, each under the member's display name with that contribution; a member with
contribution at most 0.01 is absent. -/
theorem C15_chart_data (db : Db) (room : Room) (hkey : findRoomById db room._id = some room)
    (hfin : finiteAmounts db room._id = true) (hnames : (room.members.map (fun m => m.name)).Nodup) :
    (∀ m ∈ room.members,
        JsNum.gt (contributionOf (calculateEffectiveContributions db room._id) m._id) threshold =
            true →
          objGet (chartData db room) m.name =
            some (contributionOf (calculateEffectiveContributions db room._id) m._id)) ∧
      (∀ m ∈ room.members,
        JsNum.le (contributionOf (calculateEffectiveContributions db room._id) m._id) threshold =
            true →
          objGet (chartData db room) m.name = none) ∧
      (∀ key ∈ (chartData db room).map (fun e => e.1),
        ∃ m ∈ room.members, m.name = key ∧
          JsNum.gt (contributionOf (calculateEffectiveContributions db room._id) m._id)
            threshold = true) := by
  rw [chartData_eq db room hkey hfin hnames]
  have hsub : ((room.members.filter (fun m =>
      JsNum.gt (contributionOf (calculateEffectiveContributions db room._id) m._id)
        threshold)).map (fun m => m.name)).Nodup :=
    ((List.filter_sublist _).map _).nodup hnames
  refine ⟨?_, ?_, ?_⟩
  · intro m hm hgt
    exact objGet_map (fun m : User => m.name) _ _ hsub m (List.mem_filter.2 ⟨hm, hgt⟩)
  · intro m hm hle
    apply objGet_map_none (fun m : User => m.name)
    intro hin
    obtain ⟨m2, hm2, he⟩ := List.mem_map.1 hin
    have hm2' := List.mem_filter.1 hm2
    have heq : m2 = m := by
      have hinj := List.inj_on_of_nodup_map hnames
      exact hinj hm2'.1 hm he
    rw [heq] at hm2'
    have hgt := hm2'.2
    cases hc : contributionOf (calculateEffectiveContributions db room._id) m._id <;>
      rw [hc] at hgt hle <;> simp_all [JsNum.gt, JsNum.le, threshold]
    linarith
  · intro key hk
    simp only [List.map_map, List.mem_map, Function.comp_def] at hk
    obtain ⟨m, hm, he⟩ := hk
    have hm' := List.mem_filter.1 hm
    exact ⟨m, hm'.1, he, hm'.2⟩

/-- C15 at the worked example: A (200) and B (100) are charted, C (0) is not. -/
theorem C15_chart_data_witness :
    chartData exampleDb exampleRoom = [("A", JsNum.fin 200), ("B", JsNum.fin 100)] ∧
      objGet (chartData exampleDb exampleRoom) "C" = none := by
  have h := C15_chart_data exampleDb exampleRoom (by decide) (by decide) (by decide)
  refine ⟨by decide!, ?_⟩
  exact h.2.1 ⟨12, "C"⟩ (by decide) (by decide!)

/-! ## C16: atomicity of settle-up -/

/-- The two outcomes of the settle route, whatever the amounts are: the database is returned
untouched, or the owed-amount check has passed and one settlement and one activity are added. -/
theorem settle_cases (db : Db) (user : User) :
    ((settle db user).1 ≠ SettleResponse.settled ∧ (settle db user).2 = db) ∨
      ∃ room, getUserRoom db user = some room ∧
        JsNum.le (amountOwed db room user._id) threshold = false ∧
        amountOwed db room user._id ≠ JsNum.nan ∧
        settle db user =
          (SettleResponse.settled,
            logAndEmit
              { db with
                settlements := db.settlements ++
                  [{ room := room._id, paidBy := user._id, amount := amountOwed db room user._id }] }
              room user
              (user.name ++ " settled their expenses for ₹" ++
                toFixed2 (amountOwed db room user._id)) "expense") := by
  unfold settle
  cases hr : getUserRoom db user with
  | none => exact Or.inl ⟨by simp, rfl⟩
  | some room =>
    simp only []
    by_cases h0 : room.members.length = 0
    · rw [if_pos h0]
      exact Or.inl ⟨by simp, rfl⟩
    · rw [if_neg h0]
      by_cases h1 : JsNum.le (amountOwed db room user._id) threshold = true
      · rw [if_pos h1]
        exact Or.inl ⟨by simp, rfl⟩
      · rw [if_neg h1]
        by_cases h2 : amountOwed db room user._id = JsNum.nan
        · rw [if_pos h2]
          exact Or.inl ⟨by simp, rfl⟩
        · rw [if_neg h2]
          exact Or.inr ⟨room, rfl, by simpa using h1, h2, rfl⟩

/-- C16. Whenever the settle operation fails (no outstanding balance, a room with zero members,
or any other response than success), the database is unchanged: expenses, settlements and
activities are what they were. A settlement is created only when the owed-amount check has
passed, and then exactly one settlement and one activity entry are added. -/
theorem C16_settle_atomicity (db : Db) (user : User) :
    ((settle db user).1 ≠ SettleResponse.settled → (settle db user).2 = db) ∧
      ((settle db user).1 = SettleResponse.noOutstandingBalance ∨
          (settle db user).1 = SettleResponse.noMembers →
        (settle db user).2.expenses = db.expenses ∧
          (settle db user).2.settlements = db.settlements ∧
          (settle db user).2.activities = db.activities) ∧
      ((settle db user).2.settlements ≠ db.settlements →
        ∃ room, getUserRoom db user = some room ∧
          JsNum.le (amountOwed db room user._id) threshold = false ∧
          (settle db user).1 = SettleResponse.settled ∧
          (settle db user).2.expenses = db.expenses ∧
          (settle db user).2.settlements =
            db.settlements ++
              [{ room := room._id, paidBy := user._id, amount := amountOwed db room user._id }] ∧
          (settle db user).2.activities.length = db.activities.length + 1) := by
  rcases settle_cases db user with ⟨h1, h2⟩ | ⟨room, hr, hle, _, hs⟩
  · refine ⟨fun _ => h2, fun _ => ?_, fun hne => ?_⟩
    · rw [h2]
      exact ⟨rfl, rfl, rfl⟩
    · rw [h2] at hne
      exact absurd rfl hne
  · refine ⟨fun hne => ?_, fun hf => ?_, fun _ => ?_⟩
    · rw [hs] at hne
      exact absurd rfl hne
    · rw [hs] at hf
      rcases hf with hf | hf <;> exact absurd hf (by simp)
    · refine ⟨room, hr, hle, ?_, ?_, ?_, ?_⟩
      · rw [hs]
      · rw [hs]
        rfl
      · rw [hs]
        rfl
      · rw [hs]
        simp [logAndEmit]

/-- C16 for creditor A of `overSettledDb`, whose settle request is refused. -/
theorem C16_settle_atomicity_witness :
    (settle overSettledDb ⟨10, "A"⟩).2 = overSettledDb :=
  (C16_settle_atomicity overSettledDb ⟨10, "A"⟩).1 (by decide!)

/-! ## C17: amounts at the boundary -/

/-- C17 as stated fails. Adding an expense with the amount -5 stores an expense of -5, and
marking a grocery item as purchased with the amount `Infinity` stores an expense of `Infinity`. -/
theorem C17_counterexample :
    (addExpense groceryDb ⟨10, "A"⟩ "rent" (some (JsNum.fin (-5)))).2.expenses =
        [{ _id := 1, amount := JsNum.fin (-5), room := 1, addedBy := 10 }] ∧
      (addExpense groceryDb ⟨10, "A"⟩ "rent" (some JsNum.negInf)).2.expenses =
        [{ _id := 1, amount := JsNum.negInf, room := 1, addedBy := 10 }] ∧
      (purchase groceryDb ⟨10, "A"⟩ 7 (some (JsNum.fin (-5)))).2.expenses =
        [{ _id := 1, amount := JsNum.fin (-5), room := 1, addedBy := 10 }] ∧
      (purchase groceryDb ⟨10, "A"⟩ 7 (some JsNum.posInf)).1 = PurchaseResponse.purchased ∧
      (purchase groceryDb ⟨10, "A"⟩ 7 (some JsNum.posInf)).2.expenses =
        [{ _id := 1, amount := JsNum.posInf, room := 1, addedBy := 10 }] := by
  decide!

theorem createExpense_some (i : Nat) (description : String) (a : JsNum) (room addedBy : Nat)
    (hd : description.trim ≠ "") (ha : a ≠ JsNum.nan) :
    createExpense i description (some a) room addedBy =
      some { _id := i, amount := a, room := room, addedBy := addedBy } := by
  unfold createExpense
  rw [if_neg hd]
  cases a <;> simp_all

theorem createExpense_none (i : Nat) (description : String) (amount : Option JsNum)
    (room addedBy : Nat) (h : amount = none ∨ amount = some JsNum.nan) :
    createExpense i description amount room addedBy = none := by
  unfold createExpense
  rcases h with h | h <;> subst h <;> split <;> rfl

theorem truthy_nan_or_none (amount : Option JsNum)
    (h : amount = none ∨ amount = some JsNum.nan ∨ amount = some (JsNum.fin 0)) :
    truthy amount = false := by
  rcases h with h | h | h <;> subst h <;> simp [truthy]

/-- C17, amended. At the boundary an amount is only checked for being present and a number:
adding an expense stores nothing for a missing or `NaN` amount, and marking a grocery item as
purchased stores nothing for a missing, zero or `NaN` amount; every other amount, negative and
infinite ones included, is stored as the amount of a new expense record of the member's room. -/
theorem C17_amount_validation (db : Db) (user : User) (room : Room)
    (hroom : getUserRoom db user = some room) :
    (∀ desc amount, amount = none ∨ amount = some JsNum.nan →
        (addExpense db user desc amount).1 = AddExpenseResponse.serverError ∧
          (addExpense db user desc amount).2 = db) ∧
      (∀ desc a, desc.trim ≠ "" → a ≠ JsNum.nan →
        (addExpense db user desc (some a)).2.expenses =
          db.expenses ++
            [{ _id := freshExpenseId db, amount := a, room := room._id, addedBy := user._id }]) ∧
      (∀ itemId amount item, db.groceryItems.find? (fun i => i._id == itemId) = some item →
        item.room = room._id →
        amount = none ∨ amount = some JsNum.nan ∨ amount = some (JsNum.fin 0) →
        (purchase db user itemId amount).1 = PurchaseResponse.amountRequired ∧
          (purchase db user itemId amount).2 = db) ∧
      (∀ itemId a item, db.groceryItems.find? (fun i => i._id == itemId) = some item →
        item.room = room._id → item.name.trim ≠ "" → truthy (some a) = true →
        (purchase db user itemId (some a)).1 = PurchaseResponse.purchased ∧
          (purchase db user itemId (some a)).2.expenses =
            db.expenses ++
            [{ _id := freshExpenseId db, amount := a, room := room._id, addedBy := user._id }]) := by
  refine ⟨?_, ?_, ?_, ?_⟩
  · intro desc amount h
    simp [addExpense, hroom, createExpense_none _ desc amount room._id user._id h]
  · intro desc a hd ha
    simp [addExpense, hroom, createExpense_some _ desc a room._id user._id hd ha, logAndEmit]
  · intro itemId amount item hitem hr h
    simp [purchase, hroom, hitem, hr, truthy_nan_or_none amount h]
  · intro itemId a item hitem hr hname ht
    have ha : a ≠ JsNum.nan := by
      intro h
      rw [h] at ht
      simp [truthy] at ht
    simp [purchase, hroom, hitem, hr, ht,
      createExpense_some _ item.name a room._id user._id hname ha, logAndEmit]

/-- C17 for member A of the room with the grocery item "milk": a missing amount stores nothing,
an amount of -5 is stored. -/
theorem C17_amount_validation_witness :
    (addExpense groceryDb ⟨10, "A"⟩ "rent" none).2 = groceryDb ∧
      (addExpense groceryDb ⟨10, "A"⟩ "rent" (some (JsNum.fin (-5)))).2.expenses =
        groceryDb.expenses ++
          [{ _id := freshExpenseId groceryDb, amount := JsNum.fin (-5), room := pairRoom._id,
             addedBy := 10 }] ∧
      (purchase groceryDb ⟨10, "A"⟩ 7 (some (JsNum.fin 0))).2 = groceryDb := by
  have h := C17_amount_validation groceryDb ⟨10, "A"⟩ pairRoom (by decide)
  refine ⟨(h.1 "rent" none (Or.inl rfl)).2, h.2.1 "rent" (JsNum.fin (-5)) (by decide!) (by decide), ?_⟩
  exact (h.2.2.1 7 (some (JsNum.fin 0))
    { _id := 7, name := "milk", room := 1, addedBy := 10, isPurchased := false }
    (by decide) (by decide) (Or.inr (Or.inr rfl))).2

/-! ## C18: settlements have positive amounts -/

theorem JsNum.gt_of_not_le (a : JsNum) (c : ℚ) (h1 : JsNum.le a (JsNum.fin c) = false)
    (h2 : a ≠ JsNum.nan) : JsNum.gt a (JsNum.fin c) = true := by
  cases a <;> simp_all [JsNum.le, JsNum.gt]

theorem JsNum.gt_zero_of_gt_threshold (a : JsNum) (h : JsNum.gt a threshold = true) :
    JsNum.gt a JsNum.zero = true := by
  cases a <;> simp_all [JsNum.gt, threshold, JsNum.zero]
  linarith

theorem addExpense_settlements (db : Db) (user : User) (desc : String) (amount : Option JsNum) :
    (addExpense db user desc amount).2.settlements = db.settlements := by
  unfold addExpense
  repeat' split
  all_goals rfl

theorem purchase_settlements (db : Db) (user : User) (itemId : Nat) (amount : Option JsNum) :
    (purchase db user itemId amount).2.settlements = db.settlements := by
  unfold purchase
  repeat' split
  all_goals rfl

theorem clear_settlements (db : Db) (user : User) :
    ∀ s ∈ (clear db user).2.settlements, s ∈ db.settlements := by
  intro s hs
  unfold clear at hs
  split at hs
  · exact hs
  · split at hs
    · exact hs
    · exact (List.mem_filter.1 hs).1

theorem createRoom_ledger (db : Db) (user : User) (body : CreateBody) (code : String) :
    (createRoom db user body code).2.settlements = db.settlements ∧
      (createRoom db user body code).2.expenses = db.expenses := by
  unfold createRoom
  repeat' split
  all_goals exact ⟨rfl, rfl⟩

theorem joinRoom_ledger (db : Db) (user : User) (joinCode : String) :
    (joinRoom db user joinCode).2.settlements = db.settlements ∧
      (joinRoom db user joinCode).2.expenses = db.expenses := by
  unfold joinRoom
  repeat' split
  all_goals exact ⟨rfl, rfl⟩

theorem acceptRequest_ledger (db : Db) (user : User) (requestId : Nat) :
    (acceptRequest db user requestId).2.settlements = db.settlements ∧
      (acceptRequest db user requestId).2.expenses = db.expenses := by
  unfold acceptRequest
  repeat' split
  all_goals exact ⟨rfl, rfl⟩

theorem leaveRoom_ledger (db : Db) (user : User) :
    (leaveRoom db user).2.settlements = db.settlements ∧
      (leaveRoom db user).2.expenses = db.expenses := by
  unfold leaveRoom
  repeat' split
  all_goals exact ⟨rfl, rfl⟩

theorem removeMember_ledger (db : Db) (user : User) (memberId : Nat) :
    (removeMember db user memberId).2.settlements = db.settlements ∧
      (removeMember db user memberId).2.expenses = db.expenses := by
  unfold removeMember
  repeat' split
  all_goals exact ⟨rfl, rfl⟩

theorem deleteRoom_settlements (db : Db) (user : User) :
    ∀ s ∈ (deleteRoom db user).2.settlements, s ∈ db.settlements := by
  intro s hs
  unfold deleteRoom at hs
  split at hs
  · exact hs
  · exact (List.mem_filter.1 hs).1

theorem deleteExpense_settlements (db : Db) (user : User) (expenseId : Nat) :
    (deleteExpense db user expenseId).2.settlements = db.settlements := by
  unfold deleteExpense
  split
  · rfl
  · split
    · rfl
    · simp only []
      split <;> rfl

/-- A settlement found after one request was there before, or was recorded by the settle route
with an amount above the threshold. -/
theorem step_settlements (db : Db) (op : Op) :
    ∀ s ∈ (step db op).settlements,
      s ∈ db.settlements ∨ JsNum.gt s.amount threshold = true := by
  intro s hs
  cases op with
  | settle user =>
    simp only [step] at hs
    rcases settle_cases db user with ⟨_, h2⟩ | ⟨room, _, hle, hnan, heq⟩
    · rw [h2] at hs
      exact Or.inl hs
    · rw [heq] at hs
      simp only [logAndEmit, List.mem_append, List.mem_singleton] at hs
      rcases hs with h | h
      · exact Or.inl h
      · right
        rw [h]
        exact JsNum.gt_of_not_le _ _ hle hnan
  | addExpense user desc amount =>
    simp only [step, addExpense_settlements] at hs
    exact Or.inl hs
  | purchase user itemId amount =>
    simp only [step, purchase_settlements] at hs
    exact Or.inl hs
  | clear user => exact Or.inl (clear_settlements db user s hs)
  | createRoom user body code =>
    simp only [step, (createRoom_ledger db user body code).1] at hs
    exact Or.inl hs
  | joinRoom user joinCode =>
    simp only [step, (joinRoom_ledger db user joinCode).1] at hs
    exact Or.inl hs
  | acceptRequest user requestId =>
    simp only [step, (acceptRequest_ledger db user requestId).1] at hs
    exact Or.inl hs
  | leaveRoom user =>
    simp only [step, (leaveRoom_ledger db user).1] at hs
    exact Or.inl hs
  | removeMember user memberId =>
    simp only [step, (removeMember_ledger db user memberId).1] at hs
    exact Or.inl hs
  | deleteRoom user => exact Or.inl (deleteRoom_settlements db user s hs)
  | deleteExpense user expenseId =>
    simp only [step, deleteExpense_settlements] at hs
    exact Or.inl hs

theorem run_positiveSettlements (ops : List Op) :
    ∀ db : Db, positiveSettlements db → positiveSettlements (run db ops) := by
  induction ops with
  | nil => intro db h; exact h
  | cons op ops ih =>
    intro db h
    have hstep : positiveSettlements (step db op) := by
      intro s hs
      rcases step_settlements db op s hs with h1 | h1
      · exact h s h1
      · exact JsNum.gt_zero_of_gt_threshold _ h1
    exact ih _ hstep

/-- C18. Every settlement created by the settle operation has an amount greater than 0.01;
so, starting from a store whose settlements all have positive amounts, every settlement has a
positive amount after any sequence of operations. -/
theorem C18_settlements_positive (db : Db) (ops : List Op) (hpos : positiveSettlements db) :
    (∀ user, (settle db user).1 = SettleResponse.settled →
        ∃ s, (settle db user).2.settlements = db.settlements ++ [s] ∧
          JsNum.gt s.amount threshold = true) ∧
      positiveSettlements (run db ops) := by
  refine ⟨?_, run_positiveSettlements ops db hpos⟩
  intro user hok
  rcases settle_cases db user with ⟨h1, _⟩ | ⟨room, _, hle, hnan, heq⟩
  · exact absurd hok h1
  · refine ⟨{ room := room._id, paidBy := user._id, amount := amountOwed db room user._id }, ?_,
      JsNum.gt_of_not_le _ _ hle hnan⟩
    rw [heq]
    rfl

/-- C18 for the worked example followed by a settle request of C, a negative expense of A and a
settle request of B. -/
theorem C18_settlements_positive_witness :
    (∀ user, (settle exampleDb user).1 = SettleResponse.settled →
        ∃ s, (settle exampleDb user).2.settlements = exampleDb.settlements ++ [s] ∧
          JsNum.gt s.amount threshold = true) ∧
      positiveSettlements
        (run exampleDb
          [Op.settle ⟨12, "C"⟩, Op.addExpense ⟨10, "A"⟩ "refund" (some (JsNum.fin (-90))),
            Op.settle ⟨11, "B"⟩]) :=
  C18_settlements_positive exampleDb _ (by
    intro s hs
    simp only [exampleDb, List.mem_singleton] at hs
    rw [hs]
    rfl)

/-! ## C19: the empty history -/

theorem objSet_forall {α : Type} (P : α → Prop) (k : String) (v : α) (hv : P v) :
    ∀ o : List (String × α), (∀ e ∈ o, P e.2) → ∀ e ∈ objSet o k v, P e.2 := by
  intro o
  induction o with
  | nil =>
    intro _ e he
    simp only [objSet, List.mem_singleton] at he
    rw [he]
    exact hv
  | cons a o ih =>
    intro ho e he
    unfold objSet at he
    split at he
    · rcases List.mem_cons.1 he with h | h
      · rw [h]; exact hv
      · exact ho e (List.mem_cons_of_mem _ h)
    · rcases List.mem_cons.1 he with h | h
      · rw [h]; exact ho a (List.mem_cons_self _ _)
      · exact ih (fun e2 h2 => ho e2 (List.mem_cons_of_mem _ h2)) e h

theorem objSet_fold_forall {α β : Type} (P : α → Prop) (name : β → String) (g : β → α)
    (xs : List β) :
    ∀ acc : List (String × α), (∀ x ∈ xs, P (g x)) → (∀ e ∈ acc, P e.2) →
      ∀ e ∈ xs.foldl (fun b x => objSet b (name x) (g x)) acc, P e.2 := by
  induction xs with
  | nil => intro acc _ hacc e he; exact hacc e he
  | cons x xs ih =>
    intro acc hx hacc e he
    rw [List.foldl_cons] at he
    exact ih _ (fun y hy => hx y (List.mem_cons_of_mem _ hy))
      (objSet_forall P (name x) (g x) (hx x (List.mem_cons_self _ _)) acc hacc) e he

/-- The engine on a room with members and an empty history. -/
theorem calculate_empty_history (db : Db) (room : Room)
    (hkey : findRoomById db room._id = some room) (hmem : room.members ≠ [])
    (hE : findExpenses db room._id = []) (hS : findSettlements db room._id = []) :
    calculateEffectiveContributions db room._id =
      { contributions := tab (memberKeys room.members) (fun _ => 0), total := JsNum.fin 0,
        perHead := JsNum.fin 0, members := room.members } := by
  have hfin : finiteAmounts db room._id = true := by simp [finiteAmounts, hE, hS]
  rw [calculate_eq db room._id room hkey hmem hfin]
  have h1 : totalExpenses db room._id = 0 := by simp [totalExpenses, hE]
  have h2 : perHeadOf db room = 0 := by simp [perHeadOf, h1]
  have h3 : effectiveRat db room = fun _ => 0 := by
    funext k
    simp [effectiveRat, expenseSum, settlementSum, hE, hS, h2]
  rw [h1, h2, h3]

/-- C19. For every member list, the engine on a room with no expenses and no settlements
returns `total = 0` and `perHead = 0` with every member's contribution 0, every split balance is
0 and the chart mapping is empty; total, perHead and the chart mapping are those of a room with
zero members. -/
theorem C19_empty_history (db : Db) (roomId : Nat) (room : Room)
    (hroom : findRoomById db roomId = some room) (hE : findExpenses db roomId = [])
    (hS : findSettlements db roomId = []) :
    (calculateEffectiveContributions db roomId).total = JsNum.fin 0 ∧
      (calculateEffectiveContributions db roomId).perHead = JsNum.fin 0 ∧
      (∀ k ∈ memberIds room,
        JsMap.get (calculateEffectiveContributions db roomId).contributions k =
          some (JsNum.fin 0)) ∧
      (∀ e ∈ (split db room).balances, e.2.owes = JsNum.fin 0) ∧
      chartData db room = [] ∧
      (∀ (db0 : Db) (room0 : Room), findRoomById db0 room0._id = some room0 →
        room0.members = [] →
        (calculateEffectiveContributions db0 room0._id).total =
            (calculateEffectiveContributions db roomId).total ∧
          (calculateEffectiveContributions db0 room0._id).perHead =
            (calculateEffectiveContributions db roomId).perHead ∧
          chartData db0 room0 = chartData db room) := by
  have hid := findRoomById_id hroom
  subst hid
  have hzero : ∀ (db0 : Db) (room0 : Room), findRoomById db0 room0._id = some room0 →
      room0.members = [] →
      (calculateEffectiveContributions db0 room0._id).total = JsNum.fin 0 ∧
        (calculateEffectiveContributions db0 room0._id).perHead = JsNum.fin 0 ∧
        chartData db0 room0 = [] := by
    intro db0 room0 h0 hm0
    have hc := calculate_empty db0 room0._id room0 h0 hm0
    refine ⟨by rw [hc]; rfl, by rw [hc]; rfl, ?_⟩
    simp [chartData, hc]
  have hmain : (calculateEffectiveContributions db room._id).total = JsNum.fin 0 ∧
      (calculateEffectiveContributions db room._id).perHead = JsNum.fin 0 ∧
      (∀ k ∈ memberIds room,
        JsMap.get (calculateEffectiveContributions db room._id).contributions k =
          some (JsNum.fin 0)) ∧
      (∀ e ∈ (split db room).balances, e.2.owes = JsNum.fin 0) ∧
      chartData db room = [] := by
    by_cases hmem : room.members = []
    · obtain ⟨a, b, c⟩ := hzero db room hroom hmem
      refine ⟨a, b, ?_, ?_, c⟩
      · intro k hk
        simp [memberIds, hmem] at hk
      · intro e he
        simp [split, calculate_empty db room._id room hroom hmem] at he
    · have hc := calculate_empty_history db room hroom hmem hE hS
      have hval : ∀ m ∈ room.members,
          JsNum.orZero (JsMap.get (tab (memberKeys room.members) (fun _ => (0 : ℚ))) m._id) =
            JsNum.fin 0 := by
        intro m hm
        have hk : m._id ∈ memberKeys room.members :=
          (mem_memberKeys _ _).2 (List.mem_map.2 ⟨m, hm, rfl⟩)
        rw [tab_get _ _ _ hk]
        rfl
      refine ⟨by rw [hc], by rw [hc], ?_, ?_, ?_⟩
      · intro k hk
        rw [hc]
        exact tab_get _ _ _ ((mem_memberKeys _ _).2 hk)
      · unfold split
        simp only [hc]
        apply objSet_fold_forall (fun b : Balance => b.owes = JsNum.fin 0)
        · intro m hm
          simp only [hval m hm, JsNum.sub_fin, sub_zero]
        · intro e he
          simp at he
      · unfold chartData
        simp only [hc]
        rw [foldl_cond
          (fun m : User =>
            JsNum.gt
              (JsNum.orZero (JsMap.get (tab (memberKeys room.members) (fun _ => (0 : ℚ))) m._id))
              threshold)
          (fun c m => objSet c m.name
            (JsNum.orZero (JsMap.get (tab (memberKeys room.members) (fun _ => (0 : ℚ))) m._id)))]
        have hnil : room.members.filter (fun m : User =>
            JsNum.gt
              (JsNum.orZero (JsMap.get (tab (memberKeys room.members) (fun _ => (0 : ℚ))) m._id))
              threshold) = [] := by
          rw [List.filter_eq_nil_iff]
          intro m hm
          rw [hval m hm]
          simp [threshold]
        rw [hnil]
        rfl
  obtain ⟨a, b, c, d, e⟩ := hmain
  refine ⟨a, b, c, d, e, ?_⟩
  intro db0 room0 h0 hm0
  obtain ⟨a0, b0, c0⟩ := hzero db0 room0 h0 hm0
  rw [a, b, e]
  exact ⟨a0, b0, c0⟩

/-- C19 for the room of the worked example with an empty history. -/
theorem C19_empty_history_witness :
    (calculateEffectiveContributions clearedDb 1).total = JsNum.fin 0 ∧
      (calculateEffectiveContributions clearedDb 1).perHead = JsNum.fin 0 ∧
      (∀ k ∈ memberIds exampleRoom,
        JsMap.get (calculateEffectiveContributions clearedDb 1).contributions k =
          some (JsNum.fin 0)) ∧
      (∀ e ∈ (split clearedDb exampleRoom).balances, e.2.owes = JsNum.fin 0) ∧
      chartData clearedDb exampleRoom = [] ∧
      (∀ (db0 : Db) (room0 : Room), findRoomById db0 room0._id = some room0 →
        room0.members = [] →
        (calculateEffectiveContributions db0 room0._id).total =
            (calculateEffectiveContributions clearedDb 1).total ∧
          (calculateEffectiveContributions db0 room0._id).perHead =
            (calculateEffectiveContributions clearedDb 1).perHead ∧
          chartData db0 room0 = chartData clearedDb exampleRoom) :=
  C19_empty_history clearedDb 1 exampleRoom (by decide) (by decide) (by decide)

/-- After a successful `DELETE /clear` the room of the requesting owner has an empty history. -/
theorem clear_empties_history (db : Db) (user : User) (room : Room)
    (hroom : getUserRoom db user = some room) (hown : room.createdBy = user._id) :
    (clear db user).1 = ClearResponse.cleared ∧
      (clear db user).2.rooms = db.rooms ∧
      findExpenses (clear db user).2 room._id = [] ∧
      findSettlements (clear db user).2 room._id = [] := by
  have hc : clear db user =
      (ClearResponse.cleared,
        { db with
          expenses := db.expenses.filter (fun e => e.room != room._id),
          settlements := db.settlements.filter (fun s => s.room != room._id) }) := by
    unfold clear
    rw [hroom]
    simp [hown]
  rw [hc]
  refine ⟨rfl, rfl, ?_, ?_⟩
  · simp [findExpenses, List.filter_filter]
  · simp [findSettlements, List.filter_filter]

/-! ## C20: one room per member -/

theorem twoRoomsDb_oneRoomPerUser : oneRoomPerUser twoRoomsDb := by
  intro u
  have h : roomCount twoRoomsDb u =
      (if u = 10 ∨ u = 11 ∨ u = 12 then 1 else 0) + (if u = 13 then 1 else 0) := by
    simp only [roomCount, twoRoomsDb, exampleRoom, includesMember, List.countP_cons,
      List.countP_nil, List.any_cons, List.any_nil, Bool.or_false, Bool.or_eq_true, beq_iff_eq,
      zero_add]
    by_cases h10 : u = 10 <;> by_cases h11 : u = 11 <;> by_cases h12 : u = 12 <;>
      by_cases h13 : u = 13 <;> simp [h10, h11, h12, h13, eq_comm]
  rw [h]
  split <;> split <;> omega

/-- C20 as stated fails. In a state where every user is in at most one room, A (a member of
room 1) creates a room, B (a member of room 1) joins room 2 by its code, and the owner of room 2
accepts the join request of B: each time the user ends up a member of two rooms. -/
theorem C20_counterexample :
    oneRoomPerUser twoRoomsDb ∧
      ((createRoom twoRoomsDb ⟨10, "A"⟩ flatBody "NEW001").1 = RoomResponse.created ∧
        roomCount (step twoRoomsDb (Op.createRoom ⟨10, "A"⟩ flatBody "NEW001")) 10 = 2 ∧
        ¬ oneRoomPerUser (step twoRoomsDb (Op.createRoom ⟨10, "A"⟩ flatBody "NEW001"))) ∧
      ((joinRoom twoRoomsDb ⟨11, "B"⟩ "SOLO02").1 = RoomResponse.joined ∧
        roomCount (step twoRoomsDb (Op.joinRoom ⟨11, "B"⟩ "SOLO02")) 11 = 2 ∧
        ¬ oneRoomPerUser (step twoRoomsDb (Op.joinRoom ⟨11, "B"⟩ "SOLO02"))) ∧
      ((acceptRequest twoRoomsDb ⟨13, "D"⟩ 5).1 = RoomResponse.accepted ∧
        roomCount (step twoRoomsDb (Op.acceptRequest ⟨13, "D"⟩ 5)) 11 = 2 ∧
        ¬ oneRoomPerUser (step twoRoomsDb (Op.acceptRequest ⟨13, "D"⟩ 5))) := by
  have h1 : roomCount (step twoRoomsDb (Op.createRoom ⟨10, "A"⟩ flatBody "NEW001")) 10 = 2 := by
    decide!
  have h2 : roomCount (step twoRoomsDb (Op.joinRoom ⟨11, "B"⟩ "SOLO02")) 11 = 2 := by decide!
  have h3 : roomCount (step twoRoomsDb (Op.acceptRequest ⟨13, "D"⟩ 5)) 11 = 2 := by decide!
  refine ⟨twoRoomsDb_oneRoomPerUser, ⟨by decide!, h1, fun h => ?_⟩, ⟨by decide!, h2, fun h => ?_⟩,
    ⟨by decide!, h3, fun h => ?_⟩⟩
  · have := h 10
    omega
  · have := h 11
    omega
  · have := h 11
    omega

theorem saveRoom_ids (x : Room) (rooms : List Room) :
    (saveRoom rooms x).map (fun r => r._id) = rooms.map (fun r => r._id) := by
  induction rooms with
  | nil => rfl
  | cons r rs ih =>
    unfold saveRoom
    by_cases h : (r._id == x._id) = true
    · rw [if_pos h]
      simp only [List.map_cons]
      rw [beq_iff_eq] at h
      rw [h]
    · rw [if_neg h]
      simp only [List.map_cons, ih]

theorem saveRoom_countP_le_succ (p : Room → Bool) (x : Room) (rooms : List Room) :
    (saveRoom rooms x).countP p ≤ rooms.countP p + 1 := by
  induction rooms with
  | nil => simp [saveRoom]
  | cons r rs ih =>
    unfold saveRoom
    by_cases h : (r._id == x._id) = true
    · rw [if_pos h]
      simp only [List.countP_cons]
      split <;> split <;> omega
    · rw [if_neg h]
      simp only [List.countP_cons]
      omega

theorem saveRoom_countP_le (p : Room → Bool) (x : Room) (rooms : List Room)
    (h : ∀ r ∈ rooms, r._id = x._id → p x = true → p r = true) :
    (saveRoom rooms x).countP p ≤ rooms.countP p := by
  induction rooms with
  | nil => simp [saveRoom]
  | cons r rs ih =>
    unfold saveRoom
    by_cases hid : (r._id == x._id) = true
    · rw [if_pos hid]
      simp only [List.countP_cons]
      have hr := h r (List.mem_cons_self _ _) (by simpa using hid)
      by_cases hx : p x = true
      · simp [hx, hr hx]
      · simp [hx]
    · rw [if_neg hid]
      simp only [List.countP_cons]
      have := ih (fun r2 h2 => h r2 (List.mem_cons_of_mem _ h2))
      omega

theorem room_eq_of_id {rooms : List Room} (hnd : (rooms.map (fun r => r._id)).Nodup)
    {a b : Room} (ha : a ∈ rooms) (hb : b ∈ rooms) (h : a._id = b._id) : a = b :=
  List.inj_on_of_nodup_map hnd ha hb h

theorem le_foldl_max (l : List Nat) : ∀ (init x : Nat), x ∈ l ∨ x ≤ init → x ≤ l.foldl max init := by
  induction l with
  | nil =>
    intro init x h
    rcases h with h | h
    · simp at h
    · exact h
  | cons a l ih =>
    intro init x h
    rw [List.foldl_cons]
    apply ih
    rcases h with h | h
    · rcases List.mem_cons.1 h with h1 | h1
      · right
        rw [h1]
        exact le_max_right _ _
      · exact Or.inl h1
    · right
      exact le_trans h (le_max_left _ _)

theorem freshRoomId_not_mem (db : Db) : freshRoomId db ∉ db.rooms.map (fun r => r._id) := by
  intro h
  have := le_foldl_max (db.rooms.map (fun r => r._id)) 0 (freshRoomId db) (Or.inl h)
  unfold freshRoomId at this
  omega

theorem roomsStep_preserves (db : Db) (j : Option Nat) (rooms2 : List Room)
    (hone : oneRoomPerUser db) (hids : uniqueRoomIds db)
    (hadm : ∀ u, j = some u → roomCount db u = 0) (hstep : RoomsStep db j rooms2) :
    (∀ u, rooms2.countP (fun r => includesMember r u) ≤ 1) ∧
      (rooms2.map (fun r => r._id)).Nodup := by
  rcases hstep with h | ⟨R, R2, hR, hid, h, hmem⟩ | ⟨R2, h, hid, hmem⟩ | ⟨q, h⟩
  · rw [h]
    exact ⟨hone, hids⟩
  · rw [h, saveRoom_ids]
    refine ⟨fun u => ?_, hids⟩
    by_cases hj : j = some u
    · have h0 := hadm u hj
      unfold roomCount at h0
      have := saveRoom_countP_le_succ (fun r => includesMember r u) R2 db.rooms
      omega
    · have hle := saveRoom_countP_le (fun r => includesMember r u) R2 db.rooms (by
        intro r hr hrid hp
        have hrR : r = R := room_eq_of_id hids hr hR (hrid.trans hid)
        rw [hrR]
        rcases hmem u hp with h1 | h1
        · exact h1
        · exact absurd h1 hj)
      exact le_trans hle (hone u)
  · rw [h]
    refine ⟨fun u => ?_, ?_⟩
    · rw [List.countP_append]
      simp only [List.countP_cons, List.countP_nil, zero_add]
      by_cases hp : includesMember R2 u = true
      · have h0 := hadm u (hmem u hp)
        unfold roomCount at h0
        simp [hp, h0]
      · have := hone u
        unfold roomCount at this
        simp [hp, this]
    · rw [List.map_append, List.nodup_append]
      refine ⟨hids, by simp, ?_⟩
      intro a ha hb
      simp only [List.map_cons, List.map_nil, List.mem_singleton] at hb
      rw [hb, hid] at ha
      exact freshRoomId_not_mem db ha
  · rw [h]
    refine ⟨fun u => ?_, ?_⟩
    · exact le_trans (List.Sublist.countP_le _ (List.eraseP_sublist _)) (hone u)
    · exact List.Nodup.sublist ((List.eraseP_sublist _).map _) hids

theorem includes_append (room : Room) (v : User) (u : Nat)
    (h : includesMember { room with members := room.members ++ [v] } u = true) :
    includesMember room u = true ∨ v._id = u := by
  simp only [includesMember, List.any_append, List.any_cons, List.any_nil, Bool.or_false,
    Bool.or_eq_true, beq_iff_eq] at h
  exact h

theorem includes_pull (room : Room) (v : Nat) (u : Nat) (c : Nat)
    (h : includesMember { room with createdBy := c, members := pullMember room v } u = true) :
    includesMember room u = true := by
  simp only [includesMember, pullMember, List.any_eq_true, List.mem_filter] at h ⊢
  obtain ⟨m, hm, he⟩ := h
  exact ⟨m, hm.1, he⟩

theorem createRoom_roomsStep (db : Db) (user : User) (body : CreateBody) (code : String) :
    RoomsStep db (some user._id) (createRoom db user body code).2.rooms := by
  unfold createRoom
  split
  · exact Or.inl rfl
  · split
    · exact Or.inl rfl
    · split
      · exact Or.inl rfl
      · right; right; left
        refine ⟨_, rfl, rfl, ?_⟩
        intro u hu
        simp only [includesMember, List.any_cons, List.any_nil, Bool.or_false, beq_iff_eq] at hu
        rw [hu]

theorem joinRoom_roomsStep (db : Db) (user : User) (joinCode : String) :
    RoomsStep db (some user._id) (joinRoom db user joinCode).2.rooms := by
  unfold joinRoom
  cases hf : db.rooms.find? (fun r => r.joinCode == joinCode) with
  | none => exact Or.inl rfl
  | some room =>
    simp only []
    split
    · exact Or.inl rfl
    · split
      · exact Or.inl rfl
      · right; left
        refine ⟨room, { room with members := room.members ++ [user] },
          List.mem_of_find?_eq_some hf, rfl, rfl, ?_⟩
        intro u hu
        rcases includes_append room user u hu with h | h
        · exact Or.inl h
        · exact Or.inr (by rw [h])

theorem acceptRequest_roomsStep (db : Db) (user : User) (requestId : Nat) :
    RoomsStep db (joiner db (Op.acceptRequest user requestId))
      (acceptRequest db user requestId).2.rooms := by
  unfold acceptRequest joiner
  cases hq : db.requests.find? (fun q => q._id == requestId) with
  | none => exact Or.inl rfl
  | some request =>
    simp only []
    cases hf : findRoomById db request.room with
    | none => exact Or.inl rfl
    | some room =>
      simp only []
      split
      · exact Or.inl rfl
      · split
        · exact Or.inl rfl
        · right; left
          refine ⟨room, { room with members := room.members ++ [request.user] },
            List.mem_of_find?_eq_some hf, rfl, rfl, ?_⟩
          intro u hu
          rcases includes_append room request.user u hu with h | h
          · exact Or.inl h
          · exact Or.inr (by simp [hq, h])

theorem leaveRoom_roomsStep (db : Db) (user : User) :
    RoomsStep db none (leaveRoom db user).2.rooms := by
  unfold leaveRoom
  cases hf : getUserRoom db user with
  | none => exact Or.inl rfl
  | some room =>
    have hin : room ∈ db.rooms := List.mem_of_find?_eq_some hf
    simp only []
    split
    · split
      · right; right; right
        exact ⟨_, rfl⟩
      · split
        · exact Or.inl rfl
        · rename_i newOwner _
          right; left
          exact ⟨room, { room with createdBy := newOwner._id, members := pullMember room user._id },
            hin, rfl, rfl, fun u hu => Or.inl (includes_pull room _ u _ hu)⟩
    · right; left
      exact ⟨room, { room with members := pullMember room user._id }, hin, rfl, rfl,
        fun u hu => Or.inl (includes_pull room user._id u room.createdBy hu)⟩

theorem removeMember_roomsStep (db : Db) (user : User) (memberId : Nat) :
    RoomsStep db none (removeMember db user memberId).2.rooms := by
  unfold removeMember
  cases hf : db.rooms.find? (fun r => r.createdBy == user._id) with
  | none => exact Or.inl rfl
  | some room =>
    have hin : room ∈ db.rooms := List.mem_of_find?_eq_some hf
    simp only []
    split
    · exact Or.inl rfl
    · split
      · exact Or.inl rfl
      · right; left
        exact ⟨room, { room with members := pullMember room memberId }, hin, rfl, rfl,
          fun u hu => Or.inl (includes_pull room memberId u room.createdBy hu)⟩

theorem settle_rooms (db : Db) (user : User) : (settle db user).2.rooms = db.rooms := by
  rcases settle_cases db user with ⟨_, h⟩ | ⟨room, _, _, _, h⟩
  · rw [h]
  · rw [h]
    rfl

theorem addExpense_rooms (db : Db) (user : User) (desc : String) (amount : Option JsNum) :
    (addExpense db user desc amount).2.rooms = db.rooms := by
  unfold addExpense
  repeat' split
  all_goals rfl

theorem purchase_rooms (db : Db) (user : User) (itemId : Nat) (amount : Option JsNum) :
    (purchase db user itemId amount).2.rooms = db.rooms := by
  unfold purchase
  repeat' split
  all_goals rfl

theorem clear_rooms (db : Db) (user : User) : (clear db user).2.rooms = db.rooms := by
  unfold clear
  repeat' split
  all_goals rfl

theorem deleteRoom_roomsStep (db : Db) (user : User) :
    RoomsStep db none (deleteRoom db user).2.rooms := by
  unfold deleteRoom
  split
  · exact Or.inl rfl
  · right; right; right
    exact ⟨_, rfl⟩

theorem deleteExpense_rooms (db : Db) (user : User) (expenseId : Nat) :
    (deleteExpense db user expenseId).2.rooms = db.rooms := by
  unfold deleteExpense
  split
  · rfl
  · split
    · rfl
    · simp only []
      split <;> rfl

theorem step_roomsStep (db : Db) (op : Op) : RoomsStep db (joiner db op) (step db op).rooms := by
  cases op with
  | settle user => exact Or.inl (settle_rooms db user)
  | addExpense user desc amount => exact Or.inl (addExpense_rooms db user desc amount)
  | purchase user itemId amount => exact Or.inl (purchase_rooms db user itemId amount)
  | clear user => exact Or.inl (clear_rooms db user)
  | createRoom user body code => exact createRoom_roomsStep db user body code
  | joinRoom user joinCode => exact joinRoom_roomsStep db user joinCode
  | acceptRequest user requestId => exact acceptRequest_roomsStep db user requestId
  | leaveRoom user => exact leaveRoom_roomsStep db user
  | removeMember user memberId => exact removeMember_roomsStep db user memberId
  | deleteRoom user => exact deleteRoom_roomsStep db user
  | deleteExpense user expenseId => exact Or.inl (deleteExpense_rooms db user expenseId)

/-- One admissible request keeps both "one room per user" and the uniqueness of room ids. -/
theorem step_oneRoomPerUser (db : Db) (op : Op) (hone : oneRoomPerUser db)
    (hids : uniqueRoomIds db) (hadm : admissible db op = true) :
    oneRoomPerUser (step db op) ∧ uniqueRoomIds (step db op) := by
  have hj : ∀ u, joiner db op = some u → roomCount db u = 0 := by
    intro u hu
    unfold admissible at hadm
    rw [hu] at hadm
    simpa using hadm
  exact roomsStep_preserves db (joiner db op) (step db op).rooms hone hids hj (step_roomsStep db op)

theorem run_oneRoomPerUser (ops : List Op) :
    ∀ db : Db, oneRoomPerUser db → uniqueRoomIds db → admissibleRun db ops = true →
      oneRoomPerUser (run db ops) ∧ uniqueRoomIds (run db ops) := by
  induction ops with
  | nil => intro db h1 h2 _; exact ⟨h1, h2⟩
  | cons op ops ih =>
    intro db h1 h2 h3
    simp only [admissibleRun, Bool.and_eq_true] at h3
    obtain ⟨a, b⟩ := step_oneRoomPerUser db op h1 h2 h3.1
    exact ih (step db op) a b h3.2

/-- C20, amended. Starting from a state in which every user is a member of at most one room
(room ids being unique), after any sequence of operations in which every create, join-by-code
and join-request accept adds a user who is not a member of any room at that moment, every user
is still a member of at most one room; leave and remove-member requests are always admissible
and never break the property. -/
theorem C20_one_room_per_member (db : Db) (ops : List Op) (hone : oneRoomPerUser db)
    (hids : uniqueRoomIds db) (hadm : admissibleRun db ops = true) :
    oneRoomPerUser (run db ops) ∧
      (∀ (db1 : Db) (user : User) (memberId : Nat), oneRoomPerUser db1 → uniqueRoomIds db1 →
        oneRoomPerUser (step db1 (Op.leaveRoom user)) ∧
          oneRoomPerUser (step db1 (Op.removeMember user memberId))) := by
  refine ⟨(run_oneRoomPerUser ops db hone hids hadm).1, ?_⟩
  intro db1 user memberId h1 h2
  exact ⟨(step_oneRoomPerUser db1 (Op.leaveRoom user) h1 h2 rfl).1,
    (step_oneRoomPerUser db1 (Op.removeMember user memberId) h1 h2 rfl).1⟩

/-- C20 for the two rooms: C leaves room 1 and then joins room 2 by its code, B is removed from
room 1 by its owner and the owner of room 2 accepts the join request of B. -/
theorem C20_one_room_per_member_witness :
    oneRoomPerUser
      (run twoRoomsDb
        [Op.leaveRoom ⟨12, "C"⟩, Op.joinRoom ⟨12, "C"⟩ "SOLO02", Op.removeMember ⟨10, "A"⟩ 11,
          Op.acceptRequest ⟨13, "D"⟩ 5]) :=
  (C20_one_room_per_member twoRoomsDb _ twoRoomsDb_oneRoomPerUser
    (by unfold uniqueRoomIds; decide) (by decide!)).1

/-! ## C21: room teardown and the ledger -/

/-- The owner's `DELETE /delete` removes the room, leaves no expense and no settlement of that
room in the store, and keeps the records of every other room. -/
theorem deleteRoom_clears_ledger (db : Db) (user : User) (room : Room)
    (hroom : db.rooms.find? (fun r => r.createdBy == user._id) = some room) :
    (deleteRoom db user).1 = RoomResponse.deletedWithData ∧
      (deleteRoom db user).2.rooms = db.rooms.eraseP (fun r => r._id == room._id) ∧
      findExpenses (deleteRoom db user).2 room._id = [] ∧
      findSettlements (deleteRoom db user).2 room._id = [] ∧
      (∀ other, other ≠ room._id →
        findExpenses (deleteRoom db user).2 other = findExpenses db other ∧
          findSettlements (deleteRoom db user).2 other = findSettlements db other) := by
  have hd : deleteRoom db user =
      (RoomResponse.deletedWithData,
        { rooms := db.rooms.eraseP (fun r => r._id == room._id),
          expenses := db.expenses.filter (fun e => e.room != room._id),
          settlements := db.settlements.filter (fun s => s.room != room._id),
          activities := db.activities.filter (fun a => a.room != room._id),
          groceryItems := db.groceryItems.filter (fun i => i.room != room._id),
          requests := db.requests.filter (fun q => q.room != room._id) }) := by
    unfold deleteRoom
    rw [hroom]
  rw [hd]
  refine ⟨rfl, rfl, ?_, ?_, ?_⟩
  · simp [findExpenses, List.filter_filter]
  · simp [findSettlements, List.filter_filter]
  · intro other hne
    constructor
    · simp only [findExpenses, List.filter_filter]
      apply List.filter_congr
      intro e _
      by_cases h : e.room = other <;> simp [h, hne]
    · simp only [findSettlements, List.filter_filter]
      apply List.filter_congr
      intro e _
      by_cases h : e.room = other <;> simp [h, hne]

/-- C21 fails on the leave path. D is the owner and last member of room 2, which has an expense
of 50 and a settlement of 5. After `POST /leave` the room is deleted, but its expense and its
settlement are still in the store; after `DELETE /delete` by D they are gone, and the records of
room 1 are untouched either way. -/
theorem C21_leave_keeps_ledger :
    ((leaveRoom teardownDb ⟨13, "D"⟩).1 = RoomResponse.roomDeleted ∧
        findRoomById (leaveRoom teardownDb ⟨13, "D"⟩).2 2 = none ∧
        findExpenses (leaveRoom teardownDb ⟨13, "D"⟩).2 2 =
          [{ _id := 202, amount := JsNum.fin 50, room := 2, addedBy := 13 }] ∧
        findSettlements (leaveRoom teardownDb ⟨13, "D"⟩).2 2 =
          [{ room := 2, paidBy := 13, amount := JsNum.fin 5 }]) ∧
      ((deleteRoom teardownDb ⟨13, "D"⟩).1 = RoomResponse.deletedWithData ∧
        findRoomById (deleteRoom teardownDb ⟨13, "D"⟩).2 2 = none ∧
        findExpenses (deleteRoom teardownDb ⟨13, "D"⟩).2 2 = [] ∧
        findSettlements (deleteRoom teardownDb ⟨13, "D"⟩).2 2 = [] ∧
        findExpenses (deleteRoom teardownDb ⟨13, "D"⟩).2 1 = findExpenses teardownDb 1 ∧
        findSettlements (deleteRoom teardownDb ⟨13, "D"⟩).2 1 = findSettlements teardownDb 1) := by
  decide!

/-! ## C25: deleting a single expense -/

/-- What `DELETE /:id` does for a requester who is in a room: an unknown id is not found, a
requester who neither added the expense nor owns the room they are in is refused, and in both
cases nothing is removed; anybody else removes the expense, whatever room it belongs to. -/
theorem deleteExpense_cases (db : Db) (user : User) (room : Room) (expenseId : Nat)
    (hroom : getUserRoom db user = some room) :
    (db.expenses.find? (fun e => e._id == expenseId) = none →
        deleteExpense db user expenseId = (DeleteExpenseResponse.notFound, db)) ∧
      (∀ expense, db.expenses.find? (fun e => e._id == expenseId) = some expense →
        room.createdBy ≠ user._id → expense.addedBy ≠ user._id →
        deleteExpense db user expenseId = (DeleteExpenseResponse.notAuthorized, db)) ∧
      (∀ expense, db.expenses.find? (fun e => e._id == expenseId) = some expense →
        room.createdBy = user._id ∨ expense.addedBy = user._id →
        deleteExpense db user expenseId =
          (DeleteExpenseResponse.removed,
            { db with expenses := db.expenses.eraseP (fun e => e._id == expenseId) })) := by
  refine ⟨?_, ?_, ?_⟩
  · intro h
    unfold deleteExpense
    rw [hroom]
    simp only [h]
  · intro expense h h1 h2
    unfold deleteExpense
    rw [hroom]
    simp [h, h1, h2]
  · intro expense h h1
    unfold deleteExpense
    rw [hroom]
    rcases h1 with h1 | h1 <;> simp [h, h1]

/-- C25 fails for the owner of another room. Expense 203 belongs to room 1 and was added by B;
D owns room 2 and is not a member of room 1. `DELETE /203` requested by D removes the expense,
while C (a member of room 1 who is neither its owner nor the payer) is refused and an unknown
id is not found. -/
theorem C25_foreign_owner_deletes :
    ((deleteExpense teardownDb ⟨13, "D"⟩ 203).1 = DeleteExpenseResponse.removed ∧
        (deleteExpense teardownDb ⟨13, "D"⟩ 203).2.expenses =
          [{ _id := 201, amount := JsNum.fin 300, room := 1, addedBy := 10 },
           { _id := 202, amount := JsNum.fin 50, room := 2, addedBy := 13 }]) ∧
      deleteExpense teardownDb ⟨12, "C"⟩ 203 = (DeleteExpenseResponse.notAuthorized, teardownDb) ∧
      deleteExpense teardownDb ⟨12, "C"⟩ 999 = (DeleteExpenseResponse.notFound, teardownDb) := by
  decide!

/-! ## C23: redistribution and the creditors -/

theorem calculate_contributions (db : Db) (room : Room)
    (hkey : findRoomById db room._id = some room) (hmem : room.members ≠ []) :
    (calculateEffectiveContributions db room._id).contributions =
      addSettlements (preAttribution db room) (findSettlements db room._id) := by
  have hlen : room.members.length ≠ 0 := fun h => hmem (List.length_eq_zero.1 h)
  unfold calculateEffectiveContributions preAttribution
  rw [hkey]
  simp only [if_neg hlen]

theorem preAttribution_eq (db : Db) (room : Room) (hmem : room.members ≠ [])
    (hfin : finiteAmounts db room._id = true) :
    preAttribution db room =
      tab (memberKeys room.members)
        (fun k =>
          if perHeadOf db room < expenseSum db room._id k ∧ 0 < totalDebt db room then
            expenseSum db room._id k -
              (expenseSum db room._id k - perHeadOf db room) / totalDebt db room *
                totalSettled db room._id
          else expenseSum db room._id k) := by
  have hE := finiteAmounts_expenses hfin
  have hS := finiteAmounts_settlements hfin
  have hnd := memberKeys_nodup room.members
  have hEp : ∀ x ∈ (findExpenses db room._id).map (fun e => (e.addedBy, e.amount)),
      x.2.isFinite = true := by
    intro x hx
    obtain ⟨e, he, rfl⟩ := List.mem_map.1 hx
    exact hE e he
  have hbase : addExpenses (initContributions room.members) (findExpenses db room._id) =
      tab (memberKeys room.members) (fun k => expenseSum db room._id k) := by
    rw [addExpenses_eq, initContributions_eq, accumulate_tab _ _ _ hnd hEp]
    apply tab_congr
    intro k _
    rw [expenseSum_eq_ownSum]
    simp
  have hper : JsNum.div (sumFiniteExpenses (findExpenses db room._id))
      (JsNum.fin (room.members.length : ℚ)) = JsNum.fin (perHeadOf db room) := by
    rw [sumFiniteExpenses_eq, JsNum.div_fin _ _ (length_cast_ne_zero hmem)]
    rfl
  unfold preAttribution
  simp only []
  rw [hbase, hper, collectCreditors_tab, sumSettlements_eq _ hS, ← totalDebt_eq_keys]
  by_cases hD : 0 < totalDebt db room
  · have hg : JsNum.gt (JsNum.fin (totalDebt db room)) JsNum.zero = true := by
      simp [JsNum.zero, hD]
    simp only [hg, if_true]
    rw [distribute_tab (fun k => expenseSum db room._id k - perHeadOf db room) _ _ (ne_of_gt hD)
      _ hnd _ _ (hnd.filter _) (fun k hk => (List.mem_filter.1 hk).1)]
    apply tab_congr
    intro k hk
    simp only [List.mem_filter, hk, true_and, decide_eq_true_eq, hD, and_true]
    rfl
  · have hg : JsNum.gt (JsNum.fin (totalDebt db room)) JsNum.zero = false := by
      simp [JsNum.zero, hD]
    simp only [hg]
    rw [if_neg (by simp)]
    apply tab_congr
    intro k _
    simp [hD]

theorem totalSettled_nonneg (db : Db) (roomId : Nat) (hfin : finiteAmounts db roomId = true)
    (hpos : nonnegSettlements db roomId = true) : 0 ≤ totalSettled db roomId := by
  unfold totalSettled
  apply List.sum_nonneg
  intro q hq
  obtain ⟨s, hs, rfl⟩ := List.mem_map.1 hq
  have h1 := JsNum.eq_fin_of_isFinite (finiteAmounts_settlements hfin s hs)
  simp only [nonnegSettlements, List.all_eq_true] at hpos
  have h2 := hpos s hs
  rw [h1, JsNum.zero, JsNum.le_fin, decide_eq_true_eq] at h2
  exact h2

/-- C23. In a room with at least one member, finite amounts, non-negative settlement amounts
and `totalSettled ≤ totalDebt`, a member whose expense sum exceeds `perHead` keeps a
contribution of at least `perHead` after the redistribution, with equality exactly when
`totalSettled = totalDebt`, and ends with a final contribution of at least `perHead`: the
balance is at most 0. -/
theorem C23_creditor_stays_creditor (db : Db) (room : Room) (c : Nat)
    (hkey : findRoomById db room._id = some room) (hmem : room.members ≠ [])
    (hfin : finiteAmounts db room._id = true) (hpos : nonnegSettlements db room._id = true)
    (hle : totalSettled db room._id ≤ totalDebt db room) (hc : c ∈ memberIds room)
    (hcred : perHeadOf db room < expenseSum db room._id c) :
    ∃ before final : ℚ,
      JsMap.get (preAttribution db room) c = some (JsNum.fin before) ∧
        JsMap.get (calculateEffectiveContributions db room._id).contributions c =
          some (JsNum.fin final) ∧
        perHeadOf db room ≤ before ∧
        (before = perHeadOf db room ↔ totalSettled db room._id = totalDebt db room) ∧
        before ≤ final ∧
        perHeadOf db room ≤ final ∧
        balanceOf (calculateEffectiveContributions db room._id) c =
          JsNum.fin (perHeadOf db room - final) ∧
        JsNum.le (balanceOf (calculateEffectiveContributions db room._id) c) JsNum.zero = true := by
  have hk : c ∈ memberKeys room.members := (mem_memberKeys _ _).2 hc
  have hD : 0 < totalDebt db room := (totalDebt_pos_iff db room).2 ⟨c, hc, hcred⟩
  have hs := settlementSum_nonneg db room._id c hfin hpos
  have hgap : 0 < expenseSum db room._id c - perHeadOf db room := by linarith
  have hratio : totalSettled db room._id / totalDebt db room ≤ 1 := (div_le_one hD).2 hle
  have hshare : (expenseSum db room._id c - perHeadOf db room) / totalDebt db room *
      totalSettled db room._id =
      (expenseSum db room._id c - perHeadOf db room) *
        (totalSettled db room._id / totalDebt db room) := by
    field_simp
  have hbefore : perHeadOf db room ≤ expenseSum db room._id c -
      (expenseSum db room._id c - perHeadOf db room) / totalDebt db room *
        totalSettled db room._id := by
    rw [hshare]
    nlinarith
  refine ⟨expenseSum db room._id c -
      (expenseSum db room._id c - perHeadOf db room) / totalDebt db room *
        totalSettled db room._id,
    expenseSum db room._id c -
      (expenseSum db room._id c - perHeadOf db room) / totalDebt db room *
        totalSettled db room._id + settlementSum db room._id c, ?_, ?_, hbefore, ?_, ?_, ?_, ?_, ?_⟩
  · rw [preAttribution_eq db room hmem hfin, tab_get _ _ _ hk, if_pos ⟨hcred, hD⟩]
  · rw [calculate_eq db room._id room hkey hmem hfin]
    simp only []
    rw [tab_get _ _ _ hk, effectiveRat, if_pos ⟨hcred, hD⟩]
  · rw [hshare]
    constructor
    · intro h
      have h1 : (expenseSum db room._id c - perHeadOf db room) *
          (totalSettled db room._id / totalDebt db room) =
          (expenseSum db room._id c - perHeadOf db room) * 1 := by linarith
      have h2 := mul_left_cancel₀ (ne_of_gt hgap) h1
      exact (div_eq_one_iff_eq (ne_of_gt hD)).1 h2
    · intro h
      rw [h, div_self (ne_of_gt hD)]
      ring
  · linarith
  · linarith
  · rw [balanceOf_eq db room c hkey hmem hfin hc, effectiveRat, if_pos ⟨hcred, hD⟩]
  · rw [balanceOf_eq db room c hkey hmem hfin hc, effectiveRat, if_pos ⟨hcred, hD⟩, JsNum.zero,
      JsNum.le_fin, decide_eq_true_eq]
    linarith

/-- C23 for creditor A of the worked example (`totalSettled = 100`, `totalDebt = 200`). -/
theorem C23_creditor_stays_creditor_witness :
    ∃ before final : ℚ,
      JsMap.get (preAttribution exampleDb exampleRoom) 10 = some (JsNum.fin before) ∧
        JsMap.get (calculateEffectiveContributions exampleDb exampleRoom._id).contributions 10 =
          some (JsNum.fin final) ∧
        perHeadOf exampleDb exampleRoom ≤ before ∧
        (before = perHeadOf exampleDb exampleRoom ↔
          totalSettled exampleDb exampleRoom._id = totalDebt exampleDb exampleRoom) ∧
        before ≤ final ∧
        perHeadOf exampleDb exampleRoom ≤ final ∧
        balanceOf (calculateEffectiveContributions exampleDb exampleRoom._id) 10 =
          JsNum.fin (perHeadOf exampleDb exampleRoom - final) ∧
        JsNum.le (balanceOf (calculateEffectiveContributions exampleDb exampleRoom._id) 10)
          JsNum.zero = true :=
  C23_creditor_stays_creditor exampleDb exampleRoom 10 (by decide) (by decide) (by decide)
    (by decide!) (by decide!) (by decide) (by decide!)

/-! ## C24: settling twice -/

theorem getUserRoom_congr (db db2 : Db) (user : User) (h : db2.rooms = db.rooms) :
    getUserRoom db2 user = getUserRoom db user := by
  unfold getUserRoom
  rw [h]

/-- C24. After a successful settle operation by a member (finite amounts), a second settle
operation by the same member on the updated history answers "no outstanding balance" and leaves
the database as it is: no further settlement is created. -/
theorem C24_settle_idempotent (db : Db) (user : User) (room : Room)
    (hroom : getUserRoom db user = some room) (hfin : finiteAmounts db room._id = true)
    (hok : (settle db user).1 = SettleResponse.settled) :
    (settle (settle db user).2 user).1 = SettleResponse.noOutstandingBalance ∧
      (settle (settle db user).2 user).2 = (settle db user).2 ∧
      amountOwed (settle db user).2 room user._id = JsNum.fin 0 := by
  have hmem := getUserRoom_nonempty hroom
  have hn : ¬ owedRat db room user._id ≤ 1 / 100 := by
    intro h
    rw [settle_failed db user room hroom hfin h] at hok
    exact absurd hok (by simp)
  obtain ⟨_, f1, f2, f3⟩ := settle_settled_fields db user room hroom hfin hn
  obtain ⟨_, _, _, a4, _, _, a7, a8, a9⟩ :=
    appended_settlement db (settle db user).2 room
      (newSettlement room user (owedRat db room user._id)) (owedRat db room user._id)
      f1 f2 f3 rfl rfl
  have hroom2 : getUserRoom (settle db user).2 user = some room := by
    rw [getUserRoom_congr db _ user f1]
    exact hroom
  have h8 : settlementSum (settle db user).2 room._id user._id =
      settlementSum db room._id user._id + owedRat db room user._id := by
    rw [a8 user._id]
    simp [newSettlement]
  have hzero : owedRat (settle db user).2 room user._id = 0 := by
    unfold owedRat
    rw [a4, a7, h8]
    unfold owedRat
    ring
  have hle : owedRat (settle db user).2 room user._id ≤ 1 / 100 := by
    rw [hzero]
    norm_num
  have hfail := settle_failed (settle db user).2 user room hroom2 (a9 hfin) hle
  refine ⟨by rw [hfail], by rw [hfail], ?_⟩
  rw [amountOwed_eq _ room user._id hmem (a9 hfin), hzero]

/-- C24 for member C of the worked example, who owes 100. -/
theorem C24_settle_idempotent_witness :
    (settle (settle exampleDb ⟨12, "C"⟩).2 ⟨12, "C"⟩).1 = SettleResponse.noOutstandingBalance ∧
      (settle (settle exampleDb ⟨12, "C"⟩).2 ⟨12, "C"⟩).2 = (settle exampleDb ⟨12, "C"⟩).2 ∧
      amountOwed (settle exampleDb ⟨12, "C"⟩).2 exampleRoom 12 = JsNum.fin 0 :=
  C24_settle_idempotent exampleDb ⟨12, "C"⟩ exampleRoom (by decide) (by decide) (by decide!)

/-! ## C26: room capacity -/

theorem saveRoom_all (p : Room → Bool) (x : Room) (rooms : List Room)
    (h : rooms.all p = true) (hx : p x = true) : (saveRoom rooms x).all p = true := by
  induction rooms with
  | nil => rfl
  | cons r rs ih =>
    simp only [List.all_cons, Bool.and_eq_true] at h
    unfold saveRoom
    by_cases hid : (r._id == x._id) = true
    · rw [if_pos hid]
      simp only [List.all_cons, Bool.and_eq_true]
      exact ⟨hx, h.2⟩
    · rw [if_neg hid]
      simp only [List.all_cons, Bool.and_eq_true]
      exact ⟨h.1, ih h.2⟩

theorem eraseP_all (p q : Room → Bool) (rooms : List Room) (h : rooms.all p = true) :
    (rooms.eraseP q).all p = true := by
  rw [List.all_eq_true] at h ⊢
  intro r hr
  exact h r (List.mem_of_mem_eraseP hr)

theorem isFull_false_iff (room : Room) (q : ℚ) (hq : room.maxMembers = JsNum.fin q) :
    isFull room = false ↔ (room.members.length : ℚ) < q := by
  unfold isFull
  rw [hq, JsNum.le_fin, decide_eq_false_iff_not, not_le]

/-- Adding one member to a room that is not full keeps the count within a whole `maxMembers`. -/
theorem grow_within (room : Room) (v : User) (c : Nat)
    (hfull : isFull room = false) :
    (!wholeNumber room.maxMembers ||
      withinCapacity { room with createdBy := c, members := room.members ++ [v] }) = true := by
  cases hm : room.maxMembers with
  | fin q =>
    by_cases hw : q.den = 1
    · have hlt := (isFull_false_iff room q hm).1 hfull
      have hq : ((q.num : ℤ) : ℚ) = q := (Rat.den_eq_one_iff q).1 hw
      rw [← hq] at hlt
      have hlt2 : (room.members.length : ℤ) < q.num := by exact_mod_cast hlt
      have hle : ((room.members.length + 1 : ℕ) : ℤ) ≤ q.num := by
        push_cast
        omega
      have hle2 : ((room.members.length + 1 : ℕ) : ℚ) ≤ q := by
        rw [← hq]
        exact_mod_cast hle
      simp only [withinCapacity, hm, List.length_append, List.length_singleton, JsNum.le_fin,
        Bool.or_eq_true, decide_eq_true_eq]
      exact Or.inr hle2
    · simp [wholeNumber, hw]
  | posInf => simp [wholeNumber]
  | negInf => simp [wholeNumber]
  | nan => simp [wholeNumber]

/-- Removing members keeps the count within `maxMembers`. -/
theorem shrink_within (room : Room) (v c : Nat)
    (h : (!wholeNumber room.maxMembers || withinCapacity room) = true) :
    (!wholeNumber room.maxMembers ||
      withinCapacity { room with createdBy := c, members := pullMember room v }) = true := by
  have hlen : (pullMember room v).length ≤ room.members.length := List.length_filter_le _ _
  cases hm : room.maxMembers with
  | fin q =>
    rw [hm] at h
    simp only [withinCapacity, hm, JsNum.le_fin, Bool.or_eq_true, decide_eq_true_eq] at h ⊢
    rcases h with h | h
    · exact Or.inl h
    · right
      have : ((pullMember room v).length : ℚ) ≤ (room.members.length : ℚ) := by exact_mod_cast hlen
      exact le_trans this h
  | posInf => simp [wholeNumber]
  | negInf => simp [wholeNumber]
  | nan => simp [wholeNumber]

theorem wholeCapacityKept_congr (db db2 : Db) (h : db2.rooms = db.rooms)
    (hk : wholeCapacityKept db = true) : wholeCapacityKept db2 = true := by
  unfold wholeCapacityKept at hk ⊢
  rw [h]
  exact hk

theorem wholeCapacityKept_mem (db : Db) (hk : wholeCapacityKept db = true) (room : Room)
    (h : room ∈ db.rooms) : (!wholeNumber room.maxMembers || withinCapacity room) = true := by
  unfold wholeCapacityKept at hk
  rw [List.all_eq_true] at hk
  exact hk room h

theorem createRoom_capacity (db : Db) (user : User) (body : CreateBody) (code : String)
    (hk : wholeCapacityKept db = true) :
    wholeCapacityKept (createRoom db user body code).2 = true := by
  unfold createRoom
  split
  · exact hk
  · split
    · exact hk
    · rename_i maxMembers _
      split
      · exact hk
      · rename_i hv
        simp only [not_or, Bool.not_eq_true, Bool.not_eq_false] at hv
        have h1 : JsNum.le (JsNum.fin 1) maxMembers = true := by simpa using hv.2.2.1
        unfold wholeCapacityKept at hk ⊢
        show (db.rooms ++ [_]).all _ = true
        rw [List.all_append, hk]
        simp only [List.all_cons, List.all_nil, Bool.and_true, Bool.true_and, withinCapacity,
          List.length_singleton, Nat.cast_one, h1, Bool.or_true]

theorem joinRoom_capacity (db : Db) (user : User) (joinCode : String)
    (hk : wholeCapacityKept db = true) : wholeCapacityKept (joinRoom db user joinCode).2 = true := by
  unfold joinRoom
  cases hf : db.rooms.find? (fun r => r.joinCode == joinCode) with
  | none => exact hk
  | some room =>
    simp only []
    split
    · exact hk
    · split
      · exact hk
      · rename_i hfull
        have hfull2 : isFull room = false := by simpa using hfull
        exact saveRoom_all _ _ _ hk (grow_within room user room.createdBy hfull2)

theorem acceptRequest_capacity (db : Db) (user : User) (requestId : Nat)
    (hk : wholeCapacityKept db = true) :
    wholeCapacityKept (acceptRequest db user requestId).2 = true := by
  unfold acceptRequest
  cases hq : db.requests.find? (fun q => q._id == requestId) with
  | none => exact hk
  | some request =>
    simp only []
    cases hf : findRoomById db request.room with
    | none => exact hk
    | some room =>
      simp only []
      split
      · exact hk
      · split
        · exact hk
        · rename_i hfull
          have hfull2 : isFull room = false := by simpa using hfull
          exact saveRoom_all _ _ _ hk (grow_within room request.user room.createdBy hfull2)

theorem leaveRoom_capacity (db : Db) (user : User) (hk : wholeCapacityKept db = true) :
    wholeCapacityKept (leaveRoom db user).2 = true := by
  unfold leaveRoom
  cases hf : getUserRoom db user with
  | none => exact hk
  | some room =>
    have hin : room ∈ db.rooms := List.mem_of_find?_eq_some hf
    have hr := wholeCapacityKept_mem db hk room hin
    simp only []
    split
    · split
      · exact eraseP_all _ _ _ hk
      · split
        · exact hk
        · rename_i newOwner _
          exact saveRoom_all _ _ _ hk (shrink_within room user._id newOwner._id hr)
    · exact saveRoom_all _ _ _ hk (shrink_within room user._id room.createdBy hr)

theorem removeMember_capacity (db : Db) (user : User) (memberId : Nat)
    (hk : wholeCapacityKept db = true) :
    wholeCapacityKept (removeMember db user memberId).2 = true := by
  unfold removeMember
  cases hf : db.rooms.find? (fun r => r.createdBy == user._id) with
  | none => exact hk
  | some room =>
    have hin : room ∈ db.rooms := List.mem_of_find?_eq_some hf
    have hr := wholeCapacityKept_mem db hk room hin
    simp only []
    split
    · exact hk
    · split
      · exact hk
      · exact saveRoom_all _ _ _ hk (shrink_within room memberId room.createdBy hr)

theorem deleteRoom_capacity (db : Db) (user : User) (hk : wholeCapacityKept db = true) :
    wholeCapacityKept (deleteRoom db user).2 = true := by
  unfold deleteRoom
  split
  · exact hk
  · exact eraseP_all _ _ _ hk

theorem step_capacity (db : Db) (op : Op) (hk : wholeCapacityKept db = true) :
    wholeCapacityKept (step db op) = true := by
  cases op with
  | settle user => exact wholeCapacityKept_congr db _ (settle_rooms db user) hk
  | addExpense user desc amount =>
    exact wholeCapacityKept_congr db _ (addExpense_rooms db user desc amount) hk
  | purchase user itemId amount =>
    exact wholeCapacityKept_congr db _ (purchase_rooms db user itemId amount) hk
  | clear user => exact wholeCapacityKept_congr db _ (clear_rooms db user) hk
  | createRoom user body code => exact createRoom_capacity db user body code hk
  | joinRoom user joinCode => exact joinRoom_capacity db user joinCode hk
  | acceptRequest user requestId => exact acceptRequest_capacity db user requestId hk
  | leaveRoom user => exact leaveRoom_capacity db user hk
  | removeMember user memberId => exact removeMember_capacity db user memberId hk
  | deleteRoom user => exact deleteRoom_capacity db user hk
  | deleteExpense user expenseId =>
    exact wholeCapacityKept_congr db _ (deleteExpense_rooms db user expenseId) hk

theorem run_capacity (ops : List Op) :
    ∀ db : Db, wholeCapacityKept db = true → wholeCapacityKept (run db ops) = true := by
  induction ops with
  | nil => intro db h; exact h
  | cons op ops ih =>
    intro db h
    exact ih (step db op) (step_capacity db op h)

/-- The three outcomes of `POST /join` that matter for the capacity. -/
theorem joinRoom_cases (db : Db) (user : User) (joinCode : String) :
    ((joinRoom db user joinCode).1 = RoomResponse.joined →
        ∃ room, db.rooms.find? (fun r => r.joinCode == joinCode) = some room ∧
          isFull room = false ∧
          (joinRoom db user joinCode).2.rooms =
            saveRoom db.rooms { room with members := room.members ++ [user] }) ∧
      ((joinRoom db user joinCode).1 ≠ RoomResponse.joined → (joinRoom db user joinCode).2 = db) ∧
      (∀ room, db.rooms.find? (fun r => r.joinCode == joinCode) = some room →
        includesMember room user._id = false → isFull room = true →
        joinRoom db user joinCode = (RoomResponse.roomFull, db)) := by
  unfold joinRoom
  cases hf : db.rooms.find? (fun r => r.joinCode == joinCode) with
  | none => simp
  | some room =>
    simp only []
    by_cases hin : includesMember room user._id = true
    · simp [hin]
    · by_cases hfull : isFull room = true
      · simp [hin, hfull]
      · simp [hin, hfull, logAndEmit]

/-- The three outcomes of `PUT /:id/accept` that matter for the capacity. -/
theorem acceptRequest_cases (db : Db) (user : User) (requestId : Nat) :
    ((acceptRequest db user requestId).1 = RoomResponse.accepted →
        ∃ request room, db.requests.find? (fun q => q._id == requestId) = some request ∧
          findRoomById db request.room = some room ∧ isFull room = false ∧
          (acceptRequest db user requestId).2.rooms =
            saveRoom db.rooms { room with members := room.members ++ [request.user] }) ∧
      ((acceptRequest db user requestId).1 ≠ RoomResponse.accepted →
        (acceptRequest db user requestId).2 = db) ∧
      (∀ request room, db.requests.find? (fun q => q._id == requestId) = some request →
        findRoomById db request.room = some room → room.createdBy = user._id →
        isFull room = true →
        acceptRequest db user requestId = (RoomResponse.roomFull, db)) := by
  cases hq : db.requests.find? (fun q => q._id == requestId) with
  | none =>
    have h : acceptRequest db user requestId = (RoomResponse.notAuthorized, db) := by
      simp [acceptRequest, hq]
    rw [h]
    exact ⟨fun h1 => absurd h1 (by simp), fun _ => rfl, fun _ _ h1 => absurd h1 (by simp)⟩
  | some request =>
    cases hf : findRoomById db request.room with
    | none =>
      have h : acceptRequest db user requestId = (RoomResponse.serverError, db) := by
        simp [acceptRequest, hq, hf]
      rw [h]
      refine ⟨fun h1 => absurd h1 (by simp), fun _ => rfl, ?_⟩
      intro r1 room1 he hf1
      injection he with he
      subst he
      rw [hf] at hf1
      exact absurd hf1 (by simp)
    | some room =>
      by_cases hown : room.createdBy = user._id
      · by_cases hfull : isFull room = true
        · have h : acceptRequest db user requestId = (RoomResponse.roomFull, db) := by
            simp [acceptRequest, hq, hf, hown, hfull]
          rw [h]
          exact ⟨fun h1 => absurd h1 (by simp), fun _ => rfl, fun _ _ _ _ _ _ => rfl⟩
        · have h1 : (acceptRequest db user requestId).1 = RoomResponse.accepted := by
            simp [acceptRequest, hq, hf, hown, hfull]
          have h2 : (acceptRequest db user requestId).2.rooms =
              saveRoom db.rooms { room with members := room.members ++ [request.user] } := by
            simp [acceptRequest, hq, hf, hown, hfull, logAndEmit]
          refine ⟨fun _ => ⟨request, room, rfl, hf, by simpa using hfull, h2⟩,
            fun h => absurd h1 h, ?_⟩
          intro r1 room1 he hf1 _ hfull1
          injection he with he
          subst he
          rw [hf] at hf1
          injection hf1 with hf1
          subst hf1
          exact absurd hfull1 hfull
      · have h : acceptRequest db user requestId = (RoomResponse.notAuthorized, db) := by
          simp [acceptRequest, hq, hf, hown]
        rw [h]
        refine ⟨fun h1 => absurd h1 (by simp), fun _ => rfl, ?_⟩
        intro r1 room1 he hf1 hown1
        injection he with he
        subst he
        rw [hf] at hf1
        injection hf1 with hf1
        subst hf1
        exact absurd hown1 hown

/-- C26, the claim as worded fails: A creates a room with `maxMembers: 2.5` and B joins, so the
room holds 2 members, within its `maxMembers`; the join of C passes the test `2 >= 2.5` and the
room then holds 3 members, more than its `maxMembers`. -/
theorem C26_counterexample :
    halfRoomDb.rooms =
        [{ _id := 1, members := [⟨10, "A"⟩, ⟨11, "B"⟩], createdBy := 10, joinCode := "HALF01",
           maxMembers := JsNum.fin (5 / 2) }] ∧
      capacityKept halfRoomDb = true ∧
      (joinRoom halfRoomDb ⟨12, "C"⟩ "HALF01").1 = RoomResponse.joined ∧
      (run halfRoomDb [Op.joinRoom ⟨12, "C"⟩ "HALF01"]).rooms =
        [{ _id := 1, members := [⟨10, "A"⟩, ⟨11, "B"⟩, ⟨12, "C"⟩], createdBy := 10,
           joinCode := "HALF01", maxMembers := JsNum.fin (5 / 2) }] ∧
      capacityKept (run halfRoomDb [Op.joinRoom ⟨12, "C"⟩ "HALF01"]) = false := by
  decide!

/-- C26, amended. Join-by-code and join-request accept add a user only to a room that is not
full (for a finite `maxMembers`: member count strictly below `maxMembers`) and otherwise leave
the database unchanged, answering "Room is full." to a user who is not yet a member of the full
room and to the owner accepting a request for the full room. Hence, if every room whose
`maxMembers` is a whole number has a member count of at most `maxMembers`, this still holds
after any sequence of operations. -/
theorem C26_capacity (db : Db) (ops : List Op) (hk : wholeCapacityKept db = true) :
    wholeCapacityKept (run db ops) = true ∧
      (∀ (db1 : Db) (user : User) (joinCode : String),
        ((joinRoom db1 user joinCode).1 = RoomResponse.joined →
            ∃ room, db1.rooms.find? (fun r => r.joinCode == joinCode) = some room ∧
              isFull room = false ∧
              (joinRoom db1 user joinCode).2.rooms =
                saveRoom db1.rooms { room with members := room.members ++ [user] }) ∧
          ((joinRoom db1 user joinCode).1 ≠ RoomResponse.joined →
            (joinRoom db1 user joinCode).2 = db1) ∧
          (∀ room, db1.rooms.find? (fun r => r.joinCode == joinCode) = some room →
            includesMember room user._id = false → isFull room = true →
            joinRoom db1 user joinCode = (RoomResponse.roomFull, db1))) ∧
      (∀ (db1 : Db) (user : User) (requestId : Nat),
        ((acceptRequest db1 user requestId).1 = RoomResponse.accepted →
            ∃ request room, db1.requests.find? (fun q => q._id == requestId) = some request ∧
              findRoomById db1 request.room = some room ∧ isFull room = false ∧
              (acceptRequest db1 user requestId).2.rooms =
                saveRoom db1.rooms { room with members := room.members ++ [request.user] }) ∧
          ((acceptRequest db1 user requestId).1 ≠ RoomResponse.accepted →
            (acceptRequest db1 user requestId).2 = db1) ∧
          (∀ request room, db1.requests.find? (fun q => q._id == requestId) = some request →
            findRoomById db1 request.room = some room → room.createdBy = user._id →
            isFull room = true →
            acceptRequest db1 user requestId = (RoomResponse.roomFull, db1))) ∧
      (∀ (room : Room) (q : ℚ), room.maxMembers = JsNum.fin q →
        (isFull room = false ↔ (room.members.length : ℚ) < q)) :=
  ⟨run_capacity ops db hk, joinRoom_cases, acceptRequest_cases, isFull_false_iff⟩

/-- C26 for the two rooms (`maxMembers` 4 each): E joins room 1 as its fourth member, F finds
it full, B is removed from it, C leaves it and joins room 2, whose owner then accepts the
request of B. -/
theorem C26_capacity_witness :
    wholeCapacityKept
      (run twoRoomsDb
        [Op.joinRoom ⟨14, "E"⟩ "TRIO01", Op.joinRoom ⟨15, "F"⟩ "TRIO01",
          Op.removeMember ⟨10, "A"⟩ 11, Op.leaveRoom ⟨12, "C"⟩, Op.joinRoom ⟨12, "C"⟩ "SOLO02",
          Op.acceptRequest ⟨13, "D"⟩ 5]) = true :=
  (C26_capacity twoRoomsDb _ (by decide!)).1

/-! ## C22: everyone settling clears the ledger -/

theorem findRoomById_congr (db db2 : Db) (roomId : Nat) (h : db2.rooms = db.rooms) :
    findRoomById db2 roomId = findRoomById db roomId := by
  unfold findRoomById
  rw [h]

/-- One successful settle operation in a state where every member has either no settlement on
record or settlements adding up to the member's shortfall. -/
theorem settle_step_sums (db : Db) (room : Room) (u : User)
    (hroom : getUserRoom db u = some room) (hfin : finiteAmounts db room._id = true)
    (hinv : ∀ k, settlementSum db room._id k = 0 ∨
      (expenseSum db room._id k < perHeadOf db room ∧
        settlementSum db room._id k = perHeadOf db room - expenseSum db room._id k))
    (hpay : ∀ s ∈ findSettlements db room._id, s.paidBy ∈ memberIds room)
    (hok : (settle db u).1 = SettleResponse.settled) :
    (settle db u).2.rooms = db.rooms ∧
      findExpenses (settle db u).2 room._id = findExpenses db room._id ∧
      perHeadOf (settle db u).2 room = perHeadOf db room ∧
      (∀ k, expenseSum (settle db u).2 room._id k = expenseSum db room._id k) ∧
      finiteAmounts (settle db u).2 room._id = true ∧
      (∀ k, settlementSum (settle db u).2 room._id k = 0 ∨
        (expenseSum db room._id k < perHeadOf db room ∧
          settlementSum (settle db u).2 room._id k =
            perHeadOf db room - expenseSum db room._id k)) ∧
      (expenseSum db room._id u._id < perHeadOf db room ∧
        settlementSum (settle db u).2 room._id u._id =
          perHeadOf db room - expenseSum db room._id u._id) ∧
      (∀ k, settlementSum db room._id k ≠ 0 →
        settlementSum (settle db u).2 room._id k = settlementSum db room._id k) ∧
      (∀ s ∈ findSettlements (settle db u).2 room._id, s.paidBy ∈ memberIds room) := by
  have hn : ¬ owedRat db room u._id ≤ 1 / 100 := by
    intro h
    rw [settle_failed db u room hroom hfin h] at hok
    exact absurd hok (by simp)
  obtain ⟨_, f1, f2, f3⟩ := settle_settled_fields db u room hroom hfin hn
  obtain ⟨_, a2, a3, a4, _, _, a7, a8, a9⟩ :=
    appended_settlement db (settle db u).2 room
      (newSettlement room u (owedRat db room u._id)) (owedRat db room u._id)
      f1 f2 f3 rfl rfl
  have hpos : 0 < owedRat db room u._id := by
    have : (0 : ℚ) < 1 / 100 := by norm_num
    linarith [not_le.1 hn]
  have hs0 : settlementSum db room._id u._id = 0 := by
    rcases hinv u._id with h | ⟨_, h⟩
    · exact h
    · exfalso
      unfold owedRat at hpos
      rw [h] at hpos
      linarith
  have howed : owedRat db room u._id = perHeadOf db room - expenseSum db room._id u._id := by
    unfold owedRat
    rw [hs0]
    ring
  have hself : settlementSum (settle db u).2 room._id u._id =
      perHeadOf db room - expenseSum db room._id u._id := by
    rw [a8 u._id, hs0, ← howed]
    simp [newSettlement]
  have hother : ∀ k, k ≠ u._id →
      settlementSum (settle db u).2 room._id k = settlementSum db room._id k := by
    intro k hk
    rw [a8 k]
    have : (newSettlement room u (owedRat db room u._id)).paidBy ≠ k := fun h => hk h.symm
    rw [if_neg this, add_zero]
  have hlt : expenseSum db room._id u._id < perHeadOf db room := by
    rw [howed] at hpos
    linarith
  refine ⟨f1, a2, a4, a7, a9 hfin, ?_, ⟨hlt, hself⟩, ?_, ?_⟩
  · intro k
    by_cases hk : k = u._id
    · rw [hk]
      exact Or.inr ⟨hlt, hself⟩
    · rw [hother k hk]
      exact hinv k
  · intro k hk
    by_cases hku : k = u._id
    · rw [hku] at hk
      exact absurd hs0 hk
    · exact hother k hku
  · intro s hs
    rw [a3] at hs
    rcases List.mem_append.1 hs with h | h
    · exact hpay s h
    · rw [List.mem_singleton] at h
      rw [h]
      exact getUserRoom_mem hroom

/-- A sequence of successful settle operations by members of the room. -/
theorem settle_run_sums (room : Room) (us : List User) :
    ∀ db : Db, finiteAmounts db room._id = true →
      (∀ u ∈ us, getUserRoom db u = some room) →
      (∀ k, settlementSum db room._id k = 0 ∨
        (expenseSum db room._id k < perHeadOf db room ∧
          settlementSum db room._id k = perHeadOf db room - expenseSum db room._id k)) →
      (∀ s ∈ findSettlements db room._id, s.paidBy ∈ memberIds room) →
      allSettled db us = true →
      (run db (us.map Op.settle)).rooms = db.rooms ∧
        findExpenses (run db (us.map Op.settle)) room._id = findExpenses db room._id ∧
        perHeadOf (run db (us.map Op.settle)) room = perHeadOf db room ∧
        (∀ k, expenseSum (run db (us.map Op.settle)) room._id k = expenseSum db room._id k) ∧
        finiteAmounts (run db (us.map Op.settle)) room._id = true ∧
        (∀ k, settlementSum (run db (us.map Op.settle)) room._id k = 0 ∨
          (expenseSum db room._id k < perHeadOf db room ∧
            settlementSum (run db (us.map Op.settle)) room._id k =
              perHeadOf db room - expenseSum db room._id k)) ∧
        (∀ u ∈ us, settlementSum (run db (us.map Op.settle)) room._id u._id =
          perHeadOf db room - expenseSum db room._id u._id) ∧
        (∀ k, settlementSum db room._id k ≠ 0 →
          settlementSum (run db (us.map Op.settle)) room._id k = settlementSum db room._id k) ∧
        (∀ s ∈ findSettlements (run db (us.map Op.settle)) room._id,
          s.paidBy ∈ memberIds room) := by
  induction us with
  | nil =>
    intro db hfin _ hinv hpay _
    exact ⟨rfl, rfl, rfl, fun _ => rfl, hfin, hinv, fun u hu => absurd hu (List.not_mem_nil u),
      fun _ _ => rfl, hpay⟩
  | cons u rest ih =>
    intro db hfin hus hinv hpay hok
    simp only [allSettled, Bool.and_eq_true, decide_eq_true_eq] at hok
    obtain ⟨c1, c2, c3, c4, c5, c6, c7, c8, c9⟩ :=
      settle_step_sums db room u (hus u (List.mem_cons_self _ _)) hfin hinv hpay hok.1
    have hrun : run db ((u :: rest).map Op.settle) = run (settle db u).2 (rest.map Op.settle) := rfl
    have hus1 : ∀ v ∈ rest, getUserRoom (settle db u).2 v = some room := by
      intro v hv
      rw [getUserRoom_congr db _ v c1]
      exact hus v (List.mem_cons_of_mem _ hv)
    have hinv1 : ∀ k, settlementSum (settle db u).2 room._id k = 0 ∨
        (expenseSum (settle db u).2 room._id k < perHeadOf (settle db u).2 room ∧
          settlementSum (settle db u).2 room._id k =
            perHeadOf (settle db u).2 room - expenseSum (settle db u).2 room._id k) := by
      intro k
      rw [c3, c4 k]
      exact c6 k
    obtain ⟨d1, d2, d3, d4, d5, d6, d7, d8, d9⟩ := ih (settle db u).2 c5 hus1 hinv1 c9 hok.2
    rw [hrun]
    refine ⟨d1.trans c1, d2.trans c2, d3.trans c3, fun k => (d4 k).trans (c4 k), d5, ?_, ?_, ?_, d9⟩
    · intro k
      have := d6 k
      rw [c3, c4 k] at this
      exact this
    · intro v hv
      rcases List.mem_cons.1 hv with h | h
      · rw [h]
        have hne : settlementSum (settle db u).2 room._id u._id ≠ 0 := by
          rw [c7.2]
          linarith [c7.1]
        rw [d8 u._id hne, c7.2]
      · have := d7 v h
        rw [c3, c4 v._id] at this
        exact this
    · intro k hk
      have h1 := c8 k hk
      have hne : settlementSum (settle db u).2 room._id k ≠ 0 := by
        rw [h1]
        exact hk
      rw [d8 k hne, h1]

/-- C22. Start from a history of the room without settlements (finite amounts, members listed
once) in which every expense was paid by a current member. If a sequence of settle operations
by members of the room, with nothing else in between, is answered with "settled" each time and
contains every member whose expense sum is below `perHead`, then afterwards the balance
`perHead - contribution` computed by `calculateEffectiveContributions` is exactly 0 for every
member. -/
theorem C22_everyone_settles (db : Db) (room : Room) (us : List User)
    (hkey : findRoomById db room._id = some room) (hfin : finiteAmounts db room._id = true)
    (hnd : (memberIds room).Nodup) (hnone : findSettlements db room._id = [])
    (hpay : ∀ e ∈ findExpenses db room._id, e.addedBy ∈ memberIds room)
    (hus : ∀ u ∈ us, getUserRoom db u = some room)
    (hall : ∀ k ∈ memberIds room, expenseSum db room._id k < perHeadOf db room →
      ∃ u ∈ us, u._id = k)
    (hok : allSettled db us = true) :
    ∀ k ∈ memberIds room,
      balanceOf (calculateEffectiveContributions (run db (us.map Op.settle)) room._id) k =
        JsNum.fin 0 := by
  intro k hk
  have hmem : room.members ≠ [] := by
    intro h
    rw [memberIds, h] at hk
    exact absurd hk (List.not_mem_nil k)
  have hs0 : ∀ j, settlementSum db room._id j = 0 := by
    intro j
    simp [settlementSum, hnone]
  obtain ⟨d1, d2, d3, d4, d5, d6, d7, _, d9⟩ :=
    settle_run_sums room us db hfin hus (fun j => Or.inl (hs0 j))
      (fun s hs => by rw [hnone] at hs; exact absurd hs (List.not_mem_nil s)) hok
  have hkey2 : findRoomById (run db (us.map Op.settle)) room._id = some room := by
    rw [findRoomById_congr db _ _ d1]
    exact hkey
  have hpay2 : ∀ e ∈ findExpenses (run db (us.map Op.settle)) room._id,
      e.addedBy ∈ memberIds room := by
    rw [d2]
    exact hpay
  have hsum : ∀ j ∈ memberIds room, settlementSum (run db (us.map Op.settle)) room._id j =
      if expenseSum db room._id j < perHeadOf db room then
        perHeadOf db room - expenseSum db room._id j else 0 := by
    intro j hj
    by_cases hlt : expenseSum db room._id j < perHeadOf db room
    · rw [if_pos hlt]
      obtain ⟨u, hu, huj⟩ := hall j hj hlt
      rw [← huj]
      exact d7 u hu
    · rw [if_neg hlt]
      rcases d6 j with h | ⟨h, _⟩
      · exact h
      · exact absurd h hlt
  have htotal : totalSettled (run db (us.map Op.settle)) room._id =
      totalDebt (run db (us.map Op.settle)) room := by
    rw [totalDebt_eq_underpaid _ room hmem hnd hpay2, underpaid_eq_keys,
      ← sum_settlementSum _ room d9,
      ← sum_ite_filter (fun j => expenseSum (run db (us.map Op.settle)) room._id j <
        perHeadOf (run db (us.map Op.settle)) room)]
    apply congrArg
    apply List.map_congr_left
    intro j hj
    rw [d3]
    simp only [d4 j]
    exact hsum j ((mem_memberKeys _ _).1 hj)
  rw [balanceOf_eq _ room k hkey2 hmem d5 hk]
  have heff : effectiveRat (run db (us.map Op.settle)) room k =
      perHeadOf (run db (us.map Op.settle)) room := by
    unfold effectiveRat
    rw [htotal, d3, d4 k, hsum k hk]
    by_cases hc : perHeadOf db room < expenseSum db room._id k ∧
        0 < totalDebt (run db (us.map Op.settle)) room
    · rw [if_pos hc, if_neg (not_lt.2 (le_of_lt hc.1)),
        div_mul_cancel₀ _ (ne_of_gt hc.2)]
      ring
    · rw [if_neg hc]
      by_cases hlt : expenseSum db room._id k < perHeadOf db room
      · rw [if_pos hlt]
        ring
      · rw [if_neg hlt, add_zero]
        rcases lt_or_eq_of_le (not_lt.1 hlt) with h | h
        · exfalso
          apply hc
          refine ⟨h, (totalDebt_pos_iff _ room).2 ⟨k, hk, ?_⟩⟩
          rw [d3, d4 k]
          exact h
        · exact h.symm
  rw [heff, sub_self]

/-- C22 for the history in which A paid 300 and B paid 60: C settles 120, then B settles 60,
and the balances of A, B and C are 0. -/
theorem C22_everyone_settles_witness :
    balanceOf
          (calculateEffectiveContributions
            (run unsettledDb ([(⟨12, "C"⟩ : User), ⟨11, "B"⟩].map Op.settle)) exampleRoom._id) 10 =
        JsNum.fin 0 ∧
      balanceOf
          (calculateEffectiveContributions
            (run unsettledDb ([(⟨12, "C"⟩ : User), ⟨11, "B"⟩].map Op.settle)) exampleRoom._id) 11 =
        JsNum.fin 0 ∧
      balanceOf
          (calculateEffectiveContributions
            (run unsettledDb ([(⟨12, "C"⟩ : User), ⟨11, "B"⟩].map Op.settle)) exampleRoom._id) 12 =
        JsNum.fin 0 :=
  have h := C22_everyone_settles unsettledDb exampleRoom [⟨12, "C"⟩, ⟨11, "B"⟩] (by decide)
    (by decide) (by decide) (by decide) (by decide) (by decide)
    (by
      intro k hk hlt
      simp only [memberIds, exampleRoom, List.map_cons, List.map_nil, List.mem_cons,
        List.mem_singleton, List.not_mem_nil, or_false] at hk
      rcases hk with h | h | h
      · subst h
        exact absurd hlt (by decide!)
      · subst h
        exact ⟨⟨11, "B"⟩, by simp, rfl⟩
      · subst h
        exact ⟨⟨12, "C"⟩, by simp, rfl⟩)
    (by decide!)
  ⟨h 10 (by decide), h 11 (by decide), h 12 (by decide)⟩

end Livaura
